import Mathlib

/-! PHTpcCentralMembraneMatcher: matching loop, distortion grids, truth positions, radial peaks

A shallow embedding of `offline/packages/tpccalib/PHTpcCentralMembraneMatcher.cc` and of the
node checks of `offline/QA/Tracking/TpcSeedsQA.cc`.

Conventions of the embedding:

* a C++ `double` is a rational number (`ℚ`): arithmetic is exact, there is no
  rounding, no NaN and no infinity;
* a ROOT `TVector3` is seen through the accessors the code calls on it
  (`Perp()`, which is also what `get_r(X(), Y())` computes, `Phi()` and `Z()`);
* a ROOT two-dimensional histogram is a bin-indexed table of contents and errors;
* a `std::vector` is a `List`, a loop is a recursion or a fold over the index range.
-/

namespace PHTpcCentralMembraneMatcher

/-! ## Scalars and vectors -/

/-- The constant `M_PI` of `<cmath>`: the double nearest to π, which is the
rational `884279719003555 / 2^48`. -/
def M_PI : ℚ := 884279719003555 / 281474976710656

/-- The helper `delta_phi` (anonymous namespace): bring an angle difference back
by one turn when it left the interval `(-M_PI, M_PI]`. -/
def delta_phi (phi : ℚ) : ℚ :=
  if phi > M_PI then phi - 2 * M_PI
  else if phi ≤ -M_PI then phi + 2 * M_PI
  else phi

/-- Modelled from the spec: `TVector3` belongs to the ROOT library, not to the sources.  A
position is what the matcher reads from it: the transverse radius `Perp()` (equal to
`get_r(X(), Y())`), the azimuth `Phi()` and the longitudinal coordinate `Z()`. -/
structure TVector3 where
  Perp : ℚ
  Phi : ℚ
  Z : ℚ
deriving DecidableEq

/-! ## Radial look-up -/

/-- The `lowGap` chosen by the conditional chain of `getClusterRMatch`. -/
def lowGap (hitMatch : Int) : ℚ :=
  if hitMatch ≤ 14 then 0.565985
  else if hitMatch = 15 then 0.565985
  else if hitMatch = 16 then 1.2409686
  else if hitMatch ≥ 17 ∧ hitMatch ≤ 22 then 1.020695
  else if hitMatch = 23 then 1.020695
  else if hitMatch = 24 then 1.5001502
  else if hitMatch ≥ 25 then 1.09705
  else 0

/-- The `highGap` chosen by the conditional chain of `getClusterRMatch`. -/
def highGap (hitMatch : Int) : ℚ :=
  if hitMatch ≤ 14 then 0.565985
  else if hitMatch = 15 then 1.2409686
  else if hitMatch = 16 then 1.020695
  else if hitMatch ≥ 17 ∧ hitMatch ≤ 22 then 1.020695
  else if hitMatch = 23 then 1.5001502
  else if hitMatch = 24 then 1.09705
  else if hitMatch ≥ 25 then 1.09705
  else 0

/-- The function `getClusterRMatch`: walk `hitMatches` and `clusterPeaks` in step and
return the first `hitMatches[i]` whose window `(peak - lowGap, peak + highGap]` holds
`clusterR`, or `-1`.  The source reads `clusterPeaks[i]` for every `i < hitMatches.size()`;
a read past the end of `clusterPeaks` is the result `none`. -/
def getClusterRMatch : List Int → List ℚ → ℚ → Option Int
  | [], _, _ => some (-1)
  | _ :: _, [], _ => none
  | h :: hs, p :: ps, clusterR =>
    if clusterR > p - lowGap h ∧ clusterR ≤ p + highGap h then some h
    else getClusterRMatch hs ps clusterR

/-- The index `R23Gap_pos` / `R23Gap_neg` of `process_event`: the last `i` with
`peaks[i+1] - peaks[i] >= 2.5`, or `-1`. -/
def R23Gap (clust_RPeaks : List ℚ) : Int :=
  (List.range (clust_RPeaks.length - 1)).foldl
    (fun g i => if clust_RPeaks.getD (i + 1) 0 - clust_RPeaks.getD i 0 ≥ 2.5 then (i : Int) else g)
    (-1)

/-- The vector `hitMatches_pos` / `hitMatches_neg` of `process_event`:
entry `i` is `i + 23 - R23Gap`. -/
def hitMatches (clust_RPeaks : List ℚ) : List Int :=
  (List.range clust_RPeaks.length).map (fun i => (i : Int) + 23 - R23Gap clust_RPeaks)

/-- The search for `hitRadIndex` in `process_event`, started at index `k`: the first
index whose peak is closer than `0.5` to `rad1`, or `-1`. -/
def hitRadIndexFrom (k : Nat) : List ℚ → ℚ → Int
  | [], _ => -1
  | p :: ps, rad1 => if |rad1 - p| < 0.5 then (k : Int) else hitRadIndexFrom (k + 1) ps rad1

/-- The value of `hitRadIndex` for a truth point of radius `rad1`. -/
def hitRadIndex (hit_RPeaks : List ℚ) (rad1 : ℚ) : Int :=
  hitRadIndexFrom 0 hit_RPeaks rad1

/-! ## The matching loop of `process_event` -/

/-- What the matching loop of `process_event` reads: the truth positions `m_truth_pos`, the
reconstructed clusters of the event with their multiplicities, the radial peaks returned by
`getRPeaks`, the rotation offsets (the arrays `clustRotation_pos`, `clustRotation_neg` and the
member array `hitRotation`, declared in a header that is not among the sources) and the
azimuthal cut `m_phi_cut`. -/
structure MatchInput where
  m_truth_pos : List TVector3
  reco_pos : List TVector3
  reco_nclusters : List Nat
  hit_RPeaks : List ℚ
  clust_RPeaks_pos : List ℚ
  clust_RPeaks_neg : List ℚ
  hitRotation : Nat → ℚ
  clustRotation_pos : Nat → ℚ
  clustRotation_neg : Nat → ℚ
  m_phi_cut : ℚ

/-- The region index `angleR` of a cluster: an if / else-if on the radius followed by
a separate if. -/
def angleR (perp : ℚ) : Int :=
  let a : Int := if perp < 41 then 0 else if perp ≥ 41 ∧ perp < 58 then 1 else -1
  if perp ≥ 58 then 2 else a

/-- The rotated azimuth `phi2` of a cluster. -/
def phi2 (inp : MatchInput) (c : TVector3) : ℚ :=
  if angleR c.Perp ≠ -1 then
    if c.Z > 0 then
      c.Phi + (inp.hitRotation ((angleR c.Perp).toNat + 1) - inp.clustRotation_pos (angleR c.Perp).toNat)
    else
      c.Phi + (inp.hitRotation ((angleR c.Perp).toNat + 1) - inp.clustRotation_neg (angleR c.Perp).toNat)
  else c.Phi

/-- The value `clustRMatchIndex` of a cluster: the radial look-up on the peaks of the
side of the cluster.  A read past the end of the peak vector counts as no match. -/
def clustRMatchIndex (inp : MatchInput) (c : TVector3) : Int :=
  if c.Z > 0 then
    (getClusterRMatch (hitMatches inp.clust_RPeaks_pos) inp.clust_RPeaks_pos c.Perp).getD (-1)
  else
    (getClusterRMatch (hitMatches inp.clust_RPeaks_neg) inp.clust_RPeaks_neg c.Perp).getD (-1)

/-- The residual `dphi = delta_phi(phi1 - phi2)` of a truth point and a cluster. -/
def dphi (inp : MatchInput) (t c : TVector3) : ℚ :=
  delta_phi (t.Phi - phi2 inp c)

/-- The variables of the loop over clusters for one truth point. -/
structure ScanState where
  prev_dphi : ℚ
  matchJ : Int
  hits_matched : List Bool
deriving DecidableEq

/-- The body of the loop over clusters for truth point `i` (position `t`) and cluster `j`
(position `c`). -/
def scanBody (inp : MatchInput) (clusts_matched : List Bool) (i : Nat) (t : TVector3)
    (st : ScanState) (j : Nat) (c : TVector3) : ScanState :=
  if clusts_matched.getD j false then st
  else if clustRMatchIndex inp c = -1 then st
  else if ¬ (decide (t.Z > 0) = decide (c.Z > 0)) then st
  else if ¬ (hitRadIndex inp.hit_RPeaks t.Perp = clustRMatchIndex inp c) ∨
      ¬ (|dphi inp t c| < inp.m_phi_cut) then st
  else if |dphi inp t c| < |st.prev_dphi| then
    { prev_dphi := dphi inp t c, matchJ := (j : Int), hits_matched := st.hits_matched.set i true }
  else st

/-- The loop over clusters, from index `j` on. -/
def scanFrom (inp : MatchInput) (clusts_matched : List Bool) (i : Nat) (t : TVector3) :
    Nat → List TVector3 → ScanState → ScanState
  | _, [], st => st
  | j, c :: cs, st =>
    scanFrom inp clusts_matched i t (j + 1) cs (scanBody inp clusts_matched i t st j c)

/-- The vectors the matching loop updates. -/
structure MatchState where
  hits_matched : List Bool
  clusts_matched : List Bool
  matched_pair : List (Nat × Nat)
  matched_nclus : List Nat
deriving DecidableEq

/-- The body of the loop over truth positions for truth point `i` (position `t`). -/
def truthBody (inp : MatchInput) (s : MatchState) (i : Nat) (t : TVector3) : MatchState :=
  if s.hits_matched.getD i false then s
  else
    let st := scanFrom inp s.clusts_matched i t 0 inp.reco_pos
      { prev_dphi := 1.1 * inp.m_phi_cut, matchJ := -1, hits_matched := s.hits_matched }
    if st.matchJ ≠ -1 then
      { hits_matched := st.hits_matched
        clusts_matched := s.clusts_matched.set st.matchJ.toNat true
        matched_pair := s.matched_pair ++ [(i, st.matchJ.toNat)]
        matched_nclus := s.matched_nclus ++ [inp.reco_nclusters.getD st.matchJ.toNat 0] }
    else { s with hits_matched := st.hits_matched }

/-- The loop over truth positions, from index `i` on. -/
def truthFrom (inp : MatchInput) : Nat → List TVector3 → MatchState → MatchState
  | _, [], s => s
  | i, t :: ts, s => truthFrom inp (i + 1) ts (truthBody inp s i t)

/-- One iteration of the loop over `matchIt`: a pass over the whole truth list. -/
def matchPass (inp : MatchInput) (s : MatchState) : MatchState :=
  truthFrom inp 0 inp.m_truth_pos s

/-- The vectors before the first pass: nothing matched, no pair. -/
def matchInit (inp : MatchInput) : MatchState :=
  { hits_matched := List.replicate inp.m_truth_pos.length false
    clusts_matched := List.replicate inp.reco_pos.length false
    matched_pair := []
    matched_nclus := [] }

/-- The matching loop of `process_event`: two passes (`matchIt = 0, 1`). -/
def matching (inp : MatchInput) : MatchState :=
  (List.range 2).foldl (fun s _ => matchPass inp s) (matchInit inp)

/-! ## The residuals of a matched pair -/

/-- The quantities that `process_event` computes for a matched pair before filling the
distortion histograms: the histogram side, the fill position and the three residuals. -/
structure Residual where
  side : Fin 2
  clus_phi : ℚ
  clus_r : ℚ
  dr : ℚ
  rdphi : ℚ
  dz : ℚ
deriving DecidableEq

/-- The residual computation of `process_event` for truth position `t` and cluster `c`. -/
def residual (t c : TVector3) : Residual :=
  { side := if c.Z < 0 then 0 else 1
    clus_phi := if c.Phi < 0 then c.Phi + 2 * M_PI else c.Phi
    clus_r := c.Perp
    dr := c.Perp - t.Perp
    rdphi := c.Perp * delta_phi (c.Phi - t.Phi)
    dz := c.Z - t.Z }

/-! ## Distortion histograms: `normalize_distortions` and `fill_guarding_bins` -/

/-- Modelled from the spec: the histogram classes `TH2F` and `TH2I` belong to the ROOT library,
not to the sources; the spec treats them as a binned accumulator.  A histogram is the numbers
of bins of the two axes and, for every pair of bin indices, a content and an error.  Bin `0`
and bin `nbins + 1` of an axis are its underflow and overflow bins. -/
@[ext]
structure TH2 where
  nbinsX : Nat
  nbinsY : Nat
  content : Nat → Nat → ℚ
  error : Nat → Nat → ℚ

namespace TH2

/-- The method `GetNbinsX`. -/
def GetNbinsX (h : TH2) : Nat := h.nbinsX

/-- The method `GetNbinsY`. -/
def GetNbinsY (h : TH2) : Nat := h.nbinsY

/-- The method `GetBinContent(binx, biny)`. -/
def GetBinContent (h : TH2) (binx biny : Nat) : ℚ := h.content binx biny

/-- The method `GetBinError(binx, biny)`. -/
def GetBinError (h : TH2) (binx biny : Nat) : ℚ := h.error binx biny

/-- The method `SetBinContent(binx, biny, content)`: only the content of that bin changes. -/
def SetBinContent (h : TH2) (binx biny : Nat) (v : ℚ) : TH2 :=
  { h with content := fun x y => if x = binx ∧ y = biny then v else h.content x y }

/-- The method `SetBinError(binx, biny, error)`: only the error of that bin changes. -/
def SetBinError (h : TH2) (binx biny : Nat) (v : ℚ) : TH2 :=
  { h with error := fun x y => if x = binx ∧ y = biny then v else h.error x y }

end TH2

/-- Modelled from the spec: the class `TpcDistortionCorrectionContainer` is declared in a header
that is not among the sources.  It holds, per side (`0`: negative z, `1`: positive z), the
three residual histograms (radial, azimuthal times radius, z) and the entry counts. -/
@[ext]
structure TpcDistortionCorrectionContainer where
  m_hDRint : Fin 2 → TH2
  m_hDPint : Fin 2 → TH2
  m_hDZint : Fin 2 → TH2
  m_hentries : Fin 2 → TH2

/-- The two statements applied to each residual histogram `h` in `normalize_distortions`:
divide the content, then the error, of bin `(binx, biny)` by `entries`. -/
def normalizeHist (h : TH2) (binx biny : Nat) (entries : ℚ) : TH2 :=
  let h1 := h.SetBinContent binx biny (h.GetBinContent binx biny / entries)
  h1.SetBinError binx biny (h1.GetBinError binx biny / entries)

/-- The body of the loops of `normalize_distortions` for side `i` and loop indices `ip`, `ir`. -/
def normalizeBin (dcc : TpcDistortionCorrectionContainer) (i : Fin 2) (ip ir : Nat) :
    TpcDistortionCorrectionContainer :=
  let entries := (dcc.m_hentries i).GetBinContent (ip + 1) (ir + 1)
  if entries ≤ 1 then dcc
  else
    { dcc with
      m_hDRint := Function.update dcc.m_hDRint i (normalizeHist (dcc.m_hDRint i) (ip + 1) (ir + 1) entries)
      m_hDPint := Function.update dcc.m_hDPint i (normalizeHist (dcc.m_hDPint i) (ip + 1) (ir + 1) entries)
      m_hDZint := Function.update dcc.m_hDZint i (normalizeHist (dcc.m_hDZint i) (ip + 1) (ir + 1) entries) }

/-- The function `normalize_distortions`: the loop over the two sides, over `ip` and over `ir`.
The loop bounds are read from the entry histogram, which the loop body never changes. -/
def normalize_distortions (dcc : TpcDistortionCorrectionContainer) :
    TpcDistortionCorrectionContainer :=
  ([0, 1] : List (Fin 2)).foldl
    (fun d i =>
      (List.range (d.m_hentries i).GetNbinsX).foldl
        (fun d ip =>
          (List.range (d.m_hentries i).GetNbinsY).foldl (fun d ir => normalizeBin d i ip ir) d)
        d)
    dcc

/-- The body of the loop over `ir` in `fill_guarding_bins`, for one histogram.  A ROOT
histogram has at least one bin per axis, so `phibins - 1` is not negative. -/
def fillPhiGuard (phibins : Nat) (h : TH2) (ir : Nat) : TH2 :=
  let h := h.SetBinContent 1 (ir + 1) (h.GetBinContent (phibins - 1) (ir + 1))
  let h := h.SetBinError 1 (ir + 1) (h.GetBinError (phibins - 1) (ir + 1))
  let h := h.SetBinContent phibins (ir + 1) (h.GetBinContent 2 (ir + 1))
  h.SetBinError phibins (ir + 1) (h.GetBinError 2 (ir + 1))

/-- The body of the loop over `iphi` in `fill_guarding_bins`, for one histogram.  A ROOT
histogram has at least one bin per axis, so `rbins - 1` is not negative. -/
def fillRGuard (rbins : Nat) (h : TH2) (iphi : Nat) : TH2 :=
  let h := h.SetBinContent (iphi + 1) 1 (h.GetBinContent (iphi + 1) 2)
  let h := h.SetBinError (iphi + 1) 1 (h.GetBinError (iphi + 1) 2)
  let h := h.SetBinContent (iphi + 1) rbins (h.GetBinContent (iphi + 1) (rbins - 1))
  h.SetBinError (iphi + 1) rbins (h.GetBinError (iphi + 1) (rbins - 1))

/-- What `fill_guarding_bins` does to one histogram: the loop over `ir`, then the loop over `iphi`. -/
def fillGuardHist (h : TH2) : TH2 :=
  let phibins := h.GetNbinsX
  let rbins := h.GetNbinsY
  let h1 := (List.range rbins).foldl (fillPhiGuard phibins) h
  (List.range phibins).foldl (fillRGuard rbins) h1

/-- The function `fill_guarding_bins`: for each side, the four histograms in turn. -/
def fill_guarding_bins (dcc : TpcDistortionCorrectionContainer) :
    TpcDistortionCorrectionContainer :=
  ([0, 1] : List (Fin 2)).foldl
    (fun d i =>
      { m_hDRint := Function.update d.m_hDRint i (fillGuardHist (d.m_hDRint i))
        m_hDPint := Function.update d.m_hDPint i (fillGuardHist (d.m_hDPint i))
        m_hDZint := Function.update d.m_hDZint i (fillGuardHist (d.m_hDZint i))
        m_hentries := Function.update d.m_hentries i (fillGuardHist (d.m_hentries i)) })
    dcc

/-! ## Predicates and closed forms used to state the properties -/

/-- The gates of the matching loop that do not depend on the matched flags. -/
def gates (inp : MatchInput) (t c : TVector3) : Prop :=
  clustRMatchIndex inp c ≠ -1 ∧ decide (t.Z > 0) = decide (c.Z > 0) ∧
    hitRadIndex inp.hit_RPeaks t.Perp = clustRMatchIndex inp c ∧
    |dphi inp t c| < inp.m_phi_cut

instance instDecidableGates (inp : MatchInput) (t c : TVector3) : Decidable (gates inp t c) := by
  unfold gates; infer_instance

/-- Cluster `j` (position `c`) is a candidate for the truth point at `t`. -/
def cand (inp : MatchInput) (clusts_matched : List Bool) (t : TVector3) (j : Nat)
    (c : TVector3) : Prop :=
  clusts_matched.getD j false = false ∧ gates inp t c

instance instDecidableCand (inp : MatchInput) (cm : List Bool) (t : TVector3) (j : Nat)
    (c : TVector3) : Decidable (cand inp cm t j c) := by
  unfold cand; infer_instance

/-- The matched flags and the list of pairs agree, and no index is paired twice. -/
structure WF (inp : MatchInput) (s : MatchState) : Prop where
  hits_len : s.hits_matched.length = inp.m_truth_pos.length
  clusts_len : s.clusts_matched.length = inp.reco_pos.length
  hits_iff : ∀ i, s.hits_matched.getD i false = true ↔ i ∈ s.matched_pair.map Prod.fst
  clusts_iff : ∀ j, s.clusts_matched.getD j false = true ↔ j ∈ s.matched_pair.map Prod.snd
  nodup_fst : (s.matched_pair.map Prod.fst).Nodup
  nodup_snd : (s.matched_pair.map Prod.snd).Nodup

/-- Cluster `j` is the best choice for truth point `i` when the clusters in `used` are
taken: it passes the gates, and among the free clusters passing the gates it has the
smallest residual, with the lowest index on a tie. -/
def Best (inp : MatchInput) (i j : Nat) (used : List Nat) : Prop :=
  ∃ t c, inp.m_truth_pos[i]? = some t ∧ inp.reco_pos[j]? = some c ∧ j ∉ used ∧
    gates inp t c ∧
    ∀ j' c', inp.reco_pos[j']? = some c' → j' ∉ used → gates inp t c' →
      |dphi inp t c| ≤ |dphi inp t c'| ∧ (|dphi inp t c'| = |dphi inp t c| → j ≤ j')

/-- Every pair of the list was the best choice given the pairs before it. -/
def AllBest (inp : MatchInput) (s : MatchState) : Prop :=
  ∀ pre i j post, s.matched_pair = pre ++ (i, j) :: post → Best inp i j (pre.map Prod.snd)

/-- After the truth points below `i` were processed, the unmatched ones among them have no
free cluster passing the gates. -/
def Settled (inp : MatchInput) (i : Nat) (s : MatchState) : Prop :=
  ∀ i' t', i' < i → inp.m_truth_pos[i']? = some t' → s.hits_matched.getD i' false = false →
    ∀ j c, inp.reco_pos[j]? = some c → ¬ cand inp s.clusts_matched t' j c

/-- The sign of a coordinate: `1`, `-1` or `0`. -/
def sign (z : ℚ) : Int := if z > 0 then 1 else if z < 0 then -1 else 0

/-- Index `k` is the first one whose peak is closer than `0.5` to the radius `r`. -/
def FirstPeak (peaks : List ℚ) (r : ℚ) (k : Nat) : Prop :=
  (∃ p, peaks[k]? = some p ∧ |r - p| < 0.5) ∧
    ∀ k' p', k' < k → peaks[k']? = some p' → ¬ |r - p'| < 0.5

/-- A truth pattern of 25 radii `20, 21, ..., 44` at azimuth 0: entry `2n` is on the side
`z = +1` and entry `2n + 1` on the side `z = -1`, both at radius `20 + n`. -/
def truthRing : List TVector3 :=
  (List.range 50).map (fun n => ⟨(20 : ℚ) + ((n / 2 : Nat) : ℚ), 0, if n % 2 = 0 then 1 else -1⟩)

/-- The radial peaks of `truthRing`: the centres `20.1, 21.1, ..., 44.1` of the bins of width
`0.2` that hold the 25 radii. -/
def peaks25 : List ℚ := (List.range 25).map (fun k => (20.1 : ℚ) + k)

/-- An event with two clusters at radius 44: cluster 0 has `z = 0` and the azimuth of the truth
points, cluster 1 has `z < 0` (it makes the radial peak of the negative side) and lies
outside the cut.  Truth point 49 is the one at radius 44 (radial peak index 24) with `z = -1`. -/
def inputZ0 : MatchInput :=
  { m_truth_pos := truthRing
    reco_pos := [⟨44, 0, 0⟩, ⟨44, 1 / 2, -1 / 2⟩]
    reco_nclusters := [1, 1]
    hit_RPeaks := peaks25
    clust_RPeaks_pos := []
    clust_RPeaks_neg := [44.1]
    hitRotation := fun _ => 0
    clustRotation_pos := fun _ => 0
    clustRotation_neg := fun _ => 0
    m_phi_cut := 0.05 }

/-- An event with two clusters on the negative side at radius 44, both inside the cut of truth
point 49, the second one closer. -/
def inputTwo : MatchInput :=
  { m_truth_pos := truthRing
    reco_pos := [⟨44, 0.02, -1⟩, ⟨44, 0.01, -1⟩]
    reco_nclusters := [1, 2]
    hit_RPeaks := peaks25
    clust_RPeaks_pos := []
    clust_RPeaks_neg := [44.1]
    hitRotation := fun _ => 0
    clustRotation_pos := fun _ => 0
    clustRotation_neg := fun _ => 0
    m_phi_cut := 0.05 }

/-- Bin-wise description of a partly normalized histogram: the bins selected by `done` with
more than one entry are divided by the entry count. -/
def scaleOn (done : Nat → Nat → Bool) (entries h : TH2) : TH2 :=
  { h with
    content := fun x y =>
      if done x y = true ∧ entries.content x y > 1 then h.content x y / entries.content x y
      else h.content x y
    error := fun x y =>
      if done x y = true ∧ entries.content x y > 1 then h.error x y / entries.content x y
      else h.error x y }

/-- Bin-wise description of a partly normalized container: `scaleOn` on the three residual
histograms of each side, the entry histograms as they are. -/
def normOn (done : Fin 2 → Nat → Nat → Bool) (dcc : TpcDistortionCorrectionContainer) :
    TpcDistortionCorrectionContainer :=
  { m_hDRint := fun s => scaleOn (done s) (dcc.m_hentries s) (dcc.m_hDRint s)
    m_hDPint := fun s => scaleOn (done s) (dcc.m_hentries s) (dcc.m_hDPint s)
    m_hDZint := fun s => scaleOn (done s) (dcc.m_hentries s) (dcc.m_hDZint s)
    m_hentries := dcc.m_hentries }

/-- The bins that `normalize_distortions` visits on side `s`: `1 ≤ x ≤ nbinsX`, `1 ≤ y ≤ nbinsY`
of the entry histogram of that side. -/
def inGrid (dcc : TpcDistortionCorrectionContainer) (s : Fin 2) (x y : Nat) : Bool :=
  decide (1 ≤ x ∧ x ≤ (dcc.m_hentries s).nbinsX) && decide (1 ≤ y ∧ y ≤ (dcc.m_hentries s).nbinsY)

/-- The azimuth bin whose value ends in bin `x` of a row treated by the loop over `ir`. -/
def wrapPhi (phibins x : Nat) : Nat :=
  if x = phibins then 2 else if x = 1 then phibins - 1 else x

/-- The radial bin whose value ends in bin `y` of a column treated by the loop over `iphi`. -/
def clampR (rbins y : Nat) : Nat :=
  if y = rbins then (if rbins = 2 then 2 else rbins - 1) else if y = 1 then 2 else y

/-- The histogram after `k` iterations of the loop over `ir`. -/
def phiDone (phibins k : Nat) (h : TH2) : TH2 :=
  { h with
    content := fun x y => if 1 ≤ y ∧ y ≤ k then h.content (wrapPhi phibins x) y else h.content x y
    error := fun x y => if 1 ≤ y ∧ y ≤ k then h.error (wrapPhi phibins x) y else h.error x y }

/-- The histogram after `k` iterations of the loop over `iphi`. -/
def rDone (rbins k : Nat) (h : TH2) : TH2 :=
  { h with
    content := fun x y => if 1 ≤ x ∧ x ≤ k then h.content x (clampR rbins y) else h.content x y
    error := fun x y => if 1 ≤ x ∧ x ≤ k then h.error x (clampR rbins y) else h.error x y }

/-- A histogram with the same content and the same error in every bin. -/
def constHist (nx ny : Nat) (v e : ℚ) : TH2 :=
  { nbinsX := nx, nbinsY := ny, content := fun _ _ => v, error := fun _ _ => e }

/-- A 4 x 4 histogram whose bins all differ. -/
def rampHist : TH2 :=
  { nbinsX := 4, nbinsY := 4, content := fun x y => 10 * x + y, error := fun x y => x + 10 * y }

/-- A container whose bins all hold two entries with residual sum 4 and error 4. -/
def dccTwo : TpcDistortionCorrectionContainer :=
  { m_hDRint := fun _ => constHist 3 3 4 4
    m_hDPint := fun _ => constHist 3 3 4 4
    m_hDZint := fun _ => constHist 3 3 4 4
    m_hentries := fun _ => constHist 3 3 2 0 }

/-- The per-event container of an event without matched pair: every bin is zero. -/
def dccZero : TpcDistortionCorrectionContainer :=
  { m_hDRint := fun _ => constHist 3 3 0 0
    m_hDPint := fun _ => constHist 3 3 0 0
    m_hDZint := fun _ => constHist 3 3 0 0
    m_hentries := fun _ => constHist 3 3 0 0 }

/-- A container whose four histograms on each side are `rampHist`. -/
def dccRamp : TpcDistortionCorrectionContainer :=
  { m_hDRint := fun _ => rampHist
    m_hDPint := fun _ => rampHist
    m_hDZint := fun _ => rampHist
    m_hentries := fun _ => rampHist }

/-- The guard bins of `h'` repeat interior bins of `h`: periodically in azimuth for the
interior radial bins, clamped in radius for the interior azimuth bins. -/
def GuardsCopied (h h' : TH2) : Prop :=
  (∀ ir, 2 ≤ ir → ir ≤ h.nbinsY - 1 →
    h'.content 1 ir = h.content (h.nbinsX - 1) ir ∧ h'.error 1 ir = h.error (h.nbinsX - 1) ir ∧
    h'.content h.nbinsX ir = h.content 2 ir ∧ h'.error h.nbinsX ir = h.error 2 ir) ∧
  (∀ ip, 2 ≤ ip → ip ≤ h.nbinsX - 1 →
    h'.content ip 1 = h.content ip 2 ∧ h'.error ip 1 = h.error ip 2 ∧
    h'.content ip h.nbinsY = h.content ip (h.nbinsY - 1) ∧
    h'.error ip h.nbinsY = h.error ip (h.nbinsY - 1))

/-! ## Windows of the radial look-up and scenario inputs -/

/-- The radius `clusterR` lies in the window of a peak at `p` whose layer index is `h`:
above `p - lowGap` (excluded) and up to `p + highGap` (included). -/
def inWindow (h : Int) (p clusterR : ℚ) : Prop :=
  clusterR > p - lowGap h ∧ clusterR ≤ p + highGap h

instance instDecidableInWindow (h : Int) (p clusterR : ℚ) : Decidable (inWindow h p clusterR) := by
  unfold inWindow; infer_instance

/-- Index `i` is the first one whose window holds `clusterR`; `h` is `hitMatches[i]`. -/
def FirstWindow (hitMatches : List Int) (clusterPeaks : List ℚ) (clusterR : ℚ) (i : Nat)
    (h : Int) : Prop :=
  hitMatches[i]? = some h ∧ (∃ p : ℚ, clusterPeaks[i]? = some p ∧ inWindow h p clusterR) ∧
    ∀ (i' : Nat) (h' : Int) (p' : ℚ), i' < i → hitMatches[i']? = some h' →
      clusterPeaks[i']? = some p' →
      ¬ inWindow h' p' clusterR

/-- No window holds `clusterR`. -/
def NoWindow (hitMatches : List Int) (clusterPeaks : List ℚ) (clusterR : ℚ) : Prop :=
  ∀ (i : Nat) (h : Int) (p : ℚ), hitMatches[i]? = some h → clusterPeaks[i]? = some p →
    ¬ inWindow h p clusterR


/-- An event whose only cluster, at radius 50, is outside the window of the only radial peak
of its side (`44.1`, layer index 24), at the azimuth of the truth points. -/
def inputGap : MatchInput :=
  { m_truth_pos := truthRing
    reco_pos := [⟨50, 0, -1⟩]
    reco_nclusters := [1]
    hit_RPeaks := peaks25
    clust_RPeaks_pos := []
    clust_RPeaks_neg := [44.1]
    hitRotation := fun _ => 0
    clustRotation_pos := fun _ => 0
    clustRotation_neg := fun _ => 0
    m_phi_cut := 0.05 }

end PHTpcCentralMembraneMatcher

/-! ## The quality-assurance module `TpcSeedsQA` -/

/-- Modelled from the spec: the return codes of the framework (`Fun4AllReturnCodes.h`, not among
the sources) that `TpcSeedsQA::InitRun` uses: event accepted, abort the event, abort the run. -/
inductive Fun4AllReturnCodes where
  | EVENT_OK
  | ABORTEVENT
  | ABORTRUN
deriving DecidableEq

namespace TpcSeedsQA

/-- What `findNode::getClass` finds on the node tree for `TpcSeedsQA::InitRun`: for each of the
five nodes, whether the pointer it returns is non-null. -/
structure Nodes where
  clustermap : Bool
  actsgeom : Bool
  g4geom : Bool
  trackmap : Bool
  vertexmap : Bool
deriving DecidableEq

/-- A node tree on which the five nodes are found. -/
def allFound : Nodes :=
  { clustermap := true
    actsgeom := true
    g4geom := true
    trackmap := true
    vertexmap := true }

/-- A node tree on which none of the five nodes is found. -/
def noneFound : Nodes :=
  { clustermap := false
    actsgeom := false
    g4geom := false
    trackmap := false
    vertexmap := false }

/-- The function `TpcSeedsQA::InitRun`, as far as its return value goes: the two checks on the
nodes, then (histogram bookkeeping) `EVENT_OK`. -/
def InitRun (n : Nodes) : Fun4AllReturnCodes :=
  if !n.trackmap || !n.clustermap || !n.actsgeom || !n.vertexmap then
    Fun4AllReturnCodes.ABORTEVENT
  else if !n.g4geom then Fun4AllReturnCodes.ABORTRUN
  else Fun4AllReturnCodes.EVENT_OK

end TpcSeedsQA

namespace PHTpcCentralMembraneMatcher

/-! ## Accumulation of the matched pairs: `process_event` and `End` -/

/-- Modelled from the spec: what `TH2::Fill` of the ROOT library does beyond adding the weight
to a bin.  `FindBin` is the bin look-up of the two axes (the same for all the histograms of the
matcher, which are created with the same axes); `fillError` gives the new error of the filled
bin from its content and error before the fill and from the weight. -/
structure FillRule where
  FindBin : ℚ → ℚ → Nat × Nat
  fillError : ℚ → ℚ → ℚ → ℚ

/-- The method `Reset()`: every content and every error becomes zero, the bins stay. -/
def TH2.Reset (h : TH2) : TH2 :=
  { h with content := fun _ _ => 0, error := fun _ _ => 0 }

/-- The method `Fill(x, y, w)`: the weight `w` is added to the content of the bin of `(x, y)`,
whose error is updated; the other bins stay. -/
def TH2.Fill (fr : FillRule) (h : TH2) (x y w : ℚ) : TH2 :=
  { h with
    content := fun a b =>
      if (a, b) = fr.FindBin x y then h.content a b + w else h.content a b
    error := fun a b =>
      if (a, b) = fr.FindBin x y then fr.fillError (h.content a b) (h.error a b) w
      else h.error a b }

/-- The reset of the per-event container at the start of `process_event`: `Reset()` on the
eight histograms. -/
def resetContainer (dcc : TpcDistortionCorrectionContainer) :
    TpcDistortionCorrectionContainer :=
  { m_hDRint := fun s => (dcc.m_hDRint s).Reset
    m_hDPint := fun s => (dcc.m_hDPint s).Reset
    m_hDZint := fun s => (dcc.m_hDZint s).Reset
    m_hentries := fun s => (dcc.m_hentries s).Reset }

/-- The four `Fill` calls of `process_event` on one container, for one matched pair: the three
residuals and one entry, in the bin of `(clus_phi, clus_r)` of the histograms of side `side`. -/
def fillResidual (fr : FillRule) (dcc : TpcDistortionCorrectionContainer) (r : Residual) :
    TpcDistortionCorrectionContainer :=
  { m_hDRint := Function.update dcc.m_hDRint r.side
      ((dcc.m_hDRint r.side).Fill fr r.clus_phi r.clus_r r.dr)
    m_hDPint := Function.update dcc.m_hDPint r.side
      ((dcc.m_hDPint r.side).Fill fr r.clus_phi r.clus_r r.rdphi)
    m_hDZint := Function.update dcc.m_hDZint r.side
      ((dcc.m_hDZint r.side).Fill fr r.clus_phi r.clus_r r.dz)
    m_hentries := Function.update dcc.m_hentries r.side
      ((dcc.m_hentries r.side).Fill fr r.clus_phi r.clus_r 1) }

/-- The residual of the matched pair `p`: `m_truth_pos[p.first]` against `reco_pos[p.second]`.
An index outside the vectors gives `none`. -/
def pairResidual (inp : MatchInput) (p : Nat × Nat) : Option Residual :=
  match inp.m_truth_pos[p.1]?, inp.reco_pos[p.2]? with
  | some t, some c => some (residual t c)
  | _, _ => none

/-- The two containers of the matcher: the per-event one and the one aggregated over the run. -/
structure Grids where
  m_dcc_out : TpcDistortionCorrectionContainer
  m_dcc_out_aggregated : TpcDistortionCorrectionContainer

/-- The body of the loop over the matched pairs in `process_event`: the residual of the pair is
filled into the per-event container and into the aggregated one. -/
def accumulatePair (fr : FillRule) (inp : MatchInput) (g : Grids) (p : Nat × Nat) : Grids :=
  match pairResidual inp p with
  | some r =>
    { m_dcc_out := fillResidual fr g.m_dcc_out r
      m_dcc_out_aggregated := fillResidual fr g.m_dcc_out_aggregated r }
  | none => g

/-- The function `process_event`, as far as the two containers go: reset of the per-event
container, matching, accumulation of the matched pairs into both containers, normalization and
guard bins of the per-event container. -/
def process_event (fr : FillRule) (inp : MatchInput) (g : Grids) : Grids :=
  let g0 : Grids :=
    { m_dcc_out := resetContainer g.m_dcc_out, m_dcc_out_aggregated := g.m_dcc_out_aggregated }
  let g1 := (matching inp).matched_pair.foldl (accumulatePair fr inp) g0
  { m_dcc_out := fill_guarding_bins (normalize_distortions g1.m_dcc_out)
    m_dcc_out_aggregated := g1.m_dcc_out_aggregated }

/-- The function `End`, as far as the aggregated container goes: normalization and guard bins;
the result is what is written to the output file. -/
def End (g : Grids) : TpcDistortionCorrectionContainer :=
  fill_guarding_bins (normalize_distortions g.m_dcc_out_aggregated)

/-- Two histograms have the same bins and the same contents. -/
def SameContentHist (h1 h2 : TH2) : Prop :=
  h1.nbinsX = h2.nbinsX ∧ h1.nbinsY = h2.nbinsY ∧ ∀ x y, h1.content x y = h2.content x y

/-- Two containers have the same bins and the same contents in their eight histograms. -/
def SameContent (d1 d2 : TpcDistortionCorrectionContainer) : Prop :=
  ∀ s : Fin 2, SameContentHist (d1.m_hDRint s) (d2.m_hDRint s) ∧
    SameContentHist (d1.m_hDPint s) (d2.m_hDPint s) ∧
    SameContentHist (d1.m_hDZint s) (d2.m_hDZint s) ∧
    SameContentHist (d1.m_hentries s) (d2.m_hentries s)

/-- Two containers have the same numbers of bins in their eight histograms. -/
def SameBinning (d1 d2 : TpcDistortionCorrectionContainer) : Prop :=
  ∀ s : Fin 2,
    ((d1.m_hDRint s).nbinsX = (d2.m_hDRint s).nbinsX ∧
      (d1.m_hDRint s).nbinsY = (d2.m_hDRint s).nbinsY) ∧
    ((d1.m_hDPint s).nbinsX = (d2.m_hDPint s).nbinsX ∧
      (d1.m_hDPint s).nbinsY = (d2.m_hDPint s).nbinsY) ∧
    ((d1.m_hDZint s).nbinsX = (d2.m_hDZint s).nbinsX ∧
      (d1.m_hDZint s).nbinsY = (d2.m_hDZint s).nbinsY) ∧
    ((d1.m_hentries s).nbinsX = (d2.m_hentries s).nbinsX ∧
      (d1.m_hentries s).nbinsY = (d2.m_hentries s).nbinsY)

/-- Every content and every error of the eight histograms is zero. -/
def AllZero (d : TpcDistortionCorrectionContainer) : Prop :=
  ∀ (s : Fin 2) (x y : Nat),
    ((d.m_hDRint s).content x y = 0 ∧ (d.m_hDRint s).error x y = 0) ∧
    ((d.m_hDPint s).content x y = 0 ∧ (d.m_hDPint s).error x y = 0) ∧
    ((d.m_hDZint s).content x y = 0 ∧ (d.m_hDZint s).error x y = 0) ∧
    ((d.m_hentries s).content x y = 0 ∧ (d.m_hentries s).error x y = 0)

/-- The sum of the weights `w` of the matched pairs `pairs` whose residual is filled on side
`s` in bin `(a, b)`. -/
def contribution (fr : FillRule) (inp : MatchInput) (w : Residual → ℚ) (s : Fin 2) (a b : Nat) :
    List (Nat × Nat) → ℚ
  | [] => 0
  | p :: ps =>
    (match pairResidual inp p with
      | some r => if s = r.side ∧ (a, b) = fr.FindBin r.clus_phi r.clus_r then w r else 0
      | none => 0) + contribution fr inp w s a b ps

/-- A bin look-up with bins of width 1 from 0 on, and the error update of a histogram that
keeps the sum of the squared weights. -/
def unitFill : FillRule :=
  { FindBin := fun x y => ((Int.floor x).toNat + 1, (Int.floor y).toNat + 1)
    fillError := fun _ e w => e + w * w }

/-- An event without any cluster. -/
def inputEmpty : MatchInput :=
  { m_truth_pos := truthRing
    reco_pos := []
    reco_nclusters := []
    hit_RPeaks := peaks25
    clust_RPeaks_pos := []
    clust_RPeaks_neg := []
    hitRotation := fun _ => 0
    clustRotation_pos := fun _ => 0
    clustRotation_neg := fun _ => 0
    m_phi_cut := 0.05 }

/-! ## Truth positions: `InitRun` -/

/-- Modelled from the spec: the stripe centres of one region, members of the matcher declared
in a header that is not among the sources and computed by `CalculateCenters`.  Row `j` keeps
`nGoodStripes j` stripes, and `centre i j` is the vector `TVector3(cx[i][j], cy[i][j], 0.0)`. -/
structure StripeRegion where
  nGoodStripes : Nat → Nat
  centre : Nat → Nat → TVector3

/-- Modelled from the spec: what the generation of the truth positions in `InitRun` reads.
`nRadii` is the number of rows of a region, `RotateZ angle v` is the method `TVector3::RotateZ`
of the ROOT library, and the four regions are the inner-extended, inner, mid and outer one. -/
structure TruthGeometry where
  nRadii : Nat
  RotateZ : ℚ → TVector3 → TVector3
  R1_e : StripeRegion
  R1 : StripeRegion
  R2 : StripeRegion
  R3 : StripeRegion

/-- The constant `phi_petal` of `InitRun`: the angle span of one petal. -/
def phi_petal : ℚ := M_PI / 9

/-- The method `SetZ`: the longitudinal coordinate changes, radius and azimuth stay. -/
def SetZ (v : TVector3) (z : ℚ) : TVector3 := { v with Z := z }

/-- The lambda `save_truth_position` of `InitRun`, as far as `m_truth_pos` goes: the position
is pushed with `z = +1`, then with `z = -1`. -/
def save_truth_position (m_truth_pos : List TVector3) (source : TVector3) : List TVector3 :=
  let source1 := SetZ source 1
  let m_truth_pos1 := m_truth_pos ++ [source1]
  let source2 := SetZ source1 (-1)
  m_truth_pos1 ++ [source2]

/-- One of the four loop nests of `InitRun`: for every row `j`, every kept stripe `i` and every
petal `k`, the stripe centre rotated by `k * phi_petal` is saved. -/
def truthRegion (geom : TruthGeometry) (R : StripeRegion) (m_truth_pos : List TVector3) :
    List TVector3 :=
  (List.range geom.nRadii).foldl
    (fun l j =>
      (List.range (R.nGoodStripes j)).foldl
        (fun l i =>
          (List.range 18).foldl
            (fun l k => save_truth_position l (geom.RotateZ ((k : ℚ) * phi_petal) (R.centre i j)))
            l)
        l)
    m_truth_pos

/-- The function `InitRun`, as far as `m_truth_pos` goes: the four loop nests, which push onto
the member `m_truth_pos` as they find it. -/
def InitRun (geom : TruthGeometry) (m_truth_pos : List TVector3) : List TVector3 :=
  truthRegion geom geom.R3 (truthRegion geom geom.R2 (truthRegion geom geom.R1
    (truthRegion geom geom.R1_e m_truth_pos)))

/-- The stripe centres of a region in the order of the loops: row by row. -/
def regionCentres (geom : TruthGeometry) (R : StripeRegion) : List TVector3 :=
  (List.range geom.nRadii).flatMap
    (fun j => (List.range (R.nGoodStripes j)).map (fun i => R.centre i j))

/-- The stripe centres of the four regions: inner-extended, inner, mid, outer. -/
def stripeCentres (geom : TruthGeometry) : List TVector3 :=
  regionCentres geom geom.R1_e ++ regionCentres geom geom.R1 ++ regionCentres geom geom.R2 ++
    regionCentres geom geom.R3

/-- The sum of `nGoodStripes` over the rows of the four regions. -/
def stripeCount (geom : TruthGeometry) : Nat :=
  ((List.range geom.nRadii).map geom.R1_e.nGoodStripes).sum +
    ((List.range geom.nRadii).map geom.R1.nGoodStripes).sum +
    ((List.range geom.nRadii).map geom.R2.nGoodStripes).sum +
    ((List.range geom.nRadii).map geom.R3.nGoodStripes).sum

/-- The two truth positions saved for one rotated stripe centre. -/
def sidePair (v : TVector3) : List TVector3 := [SetZ v 1, SetZ v (-1)]

/-- The 36 truth positions saved for one stripe centre: 18 petals, two sides. -/
def petalBlock (geom : TruthGeometry) (c : TVector3) : List TVector3 :=
  (List.range 18).flatMap (fun k => sidePair (geom.RotateZ ((k : ℚ) * phi_petal) c))

/-- A region of two rows, with one stripe in the first row and two in the second. -/
def regionEx (r : ℚ) : StripeRegion :=
  { nGoodStripes := fun j => j + 1
    centre := fun i j => ⟨r + j, (i : ℚ) / 100, 0⟩ }

/-- A geometry of four such regions; the rotation shifts the azimuth. -/
def geomEx : TruthGeometry :=
  { nRadii := 2
    RotateZ := fun a v => { v with Phi := v.Phi + a }
    R1_e := regionEx 20
    R1 := regionEx 30
    R2 := regionEx 40
    R3 := regionEx 60 }

/-! ## Radial peaks: `getRPeaks` -/

/-- Modelled from the spec: a one-dimensional histogram of the ROOT library (`TH1D`, here the
projection of the occupancy histogram on the radius axis), with bins of equal width: the
number of bins, the range of the axis and the content of every bin. -/
structure TH1D where
  nbins : Nat
  xmin : ℚ
  xmax : ℚ
  content : Nat → ℚ

/-- The method `GetNbinsX`. -/
def TH1D.GetNbinsX (h : TH1D) : Nat := h.nbins

/-- The method `GetBinContent(bin)`. -/
def TH1D.GetBinContent (h : TH1D) (bin : Nat) : ℚ := h.content bin

/-- The method `GetBinCenter(bin)`: the middle of bin `bin`. -/
def TH1D.GetBinCenter (h : TH1D) (bin : Nat) : ℚ :=
  h.xmin + ((bin : ℚ) - 1 / 2) * ((h.xmax - h.xmin) / h.nbins)

/-- The method `FindBin(x)`: `0` below the axis, `nbins + 1` above it, otherwise
`1 + int(nbins * (x - xmin) / (xmax - xmin))`. -/
def TH1D.FindBin (h : TH1D) (x : ℚ) : Nat :=
  if x < h.xmin then 0
  else if ¬ (x < h.xmax) then h.nbins + 1
  else 1 + (Int.floor ((h.nbins : ℚ) * (x - h.xmin) / (h.xmax - h.xmin))).toNat

/-- The method `GetMaximum()`: the largest content of the bins `1 .. nbins`. -/
def TH1D.GetMaximum (h : TH1D) : ℚ :=
  (List.range h.nbins).foldl (fun m i => max m (h.content (i + 1))) (h.content 1)

/-- The test of the first loop of `getRPeaks` on bin `i`: above 15% of the maximum and not
below either neighbour. -/
def isRPeakBin (proj : TH1D) (i : Nat) : Bool :=
  decide (proj.GetBinContent i > 0.15 * proj.GetMaximum ∧
    proj.GetBinContent i ≥ proj.GetBinContent (i - 1) ∧
    proj.GetBinContent i ≥ proj.GetBinContent (i + 1))

/-- The first loop of `getRPeaks`: for `i = 2, ..., nbins - 1` in turn, the centre of bin `i`
is pushed when the bin passes the test. -/
def rPeakCandidates (proj : TH1D) : List ℚ :=
  (((List.range (proj.GetNbinsX - 2)).map (fun n => n + 2)).filter (isRPeakBin proj)).map
    proj.GetBinCenter

/-- The content that the second loop of `getRPeaks` reads for a peak at `x`:
`GetBinContent(FindBin(x))`. -/
def peakContent (proj : TH1D) (x : ℚ) : ℚ := proj.GetBinContent (proj.FindBin x)

/-- The second loop of `getRPeaks` from the position of `a` on, `rest` being the peaks after
`a`.  When the next peak `b` is more than `0.75` away the index moves on (`a` stays and the
loop goes on from `b`); otherwise `b` is erased when `a` has the larger content, else `a` is
erased, and the index stays (the loop goes on from the peak now at that position). -/
def sweepFrom (proj : TH1D) (a : ℚ) : List ℚ → List ℚ
  | [] => [a]
  | b :: rest =>
    if b - a > 0.75 then a :: sweepFrom proj b rest
    else if peakContent proj a > peakContent proj b then sweepFrom proj a rest
    else sweepFrom proj b rest

/-- The second loop of `getRPeaks`, from index 0. -/
def mergeSweep (proj : TH1D) : List ℚ → List ℚ
  | [] => []
  | a :: rest => sweepFrom proj a rest

/-- The function `getRPeaks`, applied to the projection `proj` of the occupancy histogram. -/
def getRPeaks (proj : TH1D) : List ℚ := mergeSweep proj (rPeakCandidates proj)

/-- A projection with 20 bins of width `0.5` from 0 to 10 and peaks in bins 3, 4, 9 and 15. -/
def projEx : TH1D :=
  { nbins := 20
    xmin := 0
    xmax := 10
    content := fun i => if i = 3 then 5 else if i = 4 then 5 else if i = 9 then 7
      else if i = 15 then 3 else 0 }

/-! ## Assignments, sides and layer indices: predicates and inputs -/

/-- A one-to-one assignment among the pairs (truth index, cluster index) that pass all the
gates: no truth index and no cluster index is used twice. -/
def Assignment (inp : MatchInput) (a : List (Nat × Nat)) : Prop :=
  (a.map Prod.fst).Nodup ∧ (a.map Prod.snd).Nodup ∧
    ∀ p ∈ a, ∃ t c, inp.m_truth_pos[p.1]? = some t ∧ inp.reco_pos[p.2]? = some c ∧ gates inp t c

/-- An event with two truth points and two clusters, all at radius 44 on the negative side.
Truth point 0 (azimuth 0) is within the cut of both clusters and nearer to cluster 0; truth
point 1 (azimuth 0.04) is within the cut of cluster 0 only. -/
def inputGreedy : MatchInput :=
  { m_truth_pos := [⟨44, 0, -1⟩, ⟨44, 0.04, -1⟩]
    reco_pos := [⟨44, 0.03, -1⟩, ⟨44, -0.04, -1⟩]
    reco_nclusters := [1, 1]
    hit_RPeaks := peaks25
    clust_RPeaks_pos := []
    clust_RPeaks_neg := [44.1]
    hitRotation := fun _ => 0
    clustRotation_pos := fun _ => 0
    clustRotation_neg := fun _ => 0
    m_phi_cut := 0.05 }

/-- The side of a truth point: `1` when its `z` is positive, else `0`. -/
def truthSide (t : TVector3) : Fin 2 := if t.Z > 0 then 1 else 0

/-- An event with one truth point and one cluster at radius 50 and the same azimuth: no truth
radial peak is within `0.5` of the truth point, and the cluster is outside the window of the
only radial peak of its side. -/
def inputFar : MatchInput :=
  { m_truth_pos := [⟨50, 0, -1⟩]
    reco_pos := [⟨50, 0, -1⟩]
    reco_nclusters := [1]
    hit_RPeaks := peaks25
    clust_RPeaks_pos := []
    clust_RPeaks_neg := [44.1]
    hitRotation := fun _ => 0
    clustRotation_pos := fun _ => 0
    clustRotation_neg := fun _ => 0
    m_phi_cut := 0.05 }

/-- The value `g` is the largest index `k` with `peaks[k+1] - peaks[k] ≥ 2.5`, or `-1` when
there is no such index. -/
def LastGap (peaks : List ℚ) (g : Int) : Prop :=
  (g = -1 ∧ ∀ i : Nat, i + 1 < peaks.length → ¬ (peaks.getD (i + 1) 0 - peaks.getD i 0 ≥ 2.5)) ∨
    ∃ k : Nat, g = (k : Int) ∧ k + 1 < peaks.length ∧
      peaks.getD (k + 1) 0 - peaks.getD k 0 ≥ 2.5 ∧
      ∀ i : Nat, k < i → i + 1 < peaks.length → ¬ (peaks.getD (i + 1) 0 - peaks.getD i 0 ≥ 2.5)

/-! ## The second loop of `getRPeaks` as a loop over an index -/

/-- The variables of the second loop of `getRPeaks`: the vector `rPeaks` and the index `i`. -/
structure SweepState where
  rPeaks : List ℚ
  i : Int

/-- One iteration of the second loop of `getRPeaks`, with the increment of the `for`
statement: `none` when the loop condition `i < (int)rPeaks.size() - 1` is false.  After a
`continue` the index moves on; after an erase the index is decremented by the body and
incremented by the `for` statement. -/
def sweepStep (proj : TH1D) (s : SweepState) : Option SweepState :=
  if s.i < (s.rPeaks.length : Int) - 1 then
    if s.rPeaks.getD (s.i + 1).toNat 0 - s.rPeaks.getD s.i.toNat 0 > 0.75 then
      some { rPeaks := s.rPeaks, i := s.i + 1 }
    else if peakContent proj (s.rPeaks.getD s.i.toNat 0) >
        peakContent proj (s.rPeaks.getD (s.i + 1).toNat 0) then
      some { rPeaks := s.rPeaks.eraseIdx (s.i + 1).toNat, i := s.i - 1 + 1 }
    else some { rPeaks := s.rPeaks.eraseIdx s.i.toNat, i := s.i - 1 + 1 }
  else none

/-- The second loop of `getRPeaks` run for at most `fuel` tests of the loop condition:
the vector when the loop was left, `none` when the fuel ran out before. -/
def sweepLoop (proj : TH1D) : Nat → SweepState → Option (List ℚ)
  | 0, _ => none
  | fuel + 1, s =>
    match sweepStep proj s with
    | none => some s.rPeaks
    | some s1 => sweepLoop proj fuel s1

/-- The radial bin whose value ends in bin `(x, y)` after `fill_guarding_bins`, for a histogram
with `phibins` x `rbins` bins. -/
def guardY (phibins rbins x y : Nat) : Nat :=
  if 1 ≤ x ∧ x ≤ phibins then clampR rbins y else y

/-- The azimuth bin whose value ends in bin `(x, y)` after `fill_guarding_bins`, for a
histogram with `phibins` x `rbins` bins. -/
def guardX (phibins rbins x y : Nat) : Nat :=
  if 1 ≤ guardY phibins rbins x y ∧ guardY phibins rbins x y ≤ rbins then wrapPhi phibins x
  else x

/-- The four histograms of each side have at least one azimuth bin, as every ROOT histogram. -/
def HasPhiBins (dcc : TpcDistortionCorrectionContainer) : Prop :=
  ∀ s : Fin 2, 1 ≤ (dcc.m_hDRint s).nbinsX ∧ 1 ≤ (dcc.m_hDPint s).nbinsX ∧
    1 ≤ (dcc.m_hDZint s).nbinsX ∧ 1 ≤ (dcc.m_hentries s).nbinsX

/-! ## Azimuthal gaps and their average rotation: `getPhiGaps`, `getAverageRotation` -/

/-- The body of the loop over the bins `i` of one projection in `getPhiGaps`: the centre of a
bin with content above zero after a bin with content zero is pushed when the vector is empty
or when the centre is more than `M_PI/36` above the last element. -/
def phiGapsBody (h : TH1D) (phiGaps_R : List ℚ) (i : Nat) : List ℚ :=
  if h.GetBinContent i > 0 ∧ h.GetBinContent (i - 1) = 0 then
    if phiGaps_R.length = 0 then phiGaps_R ++ [h.GetBinCenter i]
    else if h.GetBinCenter i - phiGaps_R.getD (phiGaps_R.length - 1) 0 > M_PI / 36 then
      phiGaps_R ++ [h.GetBinCenter i]
    else phiGaps_R
  else phiGaps_R

/-- The loop over `i = 2, ..., GetNbinsX()` of `getPhiGaps` for one projection. -/
def phiGapsOf (h : TH1D) : List ℚ :=
  ((List.range (h.GetNbinsX - 1)).map (fun n => n + 2)).foldl (phiGapsBody h) []

/-- The function `getPhiGaps`, applied to the three projections `phiHist[0]`, `phiHist[1]`,
`phiHist[2]` of the histogram on the azimuth axis (the ROOT method `ProjectionX` over the
radial bin ranges of the three bands): one vector per band, pushed in turn. -/
def getPhiGaps (phiHist : Fin 3 → TH1D) : List (List ℚ) :=
  ([0, 1, 2] : List (Fin 3)).foldl (fun phiGaps R => phiGaps ++ [phiGapsOf (phiHist R)]) []

/-- The division of a double by a count, for a numerator that is zero when the count is zero
(a sum over no term): `none` stands for the outcome of `0.0 / 0`, which is not a number. -/
def divByCount (x : ℚ) (n : Nat) : Option ℚ :=
  if n = 0 then none else some (x / n)

/-- The values `di` and `dj` of `getAverageRotation`: the sum of the steps of a vector divided
by `size() - 1`, a subtraction of the unsigned type `size_t` of 64 bits. -/
def meanSpacing (v : List ℚ) : Option ℚ :=
  divByCount
    ((List.range (v.length - 1)).foldl (fun d i => d + (v.getD (i + 1) 0 - v.getD i 0)) 0)
    ((v.length + 2 ^ 64 - 1) % 2 ^ 64)

/-- The bound `(di + dj) / 4.0` of `getAverageRotation`: not a number when `di` or `dj` is not. -/
def rotationThreshold (hit clust : List ℚ) : Option ℚ :=
  match meanSpacing hit, meanSpacing clust with
  | some di, some dj => some ((di + dj) / 4)
  | _, _ => none

/-- The first test of the inner loop of `getAverageRotation`,
`fabs(clust[R][j] - hit[R][i]) > (di+dj)/4.0`: a comparison with a bound that is not a number
is false. -/
def rotationSkip (thr : Option ℚ) (h c : ℚ) : Bool :=
  match thr with
  | some t => decide (|c - h| > t)
  | none => false

/-- The body of the inner loop of `getAverageRotation` on the variables `(sum, nMatch)`, for
the truth gap `h = hit[R][i]` and the index `j`.  The second test compares `clust[R][j]` with
itself, as the source does. -/
def rotationBody (thr : Option ℚ) (clust : List ℚ) (h : ℚ) (acc : ℚ × Nat) (j : Nat) : ℚ × Nat :=
  if rotationSkip thr h (clust.getD j 0) = true then acc
  else if j ≠ 0 ∧ clust.getD j 0 - clust.getD j 0 > 1.5 * M_PI / 9 then acc
  else (acc.1 + (clust.getD j 0 - h), acc.2 + 1)

/-- The variables `(sum, nMatch)` of `getAverageRotation` after the two loops of a region. -/
def rotationSums (hit clust : List ℚ) : ℚ × Nat :=
  (List.range hit.length).foldl
    (fun acc i =>
      (List.range clust.length).foldl
        (rotationBody (rotationThreshold hit clust) clust (hit.getD i 0)) acc)
    (0, 0)

/-- The value `sum/nMatch` that `getAverageRotation` pushes for a region. -/
def regionRotation (hit clust : List ℚ) : Option ℚ :=
  divByCount (rotationSums hit clust).1 (rotationSums hit clust).2

/-- The function `getAverageRotation`: one value per region `R = 0, 1, 2`.  Both arguments hold
three vectors, as returned by `getPhiGaps`. -/
def getAverageRotation (hit clust : List (List ℚ)) : List (Option ℚ) :=
  (List.range 3).foldl
    (fun avgAngle R => avgAngle ++ [regionRotation (hit.getD R []) (clust.getD R [])]) []

/-- The three projections of each of the six histograms that `process_event` hands to
`getPhiGaps`. -/
structure PhiProjections where
  hit_r_phi : Fin 3 → TH1D
  clust_r_phi : Fin 3 → TH1D
  hit_r_phi_pos : Fin 3 → TH1D
  clust_r_phi_pos : Fin 3 → TH1D
  hit_r_phi_neg : Fin 3 → TH1D
  clust_r_phi_neg : Fin 3 → TH1D

/-- The local variables `angleDiff`, `angleDiff_pos` and `angleDiff_neg` of `process_event`. -/
structure GapRotation where
  angleDiff : List (Option ℚ)
  angleDiff_pos : List (Option ℚ)
  angleDiff_neg : List (Option ℚ)

/-- The three calls of `getAverageRotation` in `process_event`. -/
def gapRotation (p : PhiProjections) : GapRotation :=
  { angleDiff := getAverageRotation (getPhiGaps p.hit_r_phi) (getPhiGaps p.clust_r_phi)
    angleDiff_pos := getAverageRotation (getPhiGaps p.hit_r_phi_pos) (getPhiGaps p.clust_r_phi_pos)
    angleDiff_neg := getAverageRotation (getPhiGaps p.hit_r_phi_neg) (getPhiGaps p.clust_r_phi_neg) }

/-- The part of `process_event` after the three calls of `getAverageRotation`, with the three
local variables in scope: the matched pairs and the two containers.  No statement of that part
reads `angleDiff`, `angleDiff_pos` or `angleDiff_neg`, whose only later occurrences are in
print statements that are commented out. -/
def matchAndFill (fr : FillRule) (inp : MatchInput) (_rot : GapRotation) (g : Grids) :
    List (Nat × Nat) × Grids :=
  ((matching inp).matched_pair, process_event fr inp g)

/-- The region of a cluster radius: `0` below 41, `1` from 41 to below 58, `2` from 58 on. -/
def regionOf (perp : ℚ) : Nat := if perp < 41 then 0 else if perp < 58 then 1 else 2

/-- The centre `x` is the centre of a bin `i ≥ 2` of `h` with content above zero whose
predecessor has content zero. -/
def RisingEdge (h : TH1D) (x : ℚ) : Prop :=
  ∃ i : Nat, 2 ≤ i ∧ i ≤ h.nbins ∧ x = h.GetBinCenter i ∧ h.GetBinContent i > 0 ∧
    h.GetBinContent (i - 1) = 0

/-! ## Accumulated residuals: predicates used to state the properties -/

/-- The container `d1` is the container `d` after the residuals of the truth position `t` and
the cluster `c` were added: on the side of the cluster (`0` for `z < 0`, else `1`), in the bin
of the cluster azimuth (brought to `[0, 2 M_PI)`) and radius, the content of the three residual
histograms grew by `r_obs - r_truth`, `r_obs * delta_phi(phi_obs - phi_truth)` and
`z_obs - z_truth`, and the entry count by one; every other content is as before. -/
def ResidualsAdded (fr : FillRule) (t c : TVector3) (d d1 : TpcDistortionCorrectionContainer) :
    Prop :=
  ∀ (s : Fin 2) (a b : Nat),
    (d1.m_hDRint s).content a b = (d.m_hDRint s).content a b +
      (if s = (if c.Z < 0 then 0 else 1) ∧
          (a, b) = fr.FindBin (if c.Phi < 0 then c.Phi + 2 * M_PI else c.Phi) c.Perp
        then c.Perp - t.Perp else 0) ∧
    (d1.m_hDPint s).content a b = (d.m_hDPint s).content a b +
      (if s = (if c.Z < 0 then 0 else 1) ∧
          (a, b) = fr.FindBin (if c.Phi < 0 then c.Phi + 2 * M_PI else c.Phi) c.Perp
        then c.Perp * delta_phi (c.Phi - t.Phi) else 0) ∧
    (d1.m_hDZint s).content a b = (d.m_hDZint s).content a b +
      (if s = (if c.Z < 0 then 0 else 1) ∧
          (a, b) = fr.FindBin (if c.Phi < 0 then c.Phi + 2 * M_PI else c.Phi) c.Perp
        then c.Z - t.Z else 0) ∧
    (d1.m_hentries s).content a b = (d.m_hentries s).content a b +
      (if s = (if c.Z < 0 then 0 else 1) ∧
          (a, b) = fr.FindBin (if c.Phi < 0 then c.Phi + 2 * M_PI else c.Phi) c.Perp
        then 1 else 0)

/-- The sum of the values `w t c` over the pairs of `pairs` (truth position `t`, cluster `c`)
whose cluster is on side `s` and falls in bin `(a, b)`. -/
def residualSum (fr : FillRule) (inp : MatchInput) (w : TVector3 → TVector3 → ℚ) (s : Fin 2)
    (a b : Nat) : List (Nat × Nat) → ℚ
  | [] => 0
  | p :: ps =>
    (match inp.m_truth_pos[p.1]?, inp.reco_pos[p.2]? with
      | some t, some c =>
        if s = (if c.Z < 0 then 0 else 1) ∧
            (a, b) = fr.FindBin (if c.Phi < 0 then c.Phi + 2 * M_PI else c.Phi) c.Perp
          then w t c else 0
      | _, _ => 0) + residualSum fr inp w s a b ps

/-! ## The radial peaks of an event -/

theorem scanBody_pos (inp : MatchInput) (cm : List Bool) (i : Nat) (t : TVector3)
    (st : ScanState) (j : Nat) (c : TVector3)
    (h : cand inp cm t j c ∧ |dphi inp t c| < |st.prev_dphi|) :
    scanBody inp cm i t st j c =
      { prev_dphi := dphi inp t c, matchJ := (j : Int),
        hits_matched := st.hits_matched.set i true } := by
  obtain ⟨⟨hb, h2, h3, h4, h5⟩, h6⟩ := h
  unfold scanBody
  rw [if_neg (by rw [hb]; simp), if_neg h2, if_neg (not_not.mpr h3), if_neg (by tauto), if_pos h6]

theorem scanBody_neg (inp : MatchInput) (cm : List Bool) (i : Nat) (t : TVector3)
    (st : ScanState) (j : Nat) (c : TVector3)
    (h : ¬ (cand inp cm t j c ∧ |dphi inp t c| < |st.prev_dphi|)) :
    scanBody inp cm i t st j c = st := by
  unfold scanBody
  split_ifs with a1 a2 a3 a4 a5
  · rfl
  · rfl
  · rfl
  · exact absurd ⟨⟨Bool.eq_false_iff.mpr a1, a2, a3, by tauto, by tauto⟩, a5⟩ h
  · rfl
  · rfl

/-- Outcome of the cluster loop. -/
theorem scanFrom_spec (inp : MatchInput) (cm : List Bool) (i : Nat) (t : TVector3) :
    ∀ (cs : List TVector3) (j : Nat) (st : ScanState),
      (scanFrom inp cm i t j cs st = st ∧
        ∀ k c, cs[k]? = some c → cand inp cm t (j + k) c → ¬ |dphi inp t c| < |st.prev_dphi|) ∨
      (∃ k c, cs[k]? = some c ∧ cand inp cm t (j + k) c ∧ |dphi inp t c| < |st.prev_dphi| ∧
        scanFrom inp cm i t j cs st =
          { prev_dphi := dphi inp t c, matchJ := ((j + k : Nat) : Int),
            hits_matched := st.hits_matched.set i true } ∧
        ∀ k' c', cs[k']? = some c' → cand inp cm t (j + k') c' →
          |dphi inp t c| ≤ |dphi inp t c'| ∧ (k' < k → |dphi inp t c| < |dphi inp t c'|)) := by
  intro cs
  induction cs with
  | nil =>
    intro j st
    left
    exact ⟨rfl, by intro k c h; simp at h⟩
  | cons c0 cs ih =>
    intro j st
    have hstep : scanFrom inp cm i t j (c0 :: cs) st =
        scanFrom inp cm i t (j + 1) cs (scanBody inp cm i t st j c0) := rfl
    rw [hstep]
    by_cases himp : cand inp cm t j c0 ∧ |dphi inp t c0| < |st.prev_dphi|
    · rw [scanBody_pos inp cm i t st j c0 himp]
      rcases ih (j + 1) ⟨dphi inp t c0, (j : Int), st.hits_matched.set i true⟩ with
        ⟨heq, hno⟩ | ⟨k, c, hk, hc, hlt, heq, hbest⟩
      · right
        refine ⟨0, c0, by simp, himp.1, himp.2, ?_, ?_⟩
        · rw [heq]; rfl
        · intro k' c' hk' hc'
          cases k' with
          | zero =>
            simp at hk'
            subst hk'
            exact ⟨le_refl _, fun h => absurd h (lt_irrefl _)⟩
          | succ k' =>
            simp at hk'
            have := hno k' c' hk' (by rw [show j + 1 + k' = j + (k' + 1) by omega]; exact hc')
            exact ⟨not_lt.mp this, fun h => absurd h (by omega)⟩
      · right
        refine ⟨k + 1, c, by simpa using hk, ?_, lt_trans hlt himp.2, ?_, ?_⟩
        · rw [show j + (k + 1) = j + 1 + k by omega]; exact hc
        · rw [heq]; simp [show j + (k + 1) = j + 1 + k by omega]
        · intro k' c' hk' hc'
          cases k' with
          | zero =>
            simp at hk'
            subst hk'
            exact ⟨le_of_lt hlt, fun _ => hlt⟩
          | succ k' =>
            simp at hk'
            have := hbest k' c' hk' (by rw [show j + 1 + k' = j + (k' + 1) by omega]; exact hc')
            exact ⟨this.1, fun h => this.2 (by omega)⟩
    · rw [scanBody_neg inp cm i t st j c0 himp]
      rcases ih (j + 1) st with ⟨heq, hno⟩ | ⟨k, c, hk, hc, hlt, heq, hbest⟩
      · left
        refine ⟨heq, ?_⟩
        intro k' c' hk' hc'
        cases k' with
        | zero =>
          simp at hk'
          subst hk'
          exact fun h => himp ⟨hc', h⟩
        | succ k' =>
          simp at hk'
          exact hno k' c' hk' (by rw [show j + 1 + k' = j + (k' + 1) by omega]; exact hc')
      · right
        refine ⟨k + 1, c, by simpa using hk, ?_, hlt, ?_, ?_⟩
        · rw [show j + (k + 1) = j + 1 + k by omega]; exact hc
        · rw [heq]; simp [show j + (k + 1) = j + 1 + k by omega]
        · intro k' c' hk' hc'
          cases k' with
          | zero =>
            simp at hk'
            subst hk'
            have h0 : ¬ |dphi inp t c0| < |st.prev_dphi| := fun h => himp ⟨hc', h⟩
            have h1 : |dphi inp t c| < |dphi inp t c0| := lt_of_lt_of_le hlt (not_lt.mp h0)
            exact ⟨le_of_lt h1, fun _ => h1⟩
          | succ k' =>
            simp at hk'
            have := hbest k' c' hk' (by rw [show j + 1 + k' = j + (k' + 1) by omega]; exact hc')
            exact ⟨this.1, fun h => this.2 (by omega)⟩

theorem cand_improves (inp : MatchInput) (cm : List Bool) (t : TVector3) (j : Nat)
    (c : TVector3) (h : cand inp cm t j c) : |dphi inp t c| < |1.1 * inp.m_phi_cut| := by
  have h5 : |dphi inp t c| < inp.m_phi_cut := h.2.2.2.2
  have hpos : 0 < inp.m_phi_cut := lt_of_le_of_lt (abs_nonneg _) h5
  have h11 : inp.m_phi_cut ≤ 1.1 * inp.m_phi_cut := by
    have : (1.1 : ℚ) * inp.m_phi_cut = inp.m_phi_cut + 0.1 * inp.m_phi_cut := by ring
    rw [this]
    have : 0 ≤ (0.1 : ℚ) * inp.m_phi_cut := mul_nonneg (by norm_num) (le_of_lt hpos)
    linarith
  exact lt_of_lt_of_le h5 (le_trans h11 (le_abs_self _))

theorem truthBody_of_matched (inp : MatchInput) (s : MatchState) (i : Nat) (t : TVector3)
    (hi : s.hits_matched.getD i false = true) : truthBody inp s i t = s := by
  unfold truthBody
  rw [if_pos hi]

/-- Outcome of one iteration of the loop over truth points, for an unmatched truth point. -/
theorem truthBody_spec (inp : MatchInput) (s : MatchState) (i : Nat) (t : TVector3)
    (hi : s.hits_matched.getD i false = false) :
    (truthBody inp s i t = s ∧
      ∀ j c, inp.reco_pos[j]? = some c → ¬ cand inp s.clusts_matched t j c) ∨
    (∃ j c, inp.reco_pos[j]? = some c ∧ cand inp s.clusts_matched t j c ∧
      truthBody inp s i t =
        { hits_matched := s.hits_matched.set i true
          clusts_matched := s.clusts_matched.set j true
          matched_pair := s.matched_pair ++ [(i, j)]
          matched_nclus := s.matched_nclus ++ [inp.reco_nclusters.getD j 0] } ∧
      ∀ j' c', inp.reco_pos[j']? = some c' → cand inp s.clusts_matched t j' c' →
        |dphi inp t c| ≤ |dphi inp t c'| ∧ (j' < j → |dphi inp t c| < |dphi inp t c'|)) := by
  have hbody : truthBody inp s i t =
      (let st := scanFrom inp s.clusts_matched i t 0 inp.reco_pos
          ⟨1.1 * inp.m_phi_cut, -1, s.hits_matched⟩
       if st.matchJ ≠ -1 then
        { hits_matched := st.hits_matched
          clusts_matched := s.clusts_matched.set st.matchJ.toNat true
          matched_pair := s.matched_pair ++ [(i, st.matchJ.toNat)]
          matched_nclus := s.matched_nclus ++ [inp.reco_nclusters.getD st.matchJ.toNat 0] }
       else { s with hits_matched := st.hits_matched }) := by
    unfold truthBody
    rw [if_neg (by rw [hi]; simp)]
  rcases scanFrom_spec inp s.clusts_matched i t inp.reco_pos 0
      ⟨1.1 * inp.m_phi_cut, -1, s.hits_matched⟩ with
    ⟨heq, hno⟩ | ⟨k, c, hk, hc, _, heq, hbest⟩
  · left
    refine ⟨?_, ?_⟩
    · rw [hbody]
      simp only [heq]
      simp
    · intro j c hj hc
      have h1 := hno j c hj (by simpa using hc)
      exact h1 (cand_improves inp s.clusts_matched t j c hc)
  · right
    simp only [Nat.zero_add] at hc heq hbest
    refine ⟨k, c, hk, hc, ?_, hbest⟩
    rw [hbody]
    simp only [heq]
    simp

theorem getD_set_true (l : List Bool) (i k : Nat) :
    (l.set i true).getD k false = (decide (k = i ∧ i < l.length) || l.getD k false) := by
  simp only [List.getD_eq_getElem?_getD, List.getElem?_set]
  by_cases h : i = k
  · subst h
    by_cases h2 : i < l.length
    · simp [h2]
    · simp [h2, List.getElem?_eq_none (Nat.le_of_not_lt h2)]
  · have h' : ¬ k = i := fun e => h e.symm
    simp [h, h']

theorem getD_replicate_false (n k : Nat) : (List.replicate n false).getD k false = false := by
  simp only [List.getD_eq_getElem?_getD, List.getElem?_replicate]
  split_ifs <;> simp

/-- Induction along the loop over truth positions, with the loop index. -/
theorem truthFrom_induction (inp : MatchInput) (P : Nat → MatchState → Prop)
    (hstep : ∀ s i t, inp.m_truth_pos[i]? = some t → P i s → P (i + 1) (truthBody inp s i t)) :
    ∀ (ts : List TVector3) (i : Nat) (s : MatchState),
      (∀ k t, ts[k]? = some t → inp.m_truth_pos[i + k]? = some t) → P i s →
      P (i + ts.length) (truthFrom inp i ts s) := by
  intro ts
  induction ts with
  | nil => intro i s _ h; simpa [truthFrom] using h
  | cons t ts ih =>
    intro i s hts h
    have h0 : inp.m_truth_pos[i]? = some t := by simpa using hts 0 t (by simp)
    have h1 := ih (i + 1) (truthBody inp s i t)
      (fun k t' hk => by
        have := hts (k + 1) t' (by simpa using hk)
        rwa [show i + 1 + k = i + (k + 1) by omega])
      (hstep s i t h0 h)
    have : i + (t :: ts).length = i + 1 + ts.length := by simp; omega
    rw [this]
    exact h1

theorem matchPass_induction (inp : MatchInput) (P : Nat → MatchState → Prop)
    (hstep : ∀ s i t, inp.m_truth_pos[i]? = some t → P i s → P (i + 1) (truthBody inp s i t))
    (s : MatchState) (h : P 0 s) : P inp.m_truth_pos.length (matchPass inp s) := by
  have := truthFrom_induction inp P hstep inp.m_truth_pos 0 s (fun k t hk => by simpa using hk) h
  simpa [matchPass] using this

theorem WF_init (inp : MatchInput) : WF inp (matchInit inp) where
  hits_len := by simp [matchInit]
  clusts_len := by simp [matchInit]
  hits_iff := by intro i; simp [matchInit, getD_replicate_false]
  clusts_iff := by intro j; simp [matchInit, getD_replicate_false]
  nodup_fst := by simp [matchInit]
  nodup_snd := by simp [matchInit]

theorem WF_truthBody (inp : MatchInput) (s : MatchState) (i : Nat) (t : TVector3)
    (hi : inp.m_truth_pos[i]? = some t) (h : WF inp s) : WF inp (truthBody inp s i t) := by
  have hilt : i < inp.m_truth_pos.length := by
    rcases List.getElem?_eq_some_iff.mp hi with ⟨hlt, _⟩
    exact hlt
  rcases Bool.eq_false_or_eq_true (s.hits_matched.getD i false) with hm | hm
  · rw [truthBody_of_matched inp s i t hm]; exact h
  · rcases truthBody_spec inp s i t hm with ⟨heq, _⟩ | ⟨j, c, hj, hc, heq, _⟩
    · rw [heq]; exact h
    · have hjlt : j < inp.reco_pos.length := by
        rcases List.getElem?_eq_some_iff.mp hj with ⟨hlt, _⟩
        exact hlt
      have hjfalse : s.clusts_matched.getD j false = false := hc.1
      have hi_notin : i ∉ s.matched_pair.map Prod.fst := by
        intro hin
        have := (h.hits_iff i).mpr hin
        rw [hm] at this
        exact Bool.false_ne_true this
      have hj_notin : j ∉ s.matched_pair.map Prod.snd := by
        intro hin
        have := (h.clusts_iff j).mpr hin
        rw [hjfalse] at this
        exact Bool.false_ne_true this
      rw [heq]
      refine ⟨?_, ?_, ?_, ?_, ?_, ?_⟩
      · simpa using h.hits_len
      · simpa using h.clusts_len
      · intro k
        simp only [getD_set_true, List.map_append, List.map_cons, List.map_nil, List.mem_append,
          List.mem_singleton, Bool.or_eq_true, decide_eq_true_eq, h.hits_len]
        rw [h.hits_iff k]
        constructor
        · rintro (⟨rfl, _⟩ | h') <;> tauto
        · rintro (h' | rfl)
          · exact Or.inr h'
          · exact Or.inl ⟨rfl, hilt⟩
      · intro k
        simp only [getD_set_true, List.map_append, List.map_cons, List.map_nil, List.mem_append,
          List.mem_singleton, Bool.or_eq_true, decide_eq_true_eq, h.clusts_len]
        rw [h.clusts_iff k]
        constructor
        · rintro (⟨rfl, _⟩ | h') <;> tauto
        · rintro (h' | rfl)
          · exact Or.inr h'
          · exact Or.inl ⟨rfl, hjlt⟩
      · simp only [List.map_append, List.map_cons, List.map_nil]
        exact List.Nodup.append h.nodup_fst (List.nodup_singleton _)
          (by intro a ha hb; rw [List.mem_singleton] at hb; subst hb; exact hi_notin ha)
      · simp only [List.map_append, List.map_cons, List.map_nil]
        exact List.Nodup.append h.nodup_snd (List.nodup_singleton _)
          (by intro a ha hb; rw [List.mem_singleton] at hb; subst hb; exact hj_notin ha)

theorem WF_matchPass (inp : MatchInput) (s : MatchState) (h : WF inp s) :
    WF inp (matchPass inp s) :=
  matchPass_induction inp (fun _ s => WF inp s)
    (fun s i t hi hs => WF_truthBody inp s i t hi hs) s h

theorem matching_eq (inp : MatchInput) :
    matching inp = matchPass inp (matchPass inp (matchInit inp)) := rfl

theorem AllBest_truthBody (inp : MatchInput) (s : MatchState) (i : Nat) (t : TVector3)
    (hi : inp.m_truth_pos[i]? = some t) (hwf : WF inp s) (h : AllBest inp s) :
    AllBest inp (truthBody inp s i t) := by
  rcases Bool.eq_false_or_eq_true (s.hits_matched.getD i false) with hm | hm
  · rw [truthBody_of_matched inp s i t hm]; exact h
  · rcases truthBody_spec inp s i t hm with ⟨heq, _⟩ | ⟨j, c, hj, hc, heq, hbest⟩
    · rw [heq]; exact h
    · rw [heq]
      intro pre i' j' post hdec
      simp only at hdec
      rcases List.eq_nil_or_concat post with hp | ⟨post', x, hp⟩
      · subst hp
        have := List.append_inj' hdec (by simp)
        obtain ⟨h1, h2⟩ := this
        simp only [List.cons.injEq, Prod.mk.injEq, and_true] at h2
        obtain ⟨rfl, rfl⟩ := h2
        subst h1
        have hfree : ∀ k, k ∉ s.matched_pair.map Prod.snd ↔ s.clusts_matched.getD k false = false := by
          intro k
          rw [← hwf.clusts_iff k]
          simp
        refine ⟨t, c, hi, hj, (hfree j).mpr hc.1, hc.2, ?_⟩
        intro j2 c2 hj2 hfree2 hg2
        have hc2 : cand inp s.clusts_matched t j2 c2 := ⟨(hfree j2).mp hfree2, hg2⟩
        have hb := hbest j2 c2 hj2 hc2
        refine ⟨hb.1, ?_⟩
        intro heq'
        by_contra hlt
        have := hb.2 (by omega)
        rw [heq'] at this
        exact lt_irrefl _ this
      · subst hp
        have hdec' : s.matched_pair ++ [(i, j)] = (pre ++ (i', j') :: post') ++ [x] := by
          rw [hdec]; simp
        have := List.append_inj' hdec' (by simp)
        exact h pre i' j' post' this.1

theorem AllBest_matchPass (inp : MatchInput) (s : MatchState) (hwf : WF inp s)
    (h : AllBest inp s) : AllBest inp (matchPass inp s) :=
  (matchPass_induction inp (fun _ s => WF inp s ∧ AllBest inp s)
    (fun s i t hi hs => ⟨WF_truthBody inp s i t hi hs.1, AllBest_truthBody inp s i t hi hs.1 hs.2⟩)
    s ⟨hwf, h⟩).2

theorem AllBest_matching (inp : MatchInput) : AllBest inp (matching inp) := by
  rw [matching_eq]
  apply AllBest_matchPass _ _ (WF_matchPass _ _ (WF_init inp))
  apply AllBest_matchPass _ _ (WF_init inp)
  intro pre i j post h
  simp [matchInit] at h

theorem WF_matching (inp : MatchInput) : WF inp (matching inp) := by
  rw [matching_eq]
  exact WF_matchPass _ _ (WF_matchPass _ _ (WF_init inp))

theorem Settled_truthBody (inp : MatchInput) (s : MatchState) (i : Nat) (t : TVector3)
    (hi : inp.m_truth_pos[i]? = some t) (hwf : WF inp s) (h : Settled inp i s) :
    Settled inp (i + 1) (truthBody inp s i t) := by
  have hilt : i < inp.m_truth_pos.length := (List.getElem?_eq_some_iff.mp hi).1
  rcases Bool.eq_false_or_eq_true (s.hits_matched.getD i false) with hm | hm
  · rw [truthBody_of_matched inp s i t hm]
    intro i' t' hlt hi' hfalse
    rcases Nat.lt_succ_iff_lt_or_eq.mp hlt with h1 | h1
    · exact h i' t' h1 hi' hfalse
    · subst h1; rw [hm] at hfalse; exact absurd hfalse (by simp)
  · rcases truthBody_spec inp s i t hm with ⟨heq, hno⟩ | ⟨j, c, hj, hc, heq, _⟩
    · rw [heq]
      intro i' t' hlt hi' hfalse
      rcases Nat.lt_succ_iff_lt_or_eq.mp hlt with h1 | h1
      · exact h i' t' h1 hi' hfalse
      · subst h1
        rw [hi] at hi'
        cases hi'
        exact hno
    · rw [heq]
      intro i' t' hlt hi' hfalse j' c' hj' hc'
      simp only [getD_set_true, Bool.or_eq_false_iff, decide_eq_false_iff_not] at hfalse
      rcases Nat.lt_succ_iff_lt_or_eq.mp hlt with h1 | h1
      · refine h i' t' h1 hi' hfalse.2 j' c' hj' ⟨?_, hc'.2⟩
        have := hc'.1
        simp only [getD_set_true, Bool.or_eq_false_iff] at this
        exact this.2
      · subst h1
        exact hfalse.1 ⟨rfl, by rw [hwf.hits_len]; exact hilt⟩

theorem Settled_matchPass (inp : MatchInput) (s : MatchState) (hwf : WF inp s) :
    Settled inp inp.m_truth_pos.length (matchPass inp s) :=
  (matchPass_induction inp (fun i s => WF inp s ∧ Settled inp i s)
    (fun s i t hi hs => ⟨WF_truthBody inp s i t hi hs.1, Settled_truthBody inp s i t hi hs.1 hs.2⟩)
    s ⟨hwf, fun i' _ hlt => absurd hlt (Nat.not_lt_zero i')⟩).2

theorem matchPass_fixed (inp : MatchInput) (s : MatchState)
    (h : Settled inp inp.m_truth_pos.length s) : matchPass inp s = s := by
  have hstep : ∀ s' i t, inp.m_truth_pos[i]? = some t → s' = s → truthBody inp s' i t = s := by
    intro s' i t hi hs
    subst hs
    have hilt : i < inp.m_truth_pos.length := (List.getElem?_eq_some_iff.mp hi).1
    rcases Bool.eq_false_or_eq_true (s'.hits_matched.getD i false) with hm | hm
    · exact truthBody_of_matched inp s' i t hm
    · rcases truthBody_spec inp s' i t hm with ⟨heq, _⟩ | ⟨j, c, hj, hc, _, _⟩
      · exact heq
      · exact absurd hc (h i t hilt hi hm j c hj)
  exact matchPass_induction inp (fun _ s' => s' = s) hstep s rfl

theorem matchPass_matchPass (inp : MatchInput) (s : MatchState) (hwf : WF inp s) :
    matchPass inp (matchPass inp s) = matchPass inp s :=
  matchPass_fixed inp _ (Settled_matchPass inp s hwf)

theorem hitRadIndexFrom_spec (r : ℚ) : ∀ (peaks : List ℚ) (k0 : Nat),
    hitRadIndexFrom k0 peaks r = -1 ∨
      ∃ k, hitRadIndexFrom k0 peaks r = ((k0 + k : Nat) : Int) ∧ FirstPeak peaks r k := by
  intro peaks
  induction peaks with
  | nil => intro k0; left; rfl
  | cons p ps ih =>
    intro k0
    by_cases hp : |r - p| < 0.5
    · right
      refine ⟨0, ?_, ⟨p, by simp, hp⟩, ?_⟩
      · simp [hitRadIndexFrom, hp]
      · intro k' p' hk'; omega
    · rcases ih (k0 + 1) with h | ⟨k, hk, ⟨q, hq, hq'⟩, hfirst⟩
      · left
        simp [hitRadIndexFrom, hp, h]
      · right
        refine ⟨k + 1, ?_, ⟨q, by simpa using hq, hq'⟩, ?_⟩
        · simp only [hitRadIndexFrom, hp, if_false, hk]
          congr 1
          omega
        · intro k' p' hlt hk'
          cases k' with
          | zero =>
            simp at hk'
            subst hk'
            exact hp
          | succ k' =>
            simp at hk'
            exact hfirst k' p' (by omega) hk'

theorem hitRadIndex_spec (peaks : List ℚ) (r : ℚ) (v : Int) (hv : v ≠ -1)
    (h : hitRadIndex peaks r = v) : ∃ k : Nat, v = (k : Int) ∧ FirstPeak peaks r k := by
  rcases hitRadIndexFrom_spec r peaks 0 with h1 | ⟨k, hk, hf⟩
  · unfold hitRadIndex at h
    rw [h1] at h
    exact absurd h.symm hv
  · unfold hitRadIndex at h
    rw [hk] at h
    exact ⟨k, by rw [← h]; simp, hf⟩

theorem clustRMatchIndex_spec (inp : MatchInput) (c : TVector3) (h : clustRMatchIndex inp c ≠ -1) :
    getClusterRMatch
        (hitMatches (if c.Z > 0 then inp.clust_RPeaks_pos else inp.clust_RPeaks_neg))
        (if c.Z > 0 then inp.clust_RPeaks_pos else inp.clust_RPeaks_neg) c.Perp =
      some (clustRMatchIndex inp c) := by
  unfold clustRMatchIndex at h ⊢
  by_cases hz : c.Z > 0
  · simp only [hz, if_true] at h ⊢
    cases hg : getClusterRMatch (hitMatches inp.clust_RPeaks_pos) inp.clust_RPeaks_pos c.Perp with
    | none => rw [hg] at h; simp at h
    | some v => simp
  · simp only [hz, if_false] at h ⊢
    cases hg : getClusterRMatch (hitMatches inp.clust_RPeaks_neg) inp.clust_RPeaks_neg c.Perp with
    | none => rw [hg] at h; simp at h
    | some v => simp

theorem delta_phi_range (d : ℚ) (h1 : -(2 * M_PI) < d) (h2 : d < 2 * M_PI) :
    -M_PI < delta_phi d ∧ delta_phi d ≤ M_PI := by
  have hpi : 0 < M_PI := by unfold M_PI; norm_num
  unfold delta_phi
  split_ifs with a b
  · constructor <;> linarith
  · constructor <;> linarith
  · constructor
    · exact not_le.mp b
    · exact not_lt.mp a

theorem delta_phi_turn (d : ℚ) : ∃ k : Int, delta_phi d = d + k * (2 * M_PI) := by
  unfold delta_phi
  split_ifs
  · exact ⟨-1, by push_cast; ring⟩
  · exact ⟨1, by push_cast; ring⟩
  · exact ⟨0, by push_cast; ring⟩

/-- C1: the matched pairs of the two-pass matching loop are partial-injective: no truth
index occurs in two pairs and no cluster index occurs in two pairs. -/
theorem C1_matched_pairs_injective (inp : MatchInput) :
    ((matching inp).matched_pair.map Prod.fst).Nodup ∧
      ((matching inp).matched_pair.map Prod.snd).Nodup :=
  ⟨(WF_matching inp).nodup_fst, (WF_matching inp).nodup_snd⟩

/-- C2: at the failing input the loop pairs truth point 49 (z = -1) with cluster 0 (z = 0), whose
signs differ, and the residual of that pair goes to the histograms of side 1 (positive z). -/
theorem C2_pairs_z0_with_negative_truth :
    (matching inputZ0).matched_pair = [(49, 0)] ∧
      inputZ0.m_truth_pos[49]? = some ⟨44, 0, -1⟩ ∧ inputZ0.reco_pos[0]? = some ⟨44, 0, 0⟩ ∧
      sign (-1) = -1 ∧ sign 0 = 0 ∧ (residual ⟨44, 0, -1⟩ ⟨44, 0, 0⟩).side = 1 := by
  decide!

/-- C3: every matched pair passes both gates: the radial peak index of the truth point (the
first peak closer than 0.5 to its radius) is the index that `getClusterRMatch` returns for the
cluster on the peaks of the side of the cluster, and the wrapped azimuthal residual with the rotated
cluster azimuth is below `m_phi_cut` in absolute value. -/
theorem C3_matched_pairs_pass_gates (inp : MatchInput) (i j : Nat)
    (h : (i, j) ∈ (matching inp).matched_pair) :
    ∃ (t c : TVector3) (k : Nat), inp.m_truth_pos[i]? = some t ∧ inp.reco_pos[j]? = some c ∧
      hitRadIndex inp.hit_RPeaks t.Perp = (k : Int) ∧ FirstPeak inp.hit_RPeaks t.Perp k ∧
      getClusterRMatch
          (hitMatches (if c.Z > 0 then inp.clust_RPeaks_pos else inp.clust_RPeaks_neg))
          (if c.Z > 0 then inp.clust_RPeaks_pos else inp.clust_RPeaks_neg) c.Perp =
        some (k : Int) ∧
      |delta_phi (t.Phi - phi2 inp c)| < inp.m_phi_cut := by
  obtain ⟨pre, post, hsplit⟩ := List.append_of_mem h
  obtain ⟨t, c, ht, hc, _, hg, _⟩ := AllBest_matching inp pre i j post hsplit
  obtain ⟨hne, _, hr, hphi⟩ := hg
  obtain ⟨k, hk, hfirst⟩ := hitRadIndex_spec inp.hit_RPeaks t.Perp _ hne hr
  refine ⟨t, c, k, ht, hc, by rw [hr, hk], hfirst, ?_, hphi⟩
  rw [← hk]
  exact clustRMatchIndex_spec inp c hne

/-- C3, witness: the pair `(49, 0)` of the event `inputZ0`. -/
theorem C3_witness :
    (49, 0) ∈ (matching inputZ0).matched_pair ∧
    ∃ (t c : TVector3) (k : Nat), inputZ0.m_truth_pos[49]? = some t ∧ inputZ0.reco_pos[0]? = some c ∧
      hitRadIndex inputZ0.hit_RPeaks t.Perp = (k : Int) ∧ FirstPeak inputZ0.hit_RPeaks t.Perp k ∧
      getClusterRMatch
          (hitMatches (if c.Z > 0 then inputZ0.clust_RPeaks_pos else inputZ0.clust_RPeaks_neg))
          (if c.Z > 0 then inputZ0.clust_RPeaks_pos else inputZ0.clust_RPeaks_neg) c.Perp =
        some (k : Int) ∧
      |delta_phi (t.Phi - phi2 inputZ0 c)| < inputZ0.m_phi_cut :=
  ⟨by decide!, C3_matched_pairs_pass_gates inputZ0 49 0 (by decide!)⟩

/-- C4: the matched pairs are listed in the order in which they were made, so the clusters
already matched when truth point `i` was processed are the second components of the pairs
before `(i, j)`.  Cluster `j` is free and passes the radial look-up, same-side, radial-index
and angular gates, and every free cluster `j'` passing them has a residual at least as large in
absolute value, with `j ≤ j'` when the two are equal. -/
theorem C4_chosen_cluster_is_nearest (inp : MatchInput) (pre post : List (Nat × Nat))
    (i j : Nat) (h : (matching inp).matched_pair = pre ++ (i, j) :: post) :
    ∃ t c, inp.m_truth_pos[i]? = some t ∧ inp.reco_pos[j]? = some c ∧
      j ∉ pre.map Prod.snd ∧
      (clustRMatchIndex inp c ≠ -1 ∧ decide (t.Z > 0) = decide (c.Z > 0) ∧
        hitRadIndex inp.hit_RPeaks t.Perp = clustRMatchIndex inp c ∧
        |delta_phi (t.Phi - phi2 inp c)| < inp.m_phi_cut) ∧
      ∀ j' c', inp.reco_pos[j']? = some c' → j' ∉ pre.map Prod.snd →
        (clustRMatchIndex inp c' ≠ -1 ∧ decide (t.Z > 0) = decide (c'.Z > 0) ∧
          hitRadIndex inp.hit_RPeaks t.Perp = clustRMatchIndex inp c' ∧
          |delta_phi (t.Phi - phi2 inp c')| < inp.m_phi_cut) →
        |delta_phi (t.Phi - phi2 inp c)| ≤ |delta_phi (t.Phi - phi2 inp c')| ∧
          (|delta_phi (t.Phi - phi2 inp c')| = |delta_phi (t.Phi - phi2 inp c)| → j ≤ j') :=
  AllBest_matching inp pre i j post h

/-- C4, witness: in the event `inputTwo` truth point 49 takes cluster 1, the nearer of two. -/
theorem C4_witness :
    (matching inputTwo).matched_pair = [] ++ (49, 1) :: [] ∧
    ∃ t c, inputTwo.m_truth_pos[49]? = some t ∧ inputTwo.reco_pos[1]? = some c ∧
      1 ∉ ([] : List (Nat × Nat)).map Prod.snd ∧
      (clustRMatchIndex inputTwo c ≠ -1 ∧ decide (t.Z > 0) = decide (c.Z > 0) ∧
        hitRadIndex inputTwo.hit_RPeaks t.Perp = clustRMatchIndex inputTwo c ∧
        |delta_phi (t.Phi - phi2 inputTwo c)| < inputTwo.m_phi_cut) ∧
      ∀ j' c', inputTwo.reco_pos[j']? = some c' → j' ∉ ([] : List (Nat × Nat)).map Prod.snd →
        (clustRMatchIndex inputTwo c' ≠ -1 ∧ decide (t.Z > 0) = decide (c'.Z > 0) ∧
          hitRadIndex inputTwo.hit_RPeaks t.Perp = clustRMatchIndex inputTwo c' ∧
          |delta_phi (t.Phi - phi2 inputTwo c')| < inputTwo.m_phi_cut) →
        |delta_phi (t.Phi - phi2 inputTwo c)| ≤ |delta_phi (t.Phi - phi2 inputTwo c')| ∧
          (|delta_phi (t.Phi - phi2 inputTwo c')| = |delta_phi (t.Phi - phi2 inputTwo c)| →
            1 ≤ j') :=
  ⟨by decide!, C4_chosen_cluster_is_nearest inputTwo [] [] 49 1 (by decide!)⟩

/-- C8: the second pass of the matching loop changes nothing (the result of the loop is the
result of its first pass), and any number of further passes leaves the result unchanged. -/
theorem C8_further_passes_add_nothing (inp : MatchInput) :
    matching inp = matchPass inp (matchInit inp) ∧
      ∀ n : Nat, (matchPass inp)^[n] (matching inp) = matching inp := by
  have h1 : matching inp = matchPass inp (matchInit inp) := by
    rw [matching_eq]
    exact matchPass_matchPass inp _ (WF_init inp)
  refine ⟨h1, ?_⟩
  intro n
  apply Function.iterate_fixed
  rw [h1]
  exact matchPass_matchPass inp _ (WF_init inp)

/-! ## The distortion histograms: lemmas and properties -/

theorem scaleOn_step (done : Nat → Nat → Bool) (entries h : TH2) (bx byy : Nat)
    (hnot : done bx byy = false) (he : ¬ entries.content bx byy ≤ 1) :
    normalizeHist (scaleOn done entries h) bx byy (entries.content bx byy) =
      scaleOn (fun x y => done x y || (decide (x = bx) && decide (y = byy))) entries h := by
  have he' : entries.content bx byy > 1 := not_le.mp he
  ext x y
  · rfl
  · rfl
  · simp only [normalizeHist, TH2.SetBinContent, TH2.SetBinError, TH2.GetBinContent, scaleOn]
    by_cases hxy : x = bx ∧ y = byy
    · obtain ⟨rfl, rfl⟩ := hxy
      simp [hnot, he']
    · have : (decide (x = bx) && decide (y = byy)) = false := by
        simpa using hxy
      simp [hxy, this]
  · simp only [normalizeHist, TH2.SetBinContent, TH2.SetBinError, TH2.GetBinContent,
      TH2.GetBinError, scaleOn]
    by_cases hxy : x = bx ∧ y = byy
    · obtain ⟨rfl, rfl⟩ := hxy
      simp [hnot, he']
    · have : (decide (x = bx) && decide (y = byy)) = false := by
        simpa using hxy
      simp [hxy, this]

theorem scaleOn_skip (done : Nat → Nat → Bool) (entries h : TH2) (bx byy : Nat)
    (he : entries.content bx byy ≤ 1) :
    scaleOn done entries h =
      scaleOn (fun x y => done x y || (decide (x = bx) && decide (y = byy))) entries h := by
  ext x y
  · rfl
  · rfl
  · simp only [scaleOn]
    by_cases hxy : x = bx ∧ y = byy
    · obtain ⟨rfl, rfl⟩ := hxy
      simp [not_lt.mpr he]
    · have : (decide (x = bx) && decide (y = byy)) = false := by
        simpa using hxy
      simp [this]
  · simp only [scaleOn]
    by_cases hxy : x = bx ∧ y = byy
    · obtain ⟨rfl, rfl⟩ := hxy
      simp [not_lt.mpr he]
    · have : (decide (x = bx) && decide (y = byy)) = false := by
        simpa using hxy
      simp [this]

theorem normOn_congr (d1 d2 : Fin 2 → Nat → Nat → Bool)
    (dcc : TpcDistortionCorrectionContainer) (h : ∀ s x y, d1 s x y = d2 s x y) :
    normOn d1 dcc = normOn d2 dcc := by
  have : d1 = d2 := by funext s x y; exact h s x y
  rw [this]

theorem normalizeBin_normOn (done : Fin 2 → Nat → Nat → Bool)
    (dcc : TpcDistortionCorrectionContainer) (i : Fin 2) (ip ir : Nat)
    (hnot : done i (ip + 1) (ir + 1) = false) :
    normalizeBin (normOn done dcc) i ip ir =
      normOn (fun s x y => done s x y ||
        (decide (s = i) && (decide (x = ip + 1) && decide (y = ir + 1)))) dcc := by
  have key : ∀ (proj : TpcDistortionCorrectionContainer → Fin 2 → TH2) (s : Fin 2),
      (if (dcc.m_hentries i).content (ip + 1) (ir + 1) ≤ 1 then
          scaleOn (done s) (dcc.m_hentries s) (proj dcc s)
        else Function.update (fun s => scaleOn (done s) (dcc.m_hentries s) (proj dcc s)) i
          (normalizeHist (scaleOn (done i) (dcc.m_hentries i) (proj dcc i)) (ip + 1) (ir + 1)
            ((dcc.m_hentries i).content (ip + 1) (ir + 1))) s) =
        scaleOn (fun x y => done s x y ||
          (decide (s = i) && (decide (x = ip + 1) && decide (y = ir + 1))))
          (dcc.m_hentries s) (proj dcc s) := by
    intro proj s
    by_cases hs : s = i
    · subst hs
      simp only [decide_True, Bool.true_and, Function.update_same]
      split_ifs with he
      · exact scaleOn_skip _ _ _ _ _ he
      · exact scaleOn_step _ _ _ _ _ hnot he
    · simp only [hs, decide_False, Bool.false_and, Bool.or_false, Function.update_noteq, ne_eq,
        not_false_eq_true, ite_self]
  unfold normalizeBin
  simp only [normOn, TH2.GetBinContent]
  split_ifs with he
  · ext1
    · funext s; have := key (fun d => d.m_hDRint) s; rw [if_pos he] at this; exact this
    · funext s; have := key (fun d => d.m_hDPint) s; rw [if_pos he] at this; exact this
    · funext s; have := key (fun d => d.m_hDZint) s; rw [if_pos he] at this; exact this
    · rfl
  · ext1
    · funext s; have := key (fun d => d.m_hDRint) s; rw [if_neg he] at this; exact this
    · funext s; have := key (fun d => d.m_hDPint) s; rw [if_neg he] at this; exact this
    · funext s; have := key (fun d => d.m_hDZint) s; rw [if_neg he] at this; exact this
    · rfl

theorem normalize_inner (dcc : TpcDistortionCorrectionContainer) (i : Fin 2) (ip : Nat) :
    ∀ (n : Nat) (done : Fin 2 → Nat → Nat → Bool), (∀ y, done i (ip + 1) y = false) →
      (List.range n).foldl (fun d ir => normalizeBin d i ip ir) (normOn done dcc) =
        normOn (fun s x y => done s x y ||
          (decide (s = i) && (decide (x = ip + 1) && decide (1 ≤ y ∧ y ≤ n)))) dcc := by
  intro n
  induction n with
  | zero =>
    intro done _
    simp only [List.range_zero, List.foldl_nil]
    apply normOn_congr
    intro s x y
    have : decide (1 ≤ y ∧ y ≤ 0) = false := decide_eq_false (by omega)
    rw [this]; simp
  | succ n ih =>
    intro done hnot
    rw [List.range_succ, List.foldl_append, ih done hnot]
    simp only [List.foldl_cons, List.foldl_nil]
    rw [normalizeBin_normOn]
    · apply normOn_congr
      intro s x y
      by_cases hs : s = i <;> by_cases hx : x = ip + 1 <;> by_cases hy : y = n + 1 <;>
        by_cases hy' : (1 ≤ y ∧ y ≤ n) <;>
        by_cases hy2 : (1 ≤ y ∧ y ≤ n + 1) <;> simp [hs, hx, hy, hy', hy2] <;> omega
    · have : ¬ (1 ≤ n + 1 ∧ n + 1 ≤ n) := by omega
      simp [hnot, this]

theorem normalize_middle (dcc : TpcDistortionCorrectionContainer) (i : Fin 2) :
    ∀ (n : Nat) (done : Fin 2 → Nat → Nat → Bool), (∀ x y, done i x y = false) →
      (List.range n).foldl
        (fun d ip =>
          (List.range (d.m_hentries i).GetNbinsY).foldl (fun d ir => normalizeBin d i ip ir) d)
        (normOn done dcc) =
        normOn (fun s x y => done s x y ||
          (decide (s = i) && (decide (1 ≤ x ∧ x ≤ n) &&
            decide (1 ≤ y ∧ y ≤ (dcc.m_hentries i).nbinsY)))) dcc := by
  intro n
  induction n with
  | zero =>
    intro done _
    simp only [List.range_zero, List.foldl_nil]
    apply normOn_congr
    intro s x y
    have : decide (1 ≤ x ∧ x ≤ 0) = false := decide_eq_false (by omega)
    rw [this]; simp
  | succ n ih =>
    intro done hnot
    rw [List.range_succ, List.foldl_append, ih done hnot]
    simp only [List.foldl_cons, List.foldl_nil]
    have hny : ∀ d', ((normOn d' dcc).m_hentries i).GetNbinsY = (dcc.m_hentries i).nbinsY :=
      fun _ => rfl
    rw [hny, normalize_inner]
    · apply normOn_congr
      intro s x y
      by_cases hs : s = i <;> by_cases hx : x = n + 1 <;>
        by_cases hx' : (1 ≤ x ∧ x ≤ n) <;>
        by_cases hx2 : (1 ≤ x ∧ x ≤ n + 1) <;> simp [hs, hx, hx', hx2] <;> omega
    · intro y
      have : ¬ (1 ≤ n + 1 ∧ n + 1 ≤ n) := by omega
      simp [hnot, this]

theorem normOn_none (dcc : TpcDistortionCorrectionContainer) :
    normOn (fun _ _ _ => false) dcc = dcc := by
  ext1 <;> (funext s; ext x y <;> simp [normOn, scaleOn])

/-- Closed form of `normalize_distortions`. -/
theorem normalize_distortions_eq (dcc : TpcDistortionCorrectionContainer) :
    normalize_distortions dcc = normOn (inGrid dcc) dcc := by
  unfold normalize_distortions
  simp only [List.foldl_cons, List.foldl_nil]
  have hnx : ∀ d' s, ((normOn d' dcc).m_hentries s).GetNbinsX = (dcc.m_hentries s).nbinsX :=
    fun _ _ => rfl
  conv_lhs => rw [← normOn_none dcc]
  rw [hnx, normalize_middle _ _ _ _ (by intros; rfl), hnx, normalize_middle]
  · apply normOn_congr
    intro s x y
    unfold inGrid
    fin_cases s <;> simp
  · intro x y
    simp

theorem fillPhiGuard_step (phibins k : Nat) (h : TH2) :
    fillPhiGuard phibins (phiDone phibins k h) k = phiDone phibins (k + 1) h := by
  have hk : ¬ (1 ≤ k + 1 ∧ k + 1 ≤ k) := by omega
  ext x y
  · rfl
  · rfl
  · simp only [fillPhiGuard, phiDone, TH2.SetBinContent, TH2.SetBinError, TH2.GetBinContent,
      TH2.GetBinError, wrapPhi, hk, if_false]
    by_cases hy : y = k + 1
    · subst hy
      have h1 : (1 ≤ k + 1 ∧ k + 1 ≤ k + 1) := by omega
      simp only [and_true, h1, if_true]
      by_cases hx : x = phibins
      · simp [hx]
      · by_cases hx1 : x = 1
        · subst hx1
          simp [hx]
        · simp [hx, hx1]
    · have h1 : (1 ≤ y ∧ y ≤ k + 1) ↔ (1 ≤ y ∧ y ≤ k) := by omega
      simp only [hy, and_false, if_false, h1]
  · simp only [fillPhiGuard, phiDone, TH2.SetBinContent, TH2.SetBinError, TH2.GetBinContent,
      TH2.GetBinError, wrapPhi, hk, if_false]
    by_cases hy : y = k + 1
    · subst hy
      have h1 : (1 ≤ k + 1 ∧ k + 1 ≤ k + 1) := by omega
      simp only [and_true, h1, if_true]
      by_cases hx : x = phibins
      · simp [hx]
      · by_cases hx1 : x = 1
        · subst hx1
          simp [hx]
        · simp [hx, hx1]
    · have h1 : (1 ≤ y ∧ y ≤ k + 1) ↔ (1 ≤ y ∧ y ≤ k) := by omega
      simp only [hy, and_false, if_false, h1]

theorem fillPhiGuard_loop (phibins : Nat) (h : TH2) :
    ∀ k, (List.range k).foldl (fillPhiGuard phibins) h = phiDone phibins k h := by
  intro k
  induction k with
  | zero =>
    have h0 : ∀ y, ¬ (1 ≤ y ∧ y ≤ 0) := by intro y; omega
    ext x y
    · rfl
    · rfl
    · simp only [phiDone, List.range_zero, List.foldl_nil]; rw [if_neg (h0 y)]
    · simp only [phiDone, List.range_zero, List.foldl_nil]; rw [if_neg (h0 y)]
  | succ k ih =>
    rw [List.range_succ, List.foldl_append, ih]
    simp only [List.foldl_cons, List.foldl_nil]
    exact fillPhiGuard_step phibins k h

theorem fillRGuard_step (rbins k : Nat) (h : TH2) :
    fillRGuard rbins (rDone rbins k h) k = rDone rbins (k + 1) h := by
  have hk : ¬ (1 ≤ k + 1 ∧ k + 1 ≤ k) := by omega
  ext x y
  · rfl
  · rfl
  · simp only [fillRGuard, rDone, TH2.SetBinContent, TH2.SetBinError, TH2.GetBinContent,
      TH2.GetBinError, clampR, hk, if_false]
    by_cases hx : x = k + 1
    · subst hx
      have h1 : (1 ≤ k + 1 ∧ k + 1 ≤ k + 1) := by omega
      simp only [true_and, h1, if_true]
      by_cases hy : y = rbins
      · subst hy
        by_cases h2 : y = 2
        · subst h2; simp
        · have : ¬ (y - 1 = 1) := by omega
          simp [h2, this]
      · by_cases hy1 : y = 1
        · subst hy1
          simp [hy]
        · simp [hy, hy1]
    · have h1 : (1 ≤ x ∧ x ≤ k + 1) ↔ (1 ≤ x ∧ x ≤ k) := by omega
      simp only [hx, false_and, if_false, h1]
  · simp only [fillRGuard, rDone, TH2.SetBinContent, TH2.SetBinError, TH2.GetBinContent,
      TH2.GetBinError, clampR, hk, if_false]
    by_cases hx : x = k + 1
    · subst hx
      have h1 : (1 ≤ k + 1 ∧ k + 1 ≤ k + 1) := by omega
      simp only [true_and, h1, if_true]
      by_cases hy : y = rbins
      · subst hy
        by_cases h2 : y = 2
        · subst h2; simp
        · have : ¬ (y - 1 = 1) := by omega
          simp [h2, this]
      · by_cases hy1 : y = 1
        · subst hy1
          simp [hy]
        · simp [hy, hy1]
    · have h1 : (1 ≤ x ∧ x ≤ k + 1) ↔ (1 ≤ x ∧ x ≤ k) := by omega
      simp only [hx, false_and, if_false, h1]

theorem fillRGuard_loop (rbins : Nat) (h : TH2) :
    ∀ k, (List.range k).foldl (fillRGuard rbins) h = rDone rbins k h := by
  intro k
  induction k with
  | zero =>
    have h0 : ∀ y, ¬ (1 ≤ y ∧ y ≤ 0) := by intro y; omega
    ext x y
    · rfl
    · rfl
    · simp only [rDone, List.range_zero, List.foldl_nil]; rw [if_neg (h0 x)]
    · simp only [rDone, List.range_zero, List.foldl_nil]; rw [if_neg (h0 x)]
  | succ k ih =>
    rw [List.range_succ, List.foldl_append, ih]
    simp only [List.foldl_cons, List.foldl_nil]
    exact fillRGuard_step rbins k h

/-- Closed form of what `fill_guarding_bins` does to one histogram. -/
theorem fillGuardHist_eq (h : TH2) :
    fillGuardHist h = rDone h.nbinsY h.nbinsX (phiDone h.nbinsX h.nbinsY h) := by
  unfold fillGuardHist
  simp only [TH2.GetNbinsX, TH2.GetNbinsY]
  rw [fillPhiGuard_loop, fillRGuard_loop]

/-- Closed form of `fill_guarding_bins`. -/
theorem fill_guarding_bins_eq (dcc : TpcDistortionCorrectionContainer) :
    fill_guarding_bins dcc =
      { m_hDRint := fun s => fillGuardHist (dcc.m_hDRint s)
        m_hDPint := fun s => fillGuardHist (dcc.m_hDPint s)
        m_hDZint := fun s => fillGuardHist (dcc.m_hDZint s)
        m_hentries := fun s => fillGuardHist (dcc.m_hentries s) } := by
  unfold fill_guarding_bins
  simp only [List.foldl_cons, List.foldl_nil]
  ext1 <;> (funext s; fin_cases s <;> simp [Function.update])

theorem fillGuardHist_content (h : TH2) (x y : Nat) :
    (fillGuardHist h).content x y =
      if 1 ≤ x ∧ x ≤ h.nbinsX then
        if 1 ≤ clampR h.nbinsY y ∧ clampR h.nbinsY y ≤ h.nbinsY then
          h.content (wrapPhi h.nbinsX x) (clampR h.nbinsY y)
        else h.content x (clampR h.nbinsY y)
      else if 1 ≤ y ∧ y ≤ h.nbinsY then h.content (wrapPhi h.nbinsX x) y else h.content x y := by
  rw [fillGuardHist_eq]
  rfl

theorem fillGuardHist_error (h : TH2) (x y : Nat) :
    (fillGuardHist h).error x y =
      if 1 ≤ x ∧ x ≤ h.nbinsX then
        if 1 ≤ clampR h.nbinsY y ∧ clampR h.nbinsY y ≤ h.nbinsY then
          h.error (wrapPhi h.nbinsX x) (clampR h.nbinsY y)
        else h.error x (clampR h.nbinsY y)
      else if 1 ≤ y ∧ y ≤ h.nbinsY then h.error (wrapPhi h.nbinsX x) y else h.error x y := by
  rw [fillGuardHist_eq]
  rfl

theorem fillGuardHist_guards (h : TH2) (hP : 3 ≤ h.nbinsX) (hR : 3 ≤ h.nbinsY) :
    GuardsCopied h (fillGuardHist h) := by
  constructor
  · intro ir h1 h2
    have c1 : clampR h.nbinsY ir = ir := by
      unfold clampR; rw [if_neg (by omega), if_neg (by omega)]
    have w1 : wrapPhi h.nbinsX 1 = h.nbinsX - 1 := by
      unfold wrapPhi; rw [if_neg (by omega), if_pos rfl]
    have wP : wrapPhi h.nbinsX h.nbinsX = 2 := by
      unfold wrapPhi; rw [if_pos rfl]
    have r1 : 1 ≤ ir ∧ ir ≤ h.nbinsY := by omega
    have x1 : 1 ≤ 1 ∧ 1 ≤ h.nbinsX := by omega
    have xP : 1 ≤ h.nbinsX ∧ h.nbinsX ≤ h.nbinsX := by omega
    refine ⟨?_, ?_, ?_, ?_⟩
    · rw [fillGuardHist_content, if_pos x1, c1, if_pos r1, w1]
    · rw [fillGuardHist_error, if_pos x1, c1, if_pos r1, w1]
    · rw [fillGuardHist_content, if_pos xP, c1, if_pos r1, wP]
    · rw [fillGuardHist_error, if_pos xP, c1, if_pos r1, wP]
  · intro ip h1 h2
    have w : wrapPhi h.nbinsX ip = ip := by
      unfold wrapPhi; rw [if_neg (by omega), if_neg (by omega)]
    have c1 : clampR h.nbinsY 1 = 2 := by
      unfold clampR; rw [if_neg (by omega), if_pos rfl]
    have cR : clampR h.nbinsY h.nbinsY = h.nbinsY - 1 := by
      unfold clampR; rw [if_pos rfl, if_neg (by omega)]
    have x1 : 1 ≤ ip ∧ ip ≤ h.nbinsX := by omega
    have r2 : 1 ≤ 2 ∧ 2 ≤ h.nbinsY := by omega
    have rR : 1 ≤ h.nbinsY - 1 ∧ h.nbinsY - 1 ≤ h.nbinsY := by omega
    refine ⟨?_, ?_, ?_, ?_⟩
    · rw [fillGuardHist_content, if_pos x1, c1, if_pos r2, w]
    · rw [fillGuardHist_error, if_pos x1, c1, if_pos r2, w]
    · rw [fillGuardHist_content, if_pos x1, cR, if_pos rR, w]
    · rw [fillGuardHist_error, if_pos x1, cR, if_pos rR, w]

theorem scaleOn_idem_iff (done : Nat → Nat → Bool) (entries h : TH2) :
    scaleOn done entries (scaleOn done entries h) = scaleOn done entries h ↔
      ∀ x y, done x y = true → entries.content x y > 1 →
        h.content x y = 0 ∧ h.error x y = 0 := by
  have key : ∀ (e v : ℚ), e > 1 → (v / e / e = v / e ↔ v = 0) := by
    intro e v he
    have he0 : e ≠ 0 := by linarith
    constructor
    · intro h1
      have h2 : v / e * e = v := div_mul_cancel₀ v he0
      have h3 : v / e / e * e = v / e := div_mul_cancel₀ (v / e) he0
      have h4 : v / e = v := by rw [← h3, h1, h2]
      have h5 : v * (e - 1) = 0 := by
        have : v / e * e = v * e := by rw [h4]
        rw [h2] at this
        linarith
      rcases mul_eq_zero.mp h5 with h6 | h6
      · exact h6
      · exfalso; linarith
    · intro h1; simp [h1]
  constructor
  · intro heq x y hd he
    have hc := congrArg (fun g : TH2 => g.content x y) heq
    have hr := congrArg (fun g : TH2 => g.error x y) heq
    simp only [scaleOn, hd, he, and_self, if_true] at hc hr
    exact ⟨(key _ _ he).mp hc, (key _ _ he).mp hr⟩
  · intro hz
    ext x y
    · rfl
    · rfl
    · simp only [scaleOn]
      by_cases hc : done x y = true ∧ entries.content x y > 1
      · rw [if_pos hc, (hz x y hc.1 hc.2).1]; simp
      · rw [if_neg hc]
    · simp only [scaleOn]
      by_cases hc : done x y = true ∧ entries.content x y > 1
      · rw [if_pos hc, (hz x y hc.1 hc.2).2]; simp
      · rw [if_neg hc]

theorem normOn_idem_iff (done : Fin 2 → Nat → Nat → Bool)
    (dcc : TpcDistortionCorrectionContainer) :
    normOn done (normOn done dcc) = normOn done dcc ↔
      ∀ s x y, done s x y = true → (dcc.m_hentries s).content x y > 1 →
        ((dcc.m_hDRint s).content x y = 0 ∧ (dcc.m_hDRint s).error x y = 0) ∧
        ((dcc.m_hDPint s).content x y = 0 ∧ (dcc.m_hDPint s).error x y = 0) ∧
        ((dcc.m_hDZint s).content x y = 0 ∧ (dcc.m_hDZint s).error x y = 0) := by
  constructor
  · intro h s x y hd he
    have h1 := congrFun (congrArg (fun d => d.m_hDRint) h) s
    have h2 := congrFun (congrArg (fun d => d.m_hDPint) h) s
    have h3 := congrFun (congrArg (fun d => d.m_hDZint) h) s
    exact ⟨(scaleOn_idem_iff _ _ _).mp h1 x y hd he, (scaleOn_idem_iff _ _ _).mp h2 x y hd he,
      (scaleOn_idem_iff _ _ _).mp h3 x y hd he⟩
  · intro h
    ext1
    · funext s; exact (scaleOn_idem_iff _ _ _).mpr (fun x y hd he => (h s x y hd he).1)
    · funext s; exact (scaleOn_idem_iff _ _ _).mpr (fun x y hd he => (h s x y hd he).2.1)
    · funext s; exact (scaleOn_idem_iff _ _ _).mpr (fun x y hd he => (h s x y hd he).2.2)
    · rfl

theorem inGrid_iff (dcc : TpcDistortionCorrectionContainer) (s : Fin 2) (x y : Nat) :
    inGrid dcc s x y = true ↔
      (1 ≤ x ∧ x ≤ (dcc.m_hentries s).nbinsX) ∧ (1 ≤ y ∧ y ≤ (dcc.m_hentries s).nbinsY) := by
  simp [inGrid]

/-- C6: `normalize_distortions` leaves the entry histograms untouched and, in every bin
`(ip, ir)` of the grid of side `i`, divides the content and the error of the three residual
histograms by the entry count when that count is above 1 and leaves them unchanged otherwise. -/
theorem C6_normalize_distortions_bins (dcc : TpcDistortionCorrectionContainer) (i : Fin 2)
    (ip ir : Nat) (hip : 1 ≤ ip ∧ ip ≤ (dcc.m_hentries i).nbinsX)
    (hir : 1 ≤ ir ∧ ir ≤ (dcc.m_hentries i).nbinsY) :
    (normalize_distortions dcc).m_hentries = dcc.m_hentries ∧
    ((normalize_distortions dcc).m_hDRint i).content ip ir =
      (if (dcc.m_hentries i).content ip ir > 1 then
        (dcc.m_hDRint i).content ip ir / (dcc.m_hentries i).content ip ir
      else (dcc.m_hDRint i).content ip ir) ∧
    ((normalize_distortions dcc).m_hDRint i).error ip ir =
      (if (dcc.m_hentries i).content ip ir > 1 then
        (dcc.m_hDRint i).error ip ir / (dcc.m_hentries i).content ip ir
      else (dcc.m_hDRint i).error ip ir) ∧
    ((normalize_distortions dcc).m_hDPint i).content ip ir =
      (if (dcc.m_hentries i).content ip ir > 1 then
        (dcc.m_hDPint i).content ip ir / (dcc.m_hentries i).content ip ir
      else (dcc.m_hDPint i).content ip ir) ∧
    ((normalize_distortions dcc).m_hDPint i).error ip ir =
      (if (dcc.m_hentries i).content ip ir > 1 then
        (dcc.m_hDPint i).error ip ir / (dcc.m_hentries i).content ip ir
      else (dcc.m_hDPint i).error ip ir) ∧
    ((normalize_distortions dcc).m_hDZint i).content ip ir =
      (if (dcc.m_hentries i).content ip ir > 1 then
        (dcc.m_hDZint i).content ip ir / (dcc.m_hentries i).content ip ir
      else (dcc.m_hDZint i).content ip ir) ∧
    ((normalize_distortions dcc).m_hDZint i).error ip ir =
      (if (dcc.m_hentries i).content ip ir > 1 then
        (dcc.m_hDZint i).error ip ir / (dcc.m_hentries i).content ip ir
      else (dcc.m_hDZint i).error ip ir) := by
  have hin : inGrid dcc i ip ir = true := (inGrid_iff dcc i ip ir).mpr ⟨hip, hir⟩
  rw [normalize_distortions_eq]
  simp only [normOn, scaleOn, hin, true_and]

/-- C6, witness: bin `(1, 1)` of side 0 of the container `dccTwo`. -/
theorem C6_witness :
    (1 ≤ 1 ∧ 1 ≤ (dccTwo.m_hentries 0).nbinsX) ∧ (1 ≤ 1 ∧ 1 ≤ (dccTwo.m_hentries 0).nbinsY) ∧
    ((normalize_distortions dccTwo).m_hentries = dccTwo.m_hentries ∧
    ((normalize_distortions dccTwo).m_hDRint 0).content 1 1 =
      (if (dccTwo.m_hentries 0).content 1 1 > 1 then
        (dccTwo.m_hDRint 0).content 1 1 / (dccTwo.m_hentries 0).content 1 1
      else (dccTwo.m_hDRint 0).content 1 1) ∧
    ((normalize_distortions dccTwo).m_hDRint 0).error 1 1 =
      (if (dccTwo.m_hentries 0).content 1 1 > 1 then
        (dccTwo.m_hDRint 0).error 1 1 / (dccTwo.m_hentries 0).content 1 1
      else (dccTwo.m_hDRint 0).error 1 1) ∧
    ((normalize_distortions dccTwo).m_hDPint 0).content 1 1 =
      (if (dccTwo.m_hentries 0).content 1 1 > 1 then
        (dccTwo.m_hDPint 0).content 1 1 / (dccTwo.m_hentries 0).content 1 1
      else (dccTwo.m_hDPint 0).content 1 1) ∧
    ((normalize_distortions dccTwo).m_hDPint 0).error 1 1 =
      (if (dccTwo.m_hentries 0).content 1 1 > 1 then
        (dccTwo.m_hDPint 0).error 1 1 / (dccTwo.m_hentries 0).content 1 1
      else (dccTwo.m_hDPint 0).error 1 1) ∧
    ((normalize_distortions dccTwo).m_hDZint 0).content 1 1 =
      (if (dccTwo.m_hentries 0).content 1 1 > 1 then
        (dccTwo.m_hDZint 0).content 1 1 / (dccTwo.m_hentries 0).content 1 1
      else (dccTwo.m_hDZint 0).content 1 1) ∧
    ((normalize_distortions dccTwo).m_hDZint 0).error 1 1 =
      (if (dccTwo.m_hentries 0).content 1 1 > 1 then
        (dccTwo.m_hDZint 0).error 1 1 / (dccTwo.m_hentries 0).content 1 1
      else (dccTwo.m_hDZint 0).error 1 1)) :=
  ⟨by decide, by decide, C6_normalize_distortions_bins dccTwo 0 1 1 (by decide) (by decide)⟩

/-- C7: after `fill_guarding_bins`, on a side whose four histograms have at least three bins
per axis, the azimuth guard bins `1` and `P` of every interior radial bin hold the former
values of bins `P - 1` and `2`, and the radial guard bins `1` and `R` of every interior azimuth
bin hold the former values of bins `2` and `R - 1`; this for the three residual histograms and
the entry histogram. -/
theorem C7_fill_guarding_bins_copies (dcc : TpcDistortionCorrectionContainer) (s : Fin 2)
    (hDR : 3 ≤ (dcc.m_hDRint s).nbinsX ∧ 3 ≤ (dcc.m_hDRint s).nbinsY)
    (hDP : 3 ≤ (dcc.m_hDPint s).nbinsX ∧ 3 ≤ (dcc.m_hDPint s).nbinsY)
    (hDZ : 3 ≤ (dcc.m_hDZint s).nbinsX ∧ 3 ≤ (dcc.m_hDZint s).nbinsY)
    (hen : 3 ≤ (dcc.m_hentries s).nbinsX ∧ 3 ≤ (dcc.m_hentries s).nbinsY) :
    GuardsCopied (dcc.m_hDRint s) ((fill_guarding_bins dcc).m_hDRint s) ∧
    GuardsCopied (dcc.m_hDPint s) ((fill_guarding_bins dcc).m_hDPint s) ∧
    GuardsCopied (dcc.m_hDZint s) ((fill_guarding_bins dcc).m_hDZint s) ∧
    GuardsCopied (dcc.m_hentries s) ((fill_guarding_bins dcc).m_hentries s) := by
  rw [fill_guarding_bins_eq]
  exact ⟨fillGuardHist_guards _ hDR.1 hDR.2, fillGuardHist_guards _ hDP.1 hDP.2,
    fillGuardHist_guards _ hDZ.1 hDZ.2, fillGuardHist_guards _ hen.1 hen.2⟩

/-- C7, witness: side 0 of the container `dccRamp`. -/
theorem C7_witness :
    (3 ≤ (dccRamp.m_hDRint 0).nbinsX ∧ 3 ≤ (dccRamp.m_hDRint 0).nbinsY) ∧
    (3 ≤ (dccRamp.m_hDPint 0).nbinsX ∧ 3 ≤ (dccRamp.m_hDPint 0).nbinsY) ∧
    (3 ≤ (dccRamp.m_hDZint 0).nbinsX ∧ 3 ≤ (dccRamp.m_hDZint 0).nbinsY) ∧
    (3 ≤ (dccRamp.m_hentries 0).nbinsX ∧ 3 ≤ (dccRamp.m_hentries 0).nbinsY) ∧
    (GuardsCopied (dccRamp.m_hDRint 0) ((fill_guarding_bins dccRamp).m_hDRint 0) ∧
    GuardsCopied (dccRamp.m_hDPint 0) ((fill_guarding_bins dccRamp).m_hDPint 0) ∧
    GuardsCopied (dccRamp.m_hDZint 0) ((fill_guarding_bins dccRamp).m_hDZint 0) ∧
    GuardsCopied (dccRamp.m_hentries 0) ((fill_guarding_bins dccRamp).m_hentries 0)) :=
  ⟨by decide, by decide, by decide, by decide,
    C7_fill_guarding_bins_copies dccRamp 0 (by decide) (by decide) (by decide) (by decide)⟩

/-- C9, counterexample: on a container whose bins hold two entries and residual sum 4, a
second `normalize_distortions` divides again (4, then 2, then 1), so the two results differ. -/
theorem C9_second_normalization_divides_again :
    ((normalize_distortions dccTwo).m_hDRint 0).content 1 1 = 2 ∧
    ((normalize_distortions (normalize_distortions dccTwo)).m_hDRint 0).content 1 1 = 1 ∧
    normalize_distortions (normalize_distortions dccTwo) ≠ normalize_distortions dccTwo := by
  have h1 : ((normalize_distortions dccTwo).m_hDRint 0).content 1 1 = 2 := by decide!
  have h2 : ((normalize_distortions (normalize_distortions dccTwo)).m_hDRint 0).content 1 1 = 1 := by
    decide!
  refine ⟨h1, h2, ?_⟩
  intro h
  rw [h, h1] at h2
  exact absurd h2 (by norm_num)

/-- C9, amended: a second `normalize_distortions` changes nothing exactly when every bin of the
grid with more than one entry has content 0 and error 0 in the three residual histograms (in
particular when no bin has more than one entry); the entry counts are not reset by the first
call, so any other bin with more than one entry is divided again. -/
theorem C9_normalize_twice_iff (dcc : TpcDistortionCorrectionContainer) :
    normalize_distortions (normalize_distortions dcc) = normalize_distortions dcc ↔
      ∀ (s : Fin 2) (x y : Nat),
        (1 ≤ x ∧ x ≤ (dcc.m_hentries s).nbinsX) ∧ (1 ≤ y ∧ y ≤ (dcc.m_hentries s).nbinsY) →
        (dcc.m_hentries s).content x y > 1 →
        ((dcc.m_hDRint s).content x y = 0 ∧ (dcc.m_hDRint s).error x y = 0) ∧
        ((dcc.m_hDPint s).content x y = 0 ∧ (dcc.m_hDPint s).error x y = 0) ∧
        ((dcc.m_hDZint s).content x y = 0 ∧ (dcc.m_hDZint s).error x y = 0) := by
  rw [normalize_distortions_eq dcc, normalize_distortions_eq]
  have hg : inGrid (normOn (inGrid dcc) dcc) = inGrid dcc := rfl
  rw [hg, normOn_idem_iff]
  constructor
  · intro h s x y hin he
    exact h s x y ((inGrid_iff dcc s x y).mpr hin) he
  · intro h s x y hin he
    exact h s x y ((inGrid_iff dcc s x y).mp hin) he

/-- C10, counterexample: for an event without matched pair every bin is zero, and after
`normalize_distortions` and `fill_guarding_bins` the guard bin `(1, 2)` of the entry histogram
still has entry count 0. -/
theorem C10_guard_bin_with_zero_entries :
    ((fill_guarding_bins (normalize_distortions dccZero)).m_hentries 0).content 1 2 = 0 := by
  decide!

/-- C10, amended: after `normalize_distortions` and `fill_guarding_bins`, on a side whose entry
histogram has at least three bins per axis, every bin `(x, y)` of the grid of the entry
histogram, so every guard bin, holds the entry count that an interior bin `(x0, y0)` had
before the two calls (azimuth `P - 1` for `x = 1`, `2` for `x = P`; radius `2` for `y = 1`,
`R - 1` for `y = R`); it is zero exactly when that interior bin was empty. -/
theorem C10_guard_bins_copy_interior_entries (dcc : TpcDistortionCorrectionContainer) (s : Fin 2)
    (x y : Nat) (hP : 3 ≤ (dcc.m_hentries s).nbinsX) (hR : 3 ≤ (dcc.m_hentries s).nbinsY)
    (hx : 1 ≤ x ∧ x ≤ (dcc.m_hentries s).nbinsX) (hy : 1 ≤ y ∧ y ≤ (dcc.m_hentries s).nbinsY) :
    ∃ x0 y0 : Nat,
      x0 = (if x = 1 then (dcc.m_hentries s).nbinsX - 1
        else if x = (dcc.m_hentries s).nbinsX then 2 else x) ∧
      y0 = (if y = 1 then 2
        else if y = (dcc.m_hentries s).nbinsY then (dcc.m_hentries s).nbinsY - 1 else y) ∧
      (2 ≤ x0 ∧ x0 ≤ (dcc.m_hentries s).nbinsX - 1) ∧
      (2 ≤ y0 ∧ y0 ≤ (dcc.m_hentries s).nbinsY - 1) ∧
      ((fill_guarding_bins (normalize_distortions dcc)).m_hentries s).content x y =
        (dcc.m_hentries s).content x0 y0 ∧
      (((fill_guarding_bins (normalize_distortions dcc)).m_hentries s).content x y = 0 ↔
        (dcc.m_hentries s).content x0 y0 = 0) := by
  have hw : wrapPhi (dcc.m_hentries s).nbinsX x =
      (if x = 1 then (dcc.m_hentries s).nbinsX - 1
        else if x = (dcc.m_hentries s).nbinsX then 2 else x) := by
    unfold wrapPhi
    split_ifs <;> omega
  have hc : clampR (dcc.m_hentries s).nbinsY y =
      (if y = 1 then 2
        else if y = (dcc.m_hentries s).nbinsY then (dcc.m_hentries s).nbinsY - 1 else y) := by
    unfold clampR
    split_ifs <;> omega
  have hx0 : 2 ≤ wrapPhi (dcc.m_hentries s).nbinsX x ∧
      wrapPhi (dcc.m_hentries s).nbinsX x ≤ (dcc.m_hentries s).nbinsX - 1 := by
    rw [hw]; split_ifs <;> omega
  have hy0 : 2 ≤ clampR (dcc.m_hentries s).nbinsY y ∧
      clampR (dcc.m_hentries s).nbinsY y ≤ (dcc.m_hentries s).nbinsY - 1 := by
    rw [hc]; split_ifs <;> omega
  have hval : ((fill_guarding_bins (normalize_distortions dcc)).m_hentries s).content x y =
      (dcc.m_hentries s).content (wrapPhi (dcc.m_hentries s).nbinsX x)
        (clampR (dcc.m_hentries s).nbinsY y) := by
    rw [fill_guarding_bins_eq, normalize_distortions_eq]
    show (fillGuardHist (dcc.m_hentries s)).content x y = _
    rw [fillGuardHist_content, if_pos hx, if_pos (by omega)]
  refine ⟨_, _, hw, hc, hx0, hy0, hval, ?_⟩
  rw [hval]

/-- C10, witness: the guard bin `(1, 2)` of side 0 of the container `dccRamp`. -/
theorem C10_witness :
    3 ≤ (dccRamp.m_hentries 0).nbinsX ∧ 3 ≤ (dccRamp.m_hentries 0).nbinsY ∧
    (1 ≤ 1 ∧ 1 ≤ (dccRamp.m_hentries 0).nbinsX) ∧ (1 ≤ 2 ∧ 2 ≤ (dccRamp.m_hentries 0).nbinsY) ∧
    ∃ x0 y0 : Nat,
      x0 = (if 1 = 1 then (dccRamp.m_hentries 0).nbinsX - 1
        else if 1 = (dccRamp.m_hentries 0).nbinsX then 2 else 1) ∧
      y0 = (if 2 = 1 then 2
        else if 2 = (dccRamp.m_hentries 0).nbinsY then (dccRamp.m_hentries 0).nbinsY - 1 else 2) ∧
      (2 ≤ x0 ∧ x0 ≤ (dccRamp.m_hentries 0).nbinsX - 1) ∧
      (2 ≤ y0 ∧ y0 ≤ (dccRamp.m_hentries 0).nbinsY - 1) ∧
      ((fill_guarding_bins (normalize_distortions dccRamp)).m_hentries 0).content 1 2 =
        (dccRamp.m_hentries 0).content x0 y0 ∧
      (((fill_guarding_bins (normalize_distortions dccRamp)).m_hentries 0).content 1 2 = 0 ↔
        (dccRamp.m_hentries 0).content x0 y0 = 0) :=
  ⟨by decide, by decide, by decide, by decide,
    C10_guard_bins_copy_interior_entries dccRamp 0 1 2 (by decide) (by decide) (by decide)
      (by decide)⟩

/-! ## The radial look-up and the scenarios: lemmas and properties -/

/-- Outcome of `getClusterRMatch` when every `clusterPeaks[i]` it reads exists. -/
theorem getClusterRMatch_spec (clusterR : ℚ) : ∀ (hitMatches : List Int) (clusterPeaks : List ℚ),
    hitMatches.length ≤ clusterPeaks.length →
    (∃ i h, FirstWindow hitMatches clusterPeaks clusterR i h ∧
        getClusterRMatch hitMatches clusterPeaks clusterR = some h) ∨
      (NoWindow hitMatches clusterPeaks clusterR ∧
        getClusterRMatch hitMatches clusterPeaks clusterR = some (-1)) := by
  intro hitMatches
  induction hitMatches with
  | nil =>
    intro clusterPeaks _
    right
    exact ⟨by unfold NoWindow; intro i h p hi; simp at hi, rfl⟩
  | cons h hs ih =>
    intro clusterPeaks hlen
    cases clusterPeaks with
    | nil => simp at hlen
    | cons p ps =>
      have hlen2 : hs.length ≤ ps.length := by simpa using hlen
      by_cases hw : clusterR > p - lowGap h ∧ clusterR ≤ p + highGap h
      · left
        refine ⟨0, h, ⟨by simp, ⟨p, by simp, hw⟩, ?_⟩, ?_⟩
        · intro i2 h2 p2 hlt; omega
        · simp only [getClusterRMatch, hw, and_self, if_true]
      · have hstep : getClusterRMatch (h :: hs) (p :: ps) clusterR =
            getClusterRMatch hs ps clusterR := by
          simp only [getClusterRMatch, hw, if_false]
        rw [hstep]
        rcases ih ps hlen2 with ⟨i, v, ⟨hi, ⟨q, hq, hqw⟩, hfirst⟩, hres⟩ | ⟨hno, hres⟩
        · left
          refine ⟨i + 1, v, ⟨by simpa using hi, ⟨q, by simpa using hq, hqw⟩, ?_⟩, hres⟩
          intro i2 h2 p2 hlt hh hp
          cases i2 with
          | zero =>
            simp at hh hp
            subst hh; subst hp
            exact hw
          | succ i2 =>
            simp at hh hp
            exact hfirst i2 h2 p2 (by omega) hh hp
        · right
          refine ⟨?_, hres⟩
          unfold NoWindow
          intro i2 h2 p2 hh hp
          cases i2 with
          | zero =>
            simp at hh hp
            subst hh; subst hp
            exact hw
          | succ i2 =>
            simp at hh hp
            exact hno i2 h2 p2 hh hp

theorem hitMatches_eq (clust_RPeaks : List ℚ) :
    hitMatches clust_RPeaks =
      (List.range clust_RPeaks.length).map
        (fun i : Nat => (i : Int) + 23 - R23Gap clust_RPeaks) := by
  unfold hitMatches
  have h : ∀ l : List Nat, (do let a ← l; pure (a : Int) : List Int) = l.map (fun a : Nat => (a : Int)) := by
    intro l
    induction l with
    | nil => rfl
    | cons a l ih =>
      show [(a : Int)] ++ (do let a ← l; pure (a : Int) : List Int) = _
      rw [ih]; rfl
  rw [h, List.map_map]
  rfl

theorem hitMatches_length (clust_RPeaks : List ℚ) :
    (hitMatches clust_RPeaks).length = clust_RPeaks.length := by
  rw [hitMatches_eq]; simp

theorem matching_eq_first_pass (inp : MatchInput) :
    matching inp = matchPass inp (matchInit inp) := by
  rw [matching_eq]
  exact matchPass_matchPass inp _ (WF_init inp)

/-- C13: a cluster whose radius lies in no window of the radial peaks of its side gets `-1`
from `getClusterRMatch` and occurs in no matched pair, whatever its azimuth, its side and the
azimuthal cut. -/
theorem C13_cluster_outside_windows_unmatched (inp : MatchInput) (j : Nat) (c : TVector3)
    (hj : inp.reco_pos[j]? = some c)
    (hout : ∀ (i : Nat) (h : Int) (p : ℚ),
      (hitMatches (if c.Z > 0 then inp.clust_RPeaks_pos else inp.clust_RPeaks_neg))[i]? = some h →
      (if c.Z > 0 then inp.clust_RPeaks_pos else inp.clust_RPeaks_neg)[i]? = some p →
      ¬ (c.Perp > p - lowGap h ∧ c.Perp ≤ p + highGap h)) :
    getClusterRMatch
        (hitMatches (if c.Z > 0 then inp.clust_RPeaks_pos else inp.clust_RPeaks_neg))
        (if c.Z > 0 then inp.clust_RPeaks_pos else inp.clust_RPeaks_neg) c.Perp = some (-1) ∧
      ∀ i : Nat, (i, j) ∉ (matching inp).matched_pair := by
  have hres : getClusterRMatch
      (hitMatches (if c.Z > 0 then inp.clust_RPeaks_pos else inp.clust_RPeaks_neg))
      (if c.Z > 0 then inp.clust_RPeaks_pos else inp.clust_RPeaks_neg) c.Perp = some (-1) := by
    rcases getClusterRMatch_spec c.Perp _ _ (le_of_eq (hitMatches_length _)) with
      ⟨i, h, ⟨hi, ⟨p, hp, hw⟩, _⟩, _⟩ | ⟨_, hr⟩
    · exact absurd hw (hout i h p hi hp)
    · exact hr
  refine ⟨hres, ?_⟩
  intro i hmem
  obtain ⟨pre, post, hsplit⟩ := List.append_of_mem hmem
  obtain ⟨t, c2, _, hc2, _, hg, _⟩ := AllBest_matching inp pre i j post hsplit
  rw [hj] at hc2
  cases hc2
  apply hg.1
  unfold clustRMatchIndex
  by_cases hz : c.Z > 0
  · simp only [hz, if_true] at hres ⊢
    rw [hres]; rfl
  · simp only [hz, if_false] at hres ⊢
    rw [hres]; rfl

/-- C13, witness: the cluster at radius 50 of the event `inputGap`. -/
theorem C13_witness :
    inputGap.reco_pos[0]? = some ⟨50, 0, -1⟩ ∧
    (getClusterRMatch
        (hitMatches (if (-1 : ℚ) > 0 then inputGap.clust_RPeaks_pos else inputGap.clust_RPeaks_neg))
        (if (-1 : ℚ) > 0 then inputGap.clust_RPeaks_pos else inputGap.clust_RPeaks_neg) 50 =
          some (-1) ∧
      ∀ i : Nat, (i, 0) ∉ (matching inputGap).matched_pair) :=
  ⟨rfl, C13_cluster_outside_windows_unmatched inputGap 0 ⟨50, 0, -1⟩ rfl (by
    intro i h p hh hp
    have hneg : ¬ ((-1 : ℚ) > 0) := by norm_num
    have hm : hitMatches inputGap.clust_RPeaks_neg = [24] := by decide!
    have hpk : inputGap.clust_RPeaks_neg = [44.1] := rfl
    simp only [hneg, if_false] at hh hp
    rw [hm] at hh
    rw [hpk] at hp
    cases i with
    | zero =>
      simp at hh hp
      subst hh; subst hp
      show ¬ ((50 : ℚ) > 44.1 - lowGap 24 ∧ (50 : ℚ) ≤ 44.1 + highGap 24)
      decide!
    | succ i => simp at hh)⟩

/-- C19, counterexample: with `hitMatches = [-1]`, `clusterPeaks = [10]` and radius 10 the window
of index 0 holds the radius, and the function returns `hitMatches[0]`, which is `-1`. -/
theorem C19_returns_minus_one_inside_window :
    ((10 : ℚ) > 10 - lowGap (-1) ∧ (10 : ℚ) ≤ 10 + highGap (-1)) ∧
      getClusterRMatch [-1] [10] 10 = some (-1) := by
  decide!

/-- C19, amended: when every `clusterPeaks[i]` read exists, `getClusterRMatch` returns
`hitMatches[i]` for the smallest `i` whose window `(peak - lowGap, peak + highGap]` holds the
radius, and `-1` when there is no such `i`; the gaps are the ones of the table.  (So the result
`-1` means that no window holds the radius or that the first one that does has
`hitMatches[i] = -1`.) -/
theorem C19_getClusterRMatch_first_window (hitMatches : List Int) (clusterPeaks : List ℚ)
    (clusterR : ℚ) (hlen : hitMatches.length ≤ clusterPeaks.length) :
    ((∃ (i : Nat) (h : Int), hitMatches[i]? = some h ∧
        (∃ p : ℚ, clusterPeaks[i]? = some p ∧
          clusterR > p - lowGap h ∧ clusterR ≤ p + highGap h) ∧
        (∀ (i' : Nat) (h' : Int) (p' : ℚ), i' < i → hitMatches[i']? = some h' →
          clusterPeaks[i']? = some p' →
          ¬ (clusterR > p' - lowGap h' ∧ clusterR ≤ p' + highGap h')) ∧
        getClusterRMatch hitMatches clusterPeaks clusterR = some h) ∨
      ((∀ (i : Nat) (h : Int) (p : ℚ), hitMatches[i]? = some h → clusterPeaks[i]? = some p →
          ¬ (clusterR > p - lowGap h ∧ clusterR ≤ p + highGap h)) ∧
        getClusterRMatch hitMatches clusterPeaks clusterR = some (-1))) ∧
    ∀ h : Int,
      (h ≤ 14 → lowGap h = 0.565985 ∧ highGap h = 0.565985) ∧
      (h = 15 → lowGap h = 0.565985 ∧ highGap h = 1.2409686) ∧
      (h = 16 → lowGap h = 1.2409686 ∧ highGap h = 1.020695) ∧
      (17 ≤ h ∧ h ≤ 22 → lowGap h = 1.020695 ∧ highGap h = 1.020695) ∧
      (h = 23 → lowGap h = 1.020695 ∧ highGap h = 1.5001502) ∧
      (h = 24 → lowGap h = 1.5001502 ∧ highGap h = 1.09705) ∧
      (25 ≤ h → lowGap h = 1.09705 ∧ highGap h = 1.09705) := by
  refine ⟨?_, ?_⟩
  · rcases getClusterRMatch_spec clusterR hitMatches clusterPeaks hlen with
      ⟨i, h, ⟨hi, hp, hfirst⟩, hres⟩ | ⟨hno, hres⟩
    · exact Or.inl ⟨i, h, hi, hp, hfirst, hres⟩
    · exact Or.inr ⟨hno, hres⟩
  · intro h
    refine ⟨?_, ?_, ?_, ?_, ?_, ?_, ?_⟩ <;> intro h1 <;> unfold lowGap highGap <;>
      split_ifs <;> first | exact ⟨rfl, rfl⟩ | (exfalso; omega)

/-- C19, witness: two peaks, the radius in the window of the second. -/
theorem C19_witness :
    ([23, 24] : List Int).length ≤ ([40.1, 44.1] : List ℚ).length ∧
    (((∃ (i : Nat) (h : Int), ([23, 24] : List Int)[i]? = some h ∧
        (∃ p : ℚ, ([40.1, 44.1] : List ℚ)[i]? = some p ∧
          (44 : ℚ) > p - lowGap h ∧ (44 : ℚ) ≤ p + highGap h) ∧
        (∀ (i' : Nat) (h' : Int) (p' : ℚ), i' < i → ([23, 24] : List Int)[i']? = some h' →
          ([40.1, 44.1] : List ℚ)[i']? = some p' →
          ¬ ((44 : ℚ) > p' - lowGap h' ∧ (44 : ℚ) ≤ p' + highGap h')) ∧
        getClusterRMatch [23, 24] [40.1, 44.1] 44 = some h) ∨
      ((∀ (i : Nat) (h : Int) (p : ℚ), ([23, 24] : List Int)[i]? = some h →
          ([40.1, 44.1] : List ℚ)[i]? = some p →
          ¬ ((44 : ℚ) > p - lowGap h ∧ (44 : ℚ) ≤ p + highGap h)) ∧
        getClusterRMatch [23, 24] [40.1, 44.1] 44 = some (-1))) ∧
    ∀ h : Int,
      (h ≤ 14 → lowGap h = 0.565985 ∧ highGap h = 0.565985) ∧
      (h = 15 → lowGap h = 0.565985 ∧ highGap h = 1.2409686) ∧
      (h = 16 → lowGap h = 1.2409686 ∧ highGap h = 1.020695) ∧
      (17 ≤ h ∧ h ≤ 22 → lowGap h = 1.020695 ∧ highGap h = 1.020695) ∧
      (h = 23 → lowGap h = 1.020695 ∧ highGap h = 1.5001502) ∧
      (h = 24 → lowGap h = 1.5001502 ∧ highGap h = 1.09705) ∧
      (25 ≤ h → lowGap h = 1.09705 ∧ highGap h = 1.09705)) :=
  ⟨by decide, C19_getClusterRMatch_first_window [23, 24] [40.1, 44.1] 44 (by decide)⟩

/-! ## The accumulation of the matched pairs: lemmas and properties -/

theorem matching_no_cluster (inp : MatchInput) (h : inp.reco_pos = []) :
    matching inp = matchInit inp := by
  rw [matching_eq_first_pass]
  refine matchPass_induction inp (fun _ s => s = matchInit inp) ?_ _ rfl
  intro s i t _ hs
  subst hs
  rcases Bool.eq_false_or_eq_true ((matchInit inp).hits_matched.getD i false) with hm | hm
  · exact truthBody_of_matched inp _ i t hm
  · rcases truthBody_spec inp _ i t hm with ⟨heq, _⟩ | ⟨j, c, hj, _, _, _⟩
    · exact heq
    · rw [h] at hj; simp at hj

theorem AllZero_resetContainer (d : TpcDistortionCorrectionContainer) :
    AllZero (resetContainer d) := by
  intro s x y
  exact ⟨⟨rfl, rfl⟩, ⟨rfl, rfl⟩, ⟨rfl, rfl⟩, ⟨rfl, rfl⟩⟩

theorem AllZero_normalize_distortions (d : TpcDistortionCorrectionContainer) (h : AllZero d) :
    AllZero (normalize_distortions d) := by
  rw [normalize_distortions_eq]
  intro s x y
  obtain ⟨⟨a1, a2⟩, ⟨b1, b2⟩, ⟨c1, c2⟩, e⟩ := h s x y
  refine ⟨⟨?_, ?_⟩, ⟨?_, ?_⟩, ⟨?_, ?_⟩, e⟩ <;>
    simp only [normOn, scaleOn, a1, a2, b1, b2, c1, c2, zero_div, ite_self]

theorem fillGuardHist_zero (h : TH2) (hz : ∀ x y, h.content x y = 0 ∧ h.error x y = 0)
    (x y : Nat) : (fillGuardHist h).content x y = 0 ∧ (fillGuardHist h).error x y = 0 := by
  rw [fillGuardHist_content, fillGuardHist_error]
  constructor
  · split_ifs <;> exact (hz _ _).1
  · split_ifs <;> exact (hz _ _).2

theorem AllZero_fill_guarding_bins (d : TpcDistortionCorrectionContainer) (h : AllZero d) :
    AllZero (fill_guarding_bins d) := by
  rw [fill_guarding_bins_eq]
  intro s x y
  exact ⟨fillGuardHist_zero _ (fun a b => (h s a b).1) x y,
    fillGuardHist_zero _ (fun a b => (h s a b).2.1) x y,
    fillGuardHist_zero _ (fun a b => (h s a b).2.2.1) x y,
    fillGuardHist_zero _ (fun a b => (h s a b).2.2.2) x y⟩

/-- C11: an event without observed cluster gives no matched pair, and after `process_event`
every content and every error of the eight per-event histograms is zero. -/
theorem C11_no_cluster_no_pair_zero_grid (fr : FillRule) (inp : MatchInput) (g : Grids)
    (h : inp.reco_pos = []) :
    (matching inp).matched_pair = [] ∧
    ∀ (s : Fin 2) (x y : Nat),
      (((process_event fr inp g).m_dcc_out.m_hDRint s).content x y = 0 ∧
        ((process_event fr inp g).m_dcc_out.m_hDRint s).error x y = 0) ∧
      (((process_event fr inp g).m_dcc_out.m_hDPint s).content x y = 0 ∧
        ((process_event fr inp g).m_dcc_out.m_hDPint s).error x y = 0) ∧
      (((process_event fr inp g).m_dcc_out.m_hDZint s).content x y = 0 ∧
        ((process_event fr inp g).m_dcc_out.m_hDZint s).error x y = 0) ∧
      (((process_event fr inp g).m_dcc_out.m_hentries s).content x y = 0 ∧
        ((process_event fr inp g).m_dcc_out.m_hentries s).error x y = 0) := by
  have hp : (matching inp).matched_pair = [] := by
    rw [matching_no_cluster inp h]; rfl
  refine ⟨hp, ?_⟩
  have hpe : (process_event fr inp g).m_dcc_out =
      fill_guarding_bins (normalize_distortions (resetContainer g.m_dcc_out)) := by
    unfold process_event
    simp only [hp, List.foldl_nil]
  rw [hpe]
  exact AllZero_fill_guarding_bins _ (AllZero_normalize_distortions _ (AllZero_resetContainer _))

/-- C11, witness: the event `inputEmpty` on the container `dccTwo`. -/
theorem C11_witness :
    inputEmpty.reco_pos = [] ∧
    ((matching inputEmpty).matched_pair = [] ∧
    ∀ (s : Fin 2) (x y : Nat),
      (((process_event unitFill inputEmpty ⟨dccTwo, dccTwo⟩).m_dcc_out.m_hDRint s).content x y = 0 ∧
        ((process_event unitFill inputEmpty ⟨dccTwo, dccTwo⟩).m_dcc_out.m_hDRint s).error x y = 0) ∧
      (((process_event unitFill inputEmpty ⟨dccTwo, dccTwo⟩).m_dcc_out.m_hDPint s).content x y = 0 ∧
        ((process_event unitFill inputEmpty ⟨dccTwo, dccTwo⟩).m_dcc_out.m_hDPint s).error x y = 0) ∧
      (((process_event unitFill inputEmpty ⟨dccTwo, dccTwo⟩).m_dcc_out.m_hDZint s).content x y = 0 ∧
        ((process_event unitFill inputEmpty ⟨dccTwo, dccTwo⟩).m_dcc_out.m_hDZint s).error x y = 0) ∧
      (((process_event unitFill inputEmpty ⟨dccTwo, dccTwo⟩).m_dcc_out.m_hentries s).content x y = 0 ∧
        ((process_event unitFill inputEmpty ⟨dccTwo, dccTwo⟩).m_dcc_out.m_hentries s).error x y = 0)) :=
  ⟨rfl, C11_no_cluster_no_pair_zero_grid unitFill inputEmpty ⟨dccTwo, dccTwo⟩ rfl⟩

theorem foldl_accumulatePair_out (fr : FillRule) (inp : MatchInput) :
    ∀ (pairs : List (Nat × Nat)) (g1 g2 : Grids), g1.m_dcc_out = g2.m_dcc_out →
      (pairs.foldl (accumulatePair fr inp) g1).m_dcc_out =
        (pairs.foldl (accumulatePair fr inp) g2).m_dcc_out := by
  intro pairs
  induction pairs with
  | nil => intro g1 g2 h; exact h
  | cons p ps ih =>
    intro g1 g2 h
    simp only [List.foldl_cons]
    apply ih
    unfold accumulatePair
    cases pairResidual inp p with
    | none => exact h
    | some r => simp only [h]

theorem resetContainer_congr (d1 d2 : TpcDistortionCorrectionContainer)
    (h : SameBinning d1 d2) : resetContainer d1 = resetContainer d2 := by
  unfold resetContainer TH2.Reset
  ext1
  · funext s; obtain ⟨⟨a, b⟩, _⟩ := h s; simp only [a, b]
  · funext s; obtain ⟨_, ⟨a, b⟩, _⟩ := h s; simp only [a, b]
  · funext s; obtain ⟨_, _, ⟨a, b⟩, _⟩ := h s; simp only [a, b]
  · funext s; obtain ⟨_, _, _, ⟨a, b⟩⟩ := h s; simp only [a, b]

/-- C14: the per-event container after `process_event` does not depend on what the per-event
container (or the aggregated one) held before: two states whose per-event containers have the
same bins give the same per-event container for the same event. -/
theorem C14_per_event_grid_independent_of_prior (fr : FillRule) (inp : MatchInput)
    (g1 g2 : Grids) (h : SameBinning g1.m_dcc_out g2.m_dcc_out) :
    (process_event fr inp g1).m_dcc_out = (process_event fr inp g2).m_dcc_out := by
  unfold process_event
  simp only
  rw [foldl_accumulatePair_out fr inp _ _
    ⟨resetContainer g2.m_dcc_out, g2.m_dcc_out_aggregated⟩ (resetContainer_congr _ _ h)]

/-- C14, witness: the event `inputTwo` after a per-event container holding `dccTwo` and after
one holding `dccZero`. -/
theorem C14_witness :
    SameBinning (Grids.mk dccTwo dccRamp).m_dcc_out (Grids.mk dccZero dccTwo).m_dcc_out ∧
    (process_event unitFill inputTwo ⟨dccTwo, dccRamp⟩).m_dcc_out =
      (process_event unitFill inputTwo ⟨dccZero, dccTwo⟩).m_dcc_out :=
  ⟨fun _ => ⟨⟨rfl, rfl⟩, ⟨rfl, rfl⟩, ⟨rfl, rfl⟩, ⟨rfl, rfl⟩⟩,
    C14_per_event_grid_independent_of_prior unitFill inputTwo ⟨dccTwo, dccRamp⟩ ⟨dccZero, dccTwo⟩
      (fun _ => ⟨⟨rfl, rfl⟩, ⟨rfl, rfl⟩, ⟨rfl, rfl⟩, ⟨rfl, rfl⟩⟩)⟩

theorem fill_content (fr : FillRule) (hs : Fin 2 → TH2) (side : Fin 2) (x y w : ℚ)
    (s : Fin 2) (a b : Nat) :
    ((Function.update hs side ((hs side).Fill fr x y w)) s).content a b =
      (hs s).content a b + (if s = side ∧ (a, b) = fr.FindBin x y then w else 0) := by
  by_cases h : s = side
  · subst h
    simp only [Function.update_same, TH2.Fill, true_and]
    split_ifs <;> simp
  · simp [Function.update_noteq h, h]

theorem fill_nbins (fr : FillRule) (hs : Fin 2 → TH2) (side : Fin 2) (x y w : ℚ) (s : Fin 2) :
    ((Function.update hs side ((hs side).Fill fr x y w)) s).nbinsX = (hs s).nbinsX ∧
      ((Function.update hs side ((hs side).Fill fr x y w)) s).nbinsY = (hs s).nbinsY := by
  by_cases h : s = side
  · subst h
    simp [TH2.Fill]
  · simp [Function.update_noteq h]

/-- The aggregated container after the loop over the matched pairs: the bins stay and every
content grows by the contribution of the pairs. -/
theorem foldl_accumulatePair_aggregated (fr : FillRule) (inp : MatchInput) :
    ∀ (pairs : List (Nat × Nat)) (g : Grids) (s : Fin 2),
      (((pairs.foldl (accumulatePair fr inp) g).m_dcc_out_aggregated.m_hDRint s).nbinsX =
          (g.m_dcc_out_aggregated.m_hDRint s).nbinsX ∧
        ((pairs.foldl (accumulatePair fr inp) g).m_dcc_out_aggregated.m_hDRint s).nbinsY =
          (g.m_dcc_out_aggregated.m_hDRint s).nbinsY ∧
        ∀ a b, ((pairs.foldl (accumulatePair fr inp) g).m_dcc_out_aggregated.m_hDRint s).content a b =
          (g.m_dcc_out_aggregated.m_hDRint s).content a b +
            contribution fr inp (fun r => r.dr) s a b pairs) ∧
      (((pairs.foldl (accumulatePair fr inp) g).m_dcc_out_aggregated.m_hDPint s).nbinsX =
          (g.m_dcc_out_aggregated.m_hDPint s).nbinsX ∧
        ((pairs.foldl (accumulatePair fr inp) g).m_dcc_out_aggregated.m_hDPint s).nbinsY =
          (g.m_dcc_out_aggregated.m_hDPint s).nbinsY ∧
        ∀ a b, ((pairs.foldl (accumulatePair fr inp) g).m_dcc_out_aggregated.m_hDPint s).content a b =
          (g.m_dcc_out_aggregated.m_hDPint s).content a b +
            contribution fr inp (fun r => r.rdphi) s a b pairs) ∧
      (((pairs.foldl (accumulatePair fr inp) g).m_dcc_out_aggregated.m_hDZint s).nbinsX =
          (g.m_dcc_out_aggregated.m_hDZint s).nbinsX ∧
        ((pairs.foldl (accumulatePair fr inp) g).m_dcc_out_aggregated.m_hDZint s).nbinsY =
          (g.m_dcc_out_aggregated.m_hDZint s).nbinsY ∧
        ∀ a b, ((pairs.foldl (accumulatePair fr inp) g).m_dcc_out_aggregated.m_hDZint s).content a b =
          (g.m_dcc_out_aggregated.m_hDZint s).content a b +
            contribution fr inp (fun r => r.dz) s a b pairs) ∧
      (((pairs.foldl (accumulatePair fr inp) g).m_dcc_out_aggregated.m_hentries s).nbinsX =
          (g.m_dcc_out_aggregated.m_hentries s).nbinsX ∧
        ((pairs.foldl (accumulatePair fr inp) g).m_dcc_out_aggregated.m_hentries s).nbinsY =
          (g.m_dcc_out_aggregated.m_hentries s).nbinsY ∧
        ∀ a b, ((pairs.foldl (accumulatePair fr inp) g).m_dcc_out_aggregated.m_hentries s).content a b =
          (g.m_dcc_out_aggregated.m_hentries s).content a b +
            contribution fr inp (fun _ => 1) s a b pairs) := by
  intro pairs
  induction pairs with
  | nil =>
    intro g s
    simp [contribution]
  | cons p ps ih =>
    intro g s
    simp only [List.foldl_cons]
    obtain ⟨⟨x1, y1, c1⟩, ⟨x2, y2, c2⟩, ⟨x3, y3, c3⟩, ⟨x4, y4, c4⟩⟩ := ih (accumulatePair fr inp g p) s
    cases hp : pairResidual inp p with
    | none =>
      have hacc : accumulatePair fr inp g p = g := by unfold accumulatePair; rw [hp]
      rw [hacc] at x1 y1 c1 x2 y2 c2 x3 y3 c3 x4 y4 c4
      rw [hacc]
      refine ⟨⟨x1, y1, ?_⟩, ⟨x2, y2, ?_⟩, ⟨x3, y3, ?_⟩, ⟨x4, y4, ?_⟩⟩ <;> intro a b <;>
        simp only [contribution, hp, zero_add]
      · exact c1 a b
      · exact c2 a b
      · exact c3 a b
      · exact c4 a b
    | some r =>
      have hacc : (accumulatePair fr inp g p).m_dcc_out_aggregated =
          fillResidual fr g.m_dcc_out_aggregated r := by unfold accumulatePair; rw [hp]
      rw [hacc] at x1 y1 c1 x2 y2 c2 x3 y3 c3 x4 y4 c4
      refine ⟨⟨?_, ?_, ?_⟩, ⟨?_, ?_, ?_⟩, ⟨?_, ?_, ?_⟩, ⟨?_, ?_, ?_⟩⟩
      · rw [x1]; exact (fill_nbins fr _ _ _ _ _ s).1
      · rw [y1]; exact (fill_nbins fr _ _ _ _ _ s).2
      · intro a b
        rw [c1 a b]
        simp only [contribution, hp, fillResidual, fill_content]
        ring
      · rw [x2]; exact (fill_nbins fr _ _ _ _ _ s).1
      · rw [y2]; exact (fill_nbins fr _ _ _ _ _ s).2
      · intro a b
        rw [c2 a b]
        simp only [contribution, hp, fillResidual, fill_content]
        ring
      · rw [x3]; exact (fill_nbins fr _ _ _ _ _ s).1
      · rw [y3]; exact (fill_nbins fr _ _ _ _ _ s).2
      · intro a b
        rw [c3 a b]
        simp only [contribution, hp, fillResidual, fill_content]
        ring
      · rw [x4]; exact (fill_nbins fr _ _ _ _ _ s).1
      · rw [y4]; exact (fill_nbins fr _ _ _ _ _ s).2
      · intro a b
        rw [c4 a b]
        simp only [contribution, hp, fillResidual, fill_content]
        ring


theorem fillGuardHist_nbins (h : TH2) :
    (fillGuardHist h).nbinsX = h.nbinsX ∧ (fillGuardHist h).nbinsY = h.nbinsY := by
  rw [fillGuardHist_eq]
  exact ⟨rfl, rfl⟩

theorem SameContentHist_fillGuardHist (h1 h2 : TH2) (h : SameContentHist h1 h2) :
    SameContentHist (fillGuardHist h1) (fillGuardHist h2) := by
  obtain ⟨hx, hy, hc⟩ := h
  refine ⟨?_, ?_, ?_⟩
  · rw [(fillGuardHist_nbins h1).1, (fillGuardHist_nbins h2).1, hx]
  · rw [(fillGuardHist_nbins h1).2, (fillGuardHist_nbins h2).2, hy]
  · intro x y
    rw [fillGuardHist_content, fillGuardHist_content, hx, hy]
    simp only [hc]

theorem SameContent_fill_guarding_bins (d1 d2 : TpcDistortionCorrectionContainer)
    (h : SameContent d1 d2) : SameContent (fill_guarding_bins d1) (fill_guarding_bins d2) := by
  rw [fill_guarding_bins_eq, fill_guarding_bins_eq]
  intro s
  obtain ⟨a, b, c, e⟩ := h s
  exact ⟨SameContentHist_fillGuardHist _ _ a, SameContentHist_fillGuardHist _ _ b,
    SameContentHist_fillGuardHist _ _ c, SameContentHist_fillGuardHist _ _ e⟩

theorem SameContentHist_scaleOn (done : Nat → Nat → Bool) (e1 e2 h1 h2 : TH2)
    (he : SameContentHist e1 e2) (h : SameContentHist h1 h2) :
    SameContentHist (scaleOn done e1 h1) (scaleOn done e2 h2) := by
  obtain ⟨hx, hy, hc⟩ := h
  refine ⟨hx, hy, ?_⟩
  intro x y
  simp only [scaleOn, hc, he.2.2]

theorem SameContent_normalize_distortions (d1 d2 : TpcDistortionCorrectionContainer)
    (h : SameContent d1 d2) :
    SameContent (normalize_distortions d1) (normalize_distortions d2) := by
  rw [normalize_distortions_eq, normalize_distortions_eq]
  have hg : inGrid d1 = inGrid d2 := by
    funext s x y
    unfold inGrid
    rw [(h s).2.2.2.1, (h s).2.2.2.2.1]
  rw [hg]
  intro s
  obtain ⟨a, b, c, e⟩ := h s
  exact ⟨SameContentHist_scaleOn _ _ _ _ _ e a, SameContentHist_scaleOn _ _ _ _ _ e b,
    SameContentHist_scaleOn _ _ _ _ _ e c, e⟩

theorem process_event_aggregated (fr : FillRule) (inp : MatchInput) (g : Grids) (s : Fin 2) :
    (((process_event fr inp g).m_dcc_out_aggregated.m_hDRint s).nbinsX =
        (g.m_dcc_out_aggregated.m_hDRint s).nbinsX ∧
      ((process_event fr inp g).m_dcc_out_aggregated.m_hDRint s).nbinsY =
        (g.m_dcc_out_aggregated.m_hDRint s).nbinsY ∧
      ∀ a b, ((process_event fr inp g).m_dcc_out_aggregated.m_hDRint s).content a b =
        (g.m_dcc_out_aggregated.m_hDRint s).content a b +
          contribution fr inp (fun r => r.dr) s a b (matching inp).matched_pair) ∧
    (((process_event fr inp g).m_dcc_out_aggregated.m_hDPint s).nbinsX =
        (g.m_dcc_out_aggregated.m_hDPint s).nbinsX ∧
      ((process_event fr inp g).m_dcc_out_aggregated.m_hDPint s).nbinsY =
        (g.m_dcc_out_aggregated.m_hDPint s).nbinsY ∧
      ∀ a b, ((process_event fr inp g).m_dcc_out_aggregated.m_hDPint s).content a b =
        (g.m_dcc_out_aggregated.m_hDPint s).content a b +
          contribution fr inp (fun r => r.rdphi) s a b (matching inp).matched_pair) ∧
    (((process_event fr inp g).m_dcc_out_aggregated.m_hDZint s).nbinsX =
        (g.m_dcc_out_aggregated.m_hDZint s).nbinsX ∧
      ((process_event fr inp g).m_dcc_out_aggregated.m_hDZint s).nbinsY =
        (g.m_dcc_out_aggregated.m_hDZint s).nbinsY ∧
      ∀ a b, ((process_event fr inp g).m_dcc_out_aggregated.m_hDZint s).content a b =
        (g.m_dcc_out_aggregated.m_hDZint s).content a b +
          contribution fr inp (fun r => r.dz) s a b (matching inp).matched_pair) ∧
    (((process_event fr inp g).m_dcc_out_aggregated.m_hentries s).nbinsX =
        (g.m_dcc_out_aggregated.m_hentries s).nbinsX ∧
      ((process_event fr inp g).m_dcc_out_aggregated.m_hentries s).nbinsY =
        (g.m_dcc_out_aggregated.m_hentries s).nbinsY ∧
      ∀ a b, ((process_event fr inp g).m_dcc_out_aggregated.m_hentries s).content a b =
        (g.m_dcc_out_aggregated.m_hentries s).content a b +
          contribution fr inp (fun _ => 1) s a b (matching inp).matched_pair) :=
  foldl_accumulatePair_aggregated fr inp (matching inp).matched_pair
    ⟨resetContainer g.m_dcc_out, g.m_dcc_out_aggregated⟩ s

theorem process_event_comm (fr : FillRule) (evA evB : MatchInput) (g : Grids) :
    SameContent (process_event fr evB (process_event fr evA g)).m_dcc_out_aggregated
      (process_event fr evA (process_event fr evB g)).m_dcc_out_aggregated := by
  intro s
  obtain ⟨⟨ax1, ay1, ac1⟩, ⟨ax2, ay2, ac2⟩, ⟨ax3, ay3, ac3⟩, ⟨ax4, ay4, ac4⟩⟩ :=
    process_event_aggregated fr evA g s
  obtain ⟨⟨bx1, by1, bc1⟩, ⟨bx2, by2, bc2⟩, ⟨bx3, by3, bc3⟩, ⟨bx4, by4, bc4⟩⟩ :=
    process_event_aggregated fr evB g s
  obtain ⟨⟨cx1, cy1, cc1⟩, ⟨cx2, cy2, cc2⟩, ⟨cx3, cy3, cc3⟩, ⟨cx4, cy4, cc4⟩⟩ :=
    process_event_aggregated fr evB (process_event fr evA g) s
  obtain ⟨⟨dx1, dy1, dc1⟩, ⟨dx2, dy2, dc2⟩, ⟨dx3, dy3, dc3⟩, ⟨dx4, dy4, dc4⟩⟩ :=
    process_event_aggregated fr evA (process_event fr evB g) s
  refine ⟨⟨?_, ?_, ?_⟩, ⟨?_, ?_, ?_⟩, ⟨?_, ?_, ?_⟩, ⟨?_, ?_, ?_⟩⟩
  · rw [cx1, dx1, ax1, bx1]
  · rw [cy1, dy1, ay1, by1]
  · intro a b; rw [cc1, dc1, ac1, bc1]; ring
  · rw [cx2, dx2, ax2, bx2]
  · rw [cy2, dy2, ay2, by2]
  · intro a b; rw [cc2, dc2, ac2, bc2]; ring
  · rw [cx3, dx3, ax3, bx3]
  · rw [cy3, dy3, ay3, by3]
  · intro a b; rw [cc3, dc3, ac3, bc3]; ring
  · rw [cx4, dx4, ax4, bx4]
  · rw [cy4, dy4, ay4, by4]
  · intro a b; rw [cc4, dc4, ac4, bc4]; ring

/-- C15: processing event A then event B, or B then A, leaves the aggregated container with
the same bins and the same contents (the residual sums and the entry counts of both sides),
and so does `End` for the container it finalizes. -/
theorem C15_aggregate_independent_of_event_order (fr : FillRule) (evA evB : MatchInput)
    (g : Grids) :
    (∀ s : Fin 2,
      (∀ x y, ((process_event fr evB (process_event fr evA g)).m_dcc_out_aggregated.m_hDRint s).content x y =
        ((process_event fr evA (process_event fr evB g)).m_dcc_out_aggregated.m_hDRint s).content x y) ∧
      (∀ x y, ((process_event fr evB (process_event fr evA g)).m_dcc_out_aggregated.m_hDPint s).content x y =
        ((process_event fr evA (process_event fr evB g)).m_dcc_out_aggregated.m_hDPint s).content x y) ∧
      (∀ x y, ((process_event fr evB (process_event fr evA g)).m_dcc_out_aggregated.m_hDZint s).content x y =
        ((process_event fr evA (process_event fr evB g)).m_dcc_out_aggregated.m_hDZint s).content x y) ∧
      (∀ x y, ((process_event fr evB (process_event fr evA g)).m_dcc_out_aggregated.m_hentries s).content x y =
        ((process_event fr evA (process_event fr evB g)).m_dcc_out_aggregated.m_hentries s).content x y)) ∧
    (∀ s : Fin 2,
      (∀ x y, ((End (process_event fr evB (process_event fr evA g))).m_hDRint s).content x y =
        ((End (process_event fr evA (process_event fr evB g))).m_hDRint s).content x y) ∧
      (∀ x y, ((End (process_event fr evB (process_event fr evA g))).m_hDPint s).content x y =
        ((End (process_event fr evA (process_event fr evB g))).m_hDPint s).content x y) ∧
      (∀ x y, ((End (process_event fr evB (process_event fr evA g))).m_hDZint s).content x y =
        ((End (process_event fr evA (process_event fr evB g))).m_hDZint s).content x y) ∧
      (∀ x y, ((End (process_event fr evB (process_event fr evA g))).m_hentries s).content x y =
        ((End (process_event fr evA (process_event fr evB g))).m_hentries s).content x y)) := by
  have h1 := process_event_comm fr evA evB g
  have h2 : SameContent (End (process_event fr evB (process_event fr evA g)))
      (End (process_event fr evA (process_event fr evB g))) :=
    SameContent_fill_guarding_bins _ _ (SameContent_normalize_distortions _ _ h1)
  exact ⟨fun s => ⟨(h1 s).1.2.2, (h1 s).2.1.2.2, (h1 s).2.2.1.2.2, (h1 s).2.2.2.2.2⟩,
    fun s => ⟨(h2 s).1.2.2, (h2 s).2.1.2.2, (h2 s).2.2.1.2.2, (h2 s).2.2.2.2.2⟩⟩

/-! ## The truth positions: lemmas and properties -/

theorem foldl_append_flatMap {α β : Type} (f : α → List β) :
    ∀ (xs : List α) (init : List β),
      xs.foldl (fun acc x => acc ++ f x) init = init ++ xs.flatMap f := by
  intro xs
  induction xs with
  | nil => intro init; simp
  | cons x xs ih =>
    intro init
    simp only [List.foldl_cons, List.flatMap_cons]
    rw [ih, List.append_assoc]

theorem save_truth_position_eq (l : List TVector3) (v : TVector3) :
    save_truth_position l v = l ++ sidePair v := by
  simp [save_truth_position, sidePair, SetZ]

theorem truthRegion_eq (geom : TruthGeometry) (R : StripeRegion) (l : List TVector3) :
    truthRegion geom R l = l ++ (regionCentres geom R).flatMap (petalBlock geom) := by
  unfold truthRegion
  have hk : ∀ (c : TVector3) (l : List TVector3),
      (List.range 18).foldl
        (fun l k => save_truth_position l (geom.RotateZ ((k : ℚ) * phi_petal) c)) l =
        l ++ petalBlock geom c := by
    intro c l
    simp only [save_truth_position_eq]
    exact foldl_append_flatMap _ _ _
  have hi : ∀ (j : Nat) (l : List TVector3),
      (List.range (R.nGoodStripes j)).foldl
        (fun l i =>
          (List.range 18).foldl
            (fun l k => save_truth_position l (geom.RotateZ ((k : ℚ) * phi_petal) (R.centre i j)))
            l) l =
        l ++ ((List.range (R.nGoodStripes j)).map (fun i => R.centre i j)).flatMap
          (petalBlock geom) := by
    intro j l
    simp only [hk]
    rw [foldl_append_flatMap (fun i => petalBlock geom (R.centre i j))]
    simp [List.flatMap_map]
  simp only [hi]
  rw [foldl_append_flatMap
    (fun j => ((List.range (R.nGoodStripes j)).map (fun i => R.centre i j)).flatMap
      (petalBlock geom))]
  simp [regionCentres, List.flatMap_assoc]

theorem InitRun_eq (geom : TruthGeometry) (l : List TVector3) :
    InitRun geom l = l ++ (stripeCentres geom).flatMap (petalBlock geom) := by
  unfold InitRun stripeCentres
  simp only [truthRegion_eq, List.flatMap_append, List.append_assoc]

theorem flatMap_length_uniform {α β : Type} (f : α → List β) (len : Nat)
    (hlen : ∀ c, (f c).length = len) (cs : List α) :
    (cs.flatMap f).length = len * cs.length := by
  induction cs with
  | nil => simp
  | cons c cs ih =>
    rw [List.flatMap_cons, List.length_append, ih, hlen, List.length_cons, Nat.mul_succ]
    omega

theorem petalBlock_length (geom : TruthGeometry) (c : TVector3) :
    (petalBlock geom c).length = 36 := by
  unfold petalBlock
  rw [flatMap_length_uniform (fun k : Nat => sidePair (geom.RotateZ ((k : ℚ) * phi_petal) c)) 2
    (fun _ => rfl), List.length_range]

theorem regionCentres_length (geom : TruthGeometry) (R : StripeRegion) :
    (regionCentres geom R).length = ((List.range geom.nRadii).map R.nGoodStripes).sum := by
  have h : (List.length ∘ fun j => (List.range (R.nGoodStripes j)).map (fun i => R.centre i j)) =
      R.nGoodStripes := by
    funext j; simp
  unfold regionCentres
  rw [List.length_flatMap, h]

theorem stripeCentres_length (geom : TruthGeometry) :
    (stripeCentres geom).length = stripeCount geom := by
  simp only [stripeCentres, stripeCount, regionCentres_length, List.length_append]

/-- Position in a list made of blocks of the same length. -/
theorem getElem?_flatMap_uniform {α β : Type} (f : α → List β) (len : Nat)
    (hlen : ∀ c, (f c).length = len) :
    ∀ (cs : List α) (m r : Nat) (c : α), cs[m]? = some c → r < len →
      (cs.flatMap f)[len * m + r]? = (f c)[r]? := by
  intro cs
  induction cs with
  | nil => intro m r c h; simp at h
  | cons c0 cs ih =>
    intro m r c h hr
    rw [List.flatMap_cons]
    cases m with
    | zero =>
      simp at h
      subst h
      rw [List.getElem?_append_left (by rw [hlen]; omega)]
      simp
    | succ m =>
      simp at h
      rw [List.getElem?_append_right (by rw [hlen]; nlinarith)]
      rw [hlen, show len * (m + 1) + r - len = len * m + r by
        rw [Nat.mul_succ]; omega]
      exact ih m r c h hr


theorem InitRun_length (geom : TruthGeometry) :
    (InitRun geom []).length = 2 * 18 * stripeCount geom := by
  rw [InitRun_eq, List.nil_append,
    flatMap_length_uniform (petalBlock geom) 36 (petalBlock_length geom), stripeCentres_length]

theorem InitRun_getElem? (geom : TruthGeometry) (n : Nat) (c : TVector3)
    (hc : (stripeCentres geom)[n / 18]? = some c) (r : Nat) (hr : r < 2) :
    (InitRun geom [])[2 * n + r]? =
      (sidePair (geom.RotateZ (((n % 18 : Nat) : ℚ) * phi_petal) c))[r]? := by
  rw [InitRun_eq, List.nil_append]
  have hidx : 2 * n + r = 36 * (n / 18) + (2 * (n % 18) + r) := by omega
  rw [hidx, getElem?_flatMap_uniform (petalBlock geom) 36 (petalBlock_length geom) _ _ _ c hc
    (by omega)]
  unfold petalBlock
  exact getElem?_flatMap_uniform
    (fun k : Nat => sidePair (geom.RotateZ ((k : ℚ) * phi_petal) c)) 2 (fun _ => rfl)
    (List.range 18) (n % 18) r (n % 18)
    (by rw [List.getElem?_range (Nat.mod_lt _ (by norm_num))]) hr

/-- C16: a second call of `InitRun` on the same matcher pushes the truth positions onto
`m_truth_pos` again: the vector after the second call is the vector after the first call
twice in a row, for every geometry; for the geometry `geomEx` it has 864 entries instead
of 432. -/
theorem C16_second_InitRun_appends_again :
    (∀ geom : TruthGeometry,
      InitRun geom (InitRun geom []) = InitRun geom [] ++ InitRun geom []) ∧
    (InitRun geomEx []).length = 432 ∧
    (InitRun geomEx (InitRun geomEx [])).length = 864 := by
  have h : ∀ geom : TruthGeometry,
      InitRun geom (InitRun geom []) = InitRun geom [] ++ InitRun geom [] := by
    intro geom
    rw [InitRun_eq geom (InitRun geom []), InitRun_eq geom [], List.nil_append]
  have hlen : (InitRun geomEx []).length = 432 := by
    rw [InitRun_length]; decide
  refine ⟨h, hlen, ?_⟩
  rw [h, List.length_append, hlen]

/-- C17: after one `InitRun` on a fresh matcher (`m_truth_pos` empty) the truth list has
`2 * 18 * S` entries, `S` being the sum of `nGoodStripes` over the rows of the four regions,
which is the number of stripe centres; entries `2n` and `2n + 1` are the same rotated stripe
centre with `z = +1` and `z = -1`: the centre number `n / 18` (regions in the order
inner-extended, inner, mid, outer) rotated about the z axis by `(n % 18) * phi_petal`,
where `phi_petal = M_PI / 9`. -/
theorem C17_truth_list_layout (geom : TruthGeometry) (n : Nat) (c : TVector3)
    (hc : (stripeCentres geom)[n / 18]? = some c) :
    (InitRun geom []).length = 2 * 18 * stripeCount geom ∧
    (stripeCentres geom).length = stripeCount geom ∧
    phi_petal = M_PI / 9 ∧
    (InitRun geom [])[2 * n]? =
      some { geom.RotateZ (((n % 18 : Nat) : ℚ) * phi_petal) c with Z := 1 } ∧
    (InitRun geom [])[2 * n + 1]? =
      some { geom.RotateZ (((n % 18 : Nat) : ℚ) * phi_petal) c with Z := -1 } := by
  refine ⟨InitRun_length geom, stripeCentres_length geom, rfl, ?_, ?_⟩
  · have := InitRun_getElem? geom n c hc 0 (by norm_num)
    rw [Nat.add_zero] at this
    rw [this]; rfl
  · rw [InitRun_getElem? geom n c hc 1 (by norm_num)]; rfl

/-- C17, witness: entries 40 and 41 of the truth list of the geometry `geomEx`: the third
stripe centre of the first region (radius 21, azimuth `0.01`), at petal 4. -/
theorem C17_witness :
    (stripeCentres geomEx)[40 / 18]? = some ⟨21, 1 / 100, 0⟩ ∧
    ((InitRun geomEx []).length = 2 * 18 * stripeCount geomEx ∧
    (stripeCentres geomEx).length = stripeCount geomEx ∧
    phi_petal = M_PI / 9 ∧
    (InitRun geomEx [])[2 * 40]? =
      some { geomEx.RotateZ (((40 % 18 : Nat) : ℚ) * phi_petal) ⟨21, 1 / 100, 0⟩ with Z := 1 } ∧
    (InitRun geomEx [])[2 * 40 + 1]? =
      some { geomEx.RotateZ (((40 % 18 : Nat) : ℚ) * phi_petal) ⟨21, 1 / 100, 0⟩ with Z := -1 }) :=
  ⟨by decide!, C17_truth_list_layout geomEx 40 ⟨21, 1 / 100, 0⟩ (by decide!)⟩

/-! ## The radial peaks: lemmas and properties -/

theorem GetBinCenter_lt (proj : TH1D) (hx : proj.xmin < proj.xmax) (hn : 0 < proj.nbins)
    (i j : Nat) (hij : i < j) : proj.GetBinCenter i < proj.GetBinCenter j := by
  unfold TH1D.GetBinCenter
  have hw : 0 < (proj.xmax - proj.xmin) / proj.nbins :=
    div_pos (by linarith) (by exact_mod_cast hn)
  have hij2 : (i : ℚ) < (j : ℚ) := by exact_mod_cast hij
  nlinarith

theorem FindBin_GetBinCenter (proj : TH1D) (hx : proj.xmin < proj.xmax) (i : Nat)
    (h1 : 1 ≤ i) (h2 : i ≤ proj.nbins) : proj.FindBin (proj.GetBinCenter i) = i := by
  have hn : (0 : ℚ) < proj.nbins := by exact_mod_cast (by omega : 0 < proj.nbins)
  have hd : (0 : ℚ) < proj.xmax - proj.xmin := by linarith
  have hi1 : (1 : ℚ) ≤ i := by exact_mod_cast h1
  have hi2 : (i : ℚ) ≤ proj.nbins := by exact_mod_cast h2
  have hw : 0 < (proj.xmax - proj.xmin) / proj.nbins := div_pos hd hn
  have hc : proj.GetBinCenter i - proj.xmin =
      ((i : ℚ) - 1 / 2) * ((proj.xmax - proj.xmin) / proj.nbins) := by
    unfold TH1D.GetBinCenter; ring
  have hge : ¬ proj.GetBinCenter i < proj.xmin := by
    have : 0 ≤ ((i : ℚ) - 1 / 2) * ((proj.xmax - proj.xmin) / proj.nbins) :=
      mul_nonneg (by linarith) (le_of_lt hw)
    linarith
  have hlt : proj.GetBinCenter i < proj.xmax := by
    have h3 : ((i : ℚ) - 1 / 2) * ((proj.xmax - proj.xmin) / proj.nbins) <
        (proj.nbins : ℚ) * ((proj.xmax - proj.xmin) / proj.nbins) :=
      mul_lt_mul_of_pos_right (by linarith) hw
    have h4 : (proj.nbins : ℚ) * ((proj.xmax - proj.xmin) / proj.nbins) =
        proj.xmax - proj.xmin := by
      field_simp
    linarith
  have hq : (proj.nbins : ℚ) * (proj.GetBinCenter i - proj.xmin) / (proj.xmax - proj.xmin) =
      (i : ℚ) - 1 / 2 := by
    rw [hc]
    field_simp
    ring
  have hfloor : Int.floor ((i : ℚ) - 1 / 2) = (i : Int) - 1 := by
    rw [Int.floor_eq_iff]
    constructor
    · push_cast; linarith
    · push_cast; linarith
  unfold TH1D.FindBin
  rw [if_neg hge, if_neg (not_not.mpr hlt), hq, hfloor]
  omega

theorem rPeakCandidates_pairwise (proj : TH1D) (hx : proj.xmin < proj.xmax) :
    (rPeakCandidates proj).Pairwise (· < ·) := by
  unfold rPeakCandidates
  rcases Nat.eq_zero_or_pos proj.nbins with h0 | hn
  · simp [TH1D.GetNbinsX, h0]
  · apply List.Pairwise.map _ (fun i j hij => GetBinCenter_lt proj hx hn i j hij)
    apply List.Pairwise.filter
    apply List.Pairwise.map _ (fun i j (hij : i < j) => Nat.add_lt_add_right hij 2)
    exact List.pairwise_lt_range _

/-- Outcome of the second loop of `getRPeaks` on increasing peaks: the peaks kept are more
than `0.75` apart, and none of them is below the peak the loop starts from. -/
theorem sweepFrom_spec (proj : TH1D) : ∀ (rest : List ℚ) (a : ℚ),
    (a :: rest).Pairwise (· < ·) →
    (sweepFrom proj a rest).Chain' (fun x y => y - x > 0.75) ∧
      (∀ x ∈ sweepFrom proj a rest, a ≤ x) ∧ sweepFrom proj a rest ≠ [] := by
  intro rest
  induction rest with
  | nil =>
    intro a _
    simp [sweepFrom]
  | cons b rest ih =>
    intro a hp
    have hab : a < b := (List.pairwise_cons.mp hp).1 b (by simp)
    have hb : (b :: rest).Pairwise (· < ·) := (List.pairwise_cons.mp hp).2
    have ha : (a :: rest).Pairwise (· < ·) := by
      apply List.Pairwise.sublist _ hp
      exact List.Sublist.cons₂ a (List.sublist_cons_self b rest)
    by_cases hgap : b - a > 0.75
    · have hs : sweepFrom proj a (b :: rest) = a :: sweepFrom proj b rest := by
        simp only [sweepFrom, hgap, if_true]
      obtain ⟨hc, hlb, hne⟩ := ih b hb
      rw [hs]
      refine ⟨?_, ?_, by simp⟩
      · apply List.Chain'.cons' hc
        intro y hy
        have hy2 : y ∈ sweepFrom proj b rest := List.mem_of_mem_head? hy
        have := hlb y hy2
        show y - a > 0.75
        linarith
      · intro x hxm
        rcases List.mem_cons.mp hxm with h | h
        · rw [h]
        · have := hlb x h; linarith
    · by_cases hcont : peakContent proj a > peakContent proj b
      · have hs : sweepFrom proj a (b :: rest) = sweepFrom proj a rest := by
          simp only [sweepFrom, hgap, hcont, if_true, if_false]
        rw [hs]
        exact ih a ha
      · have hs : sweepFrom proj a (b :: rest) = sweepFrom proj b rest := by
          simp only [sweepFrom, hgap, hcont, if_false]
        rw [hs]
        obtain ⟨hc, hlb, hne⟩ := ih b hb
        refine ⟨hc, ?_, hne⟩
        intro x hxm
        have := hlb x hxm; linarith

theorem chain_gap_pairwise (l : List ℚ) (h : l.Chain' (fun x y => y - x > 0.75)) :
    l.Pairwise (· < ·) := by
  have h2 : l.Chain' (· < ·) := by
    apply List.Chain'.imp _ h
    intro x y hxy
    have : y - x > 0.75 := hxy
    have h075 : (0 : ℚ) < 0.75 := by norm_num
    linarith
  exact List.chain'_iff_pairwise.mp h2

theorem getRPeaks_chain (proj : TH1D) (hx : proj.xmin < proj.xmax) :
    (getRPeaks proj).Chain' (fun x y => y - x > 0.75) := by
  unfold getRPeaks
  have hp := rPeakCandidates_pairwise proj hx
  cases hc : rPeakCandidates proj with
  | nil => simp [mergeSweep]
  | cons a rest =>
    rw [hc] at hp
    exact (sweepFrom_spec proj rest a hp).1

/-- C20: on a projection whose axis has `xmin < xmax`, the peaks returned by `getRPeaks` are
strictly increasing and two consecutive ones are more than `0.75` apart.  In the sweep, when
the next peak `b` is within `0.75` of the current peak `a`, `b` is dropped if the content of `a`
is strictly larger, and `a` is dropped otherwise (strictly lower content, or equal content:
the earlier one goes); the content of a peak is the content of its bin. -/
theorem C20_getRPeaks_separated (proj : TH1D) (hx : proj.xmin < proj.xmax) :
    (getRPeaks proj).Pairwise (· < ·) ∧
    (getRPeaks proj).Chain' (fun x y => y - x > 0.75) ∧
    (∀ (a b : ℚ) (rest : List ℚ), ¬ (b - a > 0.75) →
      (peakContent proj a > peakContent proj b →
        sweepFrom proj a (b :: rest) = sweepFrom proj a rest) ∧
      (peakContent proj a < peakContent proj b →
        sweepFrom proj a (b :: rest) = sweepFrom proj b rest) ∧
      (peakContent proj a = peakContent proj b →
        sweepFrom proj a (b :: rest) = sweepFrom proj b rest)) ∧
    (∀ i : Nat, 1 ≤ i → i ≤ proj.nbins →
      peakContent proj (proj.GetBinCenter i) = proj.GetBinContent i) := by
  refine ⟨chain_gap_pairwise _ (getRPeaks_chain proj hx), getRPeaks_chain proj hx, ?_, ?_⟩
  · intro a b rest hgap
    refine ⟨?_, ?_, ?_⟩
    · intro h; simp only [sweepFrom, hgap, h, if_true, if_false]
    · intro h
      have : ¬ peakContent proj a > peakContent proj b := not_lt.mpr (le_of_lt h)
      simp only [sweepFrom, hgap, this, if_false]
    · intro h
      have : ¬ peakContent proj a > peakContent proj b := not_lt.mpr (le_of_eq h)
      simp only [sweepFrom, hgap, this, if_false]
  · intro i h1 h2
    unfold peakContent
    rw [FindBin_GetBinCenter proj hx i h1 h2]

/-- C20, witness: the projection `projEx`, whose candidates at `1.25` and `1.75` have the same
content: the earlier one is dropped. -/
theorem C20_witness :
    projEx.xmin < projEx.xmax ∧
    rPeakCandidates projEx = [5 / 4, 7 / 4, 17 / 4, 29 / 4] ∧
    getRPeaks projEx = [7 / 4, 17 / 4, 29 / 4] ∧
    ((getRPeaks projEx).Pairwise (· < ·) ∧
    (getRPeaks projEx).Chain' (fun x y => y - x > 0.75) ∧
    (∀ (a b : ℚ) (rest : List ℚ), ¬ (b - a > 0.75) →
      (peakContent projEx a > peakContent projEx b →
        sweepFrom projEx a (b :: rest) = sweepFrom projEx a rest) ∧
      (peakContent projEx a < peakContent projEx b →
        sweepFrom projEx a (b :: rest) = sweepFrom projEx b rest) ∧
      (peakContent projEx a = peakContent projEx b →
        sweepFrom projEx a (b :: rest) = sweepFrom projEx b rest)) ∧
    (∀ i : Nat, 1 ≤ i → i ≤ projEx.nbins →
      peakContent projEx (projEx.GetBinCenter i) = projEx.GetBinContent i)) :=
  ⟨by decide!, by decide!, by decide!, C20_getRPeaks_separated projEx (by decide!)⟩

/-! ## Assignments, sides and layer indices: lemmas and properties -/

/-- C22: the matching is greedy, not optimal.  In the event `inputGreedy` (two clusters on the
negative side, both with radial index 24, cut 0.05) the two-pass loop makes the single pair
`(0, 0)`, while `(0, 1), (1, 0)` is a one-to-one assignment of two pairs that pass all the
gates. -/
theorem C22_greedy_matching_not_maximum :
    ∃ (inp : MatchInput) (a : List (Nat × Nat)),
      (∀ c ∈ inp.reco_pos, c.Z < 0 ∧ clustRMatchIndex inp c = 24) ∧
      (matching inp).matched_pair = [(0, 0)] ∧
      Assignment inp a ∧ (matching inp).matched_pair.length < a.length := by
  refine ⟨inputGreedy, [(0, 1), (1, 0)], by decide!, by decide!, ⟨by decide, by decide, ?_⟩,
    by decide!⟩
  intro p hp
  simp only [List.mem_cons, List.mem_singleton, List.not_mem_nil, or_false] at hp
  rcases hp with rfl | rfl
  · exact ⟨⟨44, 0, -1⟩, ⟨44, -0.04, -1⟩, rfl, rfl, by decide!⟩
  · exact ⟨⟨44, 0.04, -1⟩, ⟨44, 0.03, -1⟩, rfl, rfl, by decide!⟩

/-- C25: at the failing input the matched pair `(49, 0)` has a cluster with `z = 0` and a truth
point with `z = -1`: its residuals are accumulated on side 1, while the side of the truth point
is 0. -/
theorem C25_z0_pair_accumulated_on_other_side :
    (49, 0) ∈ (matching inputZ0).matched_pair ∧
      (pairResidual inputZ0 (49, 0)).map (fun r => r.side) = some 1 ∧
      inputZ0.m_truth_pos[49]?.map truthSide = some 0 ∧
      inputZ0.reco_pos[0]?.map (fun c => c.Z) = some 0 := by
  decide!

/-- C26: the vectors `hitMatches_pos` and `hitMatches_neg` have the lengths of
`clust_RPeaks_pos` and `clust_RPeaks_neg`, and the radial look-up of the matching loop never
reads past the end of the peak vector: it returns a value, which is `clustRMatchIndex`. -/
theorem C26_radial_lookup_reads_in_bounds (inp : MatchInput) :
    (hitMatches inp.clust_RPeaks_pos).length = inp.clust_RPeaks_pos.length ∧
      (hitMatches inp.clust_RPeaks_neg).length = inp.clust_RPeaks_neg.length ∧
      ∀ c : TVector3, ∃ v : Int,
        getClusterRMatch
            (hitMatches (if c.Z > 0 then inp.clust_RPeaks_pos else inp.clust_RPeaks_neg))
            (if c.Z > 0 then inp.clust_RPeaks_pos else inp.clust_RPeaks_neg) c.Perp = some v ∧
          clustRMatchIndex inp c = v := by
  refine ⟨hitMatches_length _, hitMatches_length _, ?_⟩
  intro c
  have key : ∀ pk : List ℚ, ∃ v : Int, getClusterRMatch (hitMatches pk) pk c.Perp = some v := by
    intro pk
    rcases getClusterRMatch_spec c.Perp (hitMatches pk) pk (le_of_eq (hitMatches_length pk)) with
      ⟨_, h, _, hg⟩ | ⟨_, hg⟩
    · exact ⟨h, hg⟩
    · exact ⟨-1, hg⟩
  unfold clustRMatchIndex
  by_cases hz : c.Z > 0
  · obtain ⟨v, hv⟩ := key inp.clust_RPeaks_pos
    exact ⟨v, by simp only [hz, if_true]; exact hv, by simp only [hz, if_true]; rw [hv]; rfl⟩
  · obtain ⟨v, hv⟩ := key inp.clust_RPeaks_neg
    exact ⟨v, by simp only [hz, if_false]; exact hv, by simp only [hz, if_false]; rw [hv]; rfl⟩

theorem hitRadIndex_far (peaks : List ℚ) (r : ℚ) (h : ∀ p ∈ peaks, ¬ |r - p| < 0.5) :
    hitRadIndex peaks r = -1 := by
  rcases hitRadIndexFrom_spec r peaks 0 with h1 | ⟨k, _, ⟨p, hp, hlt⟩, _⟩
  · exact h1
  · exact absurd hlt (h p (List.getElem?_mem hp))

/-- C28: a truth point with no truth radial peak within `0.5` of its radius has
`hitRadIndex = -1` and is in no matched pair, whatever the clusters and the cut; a cluster
whose radial look-up gives `-1` leaves the variables of the cluster loop as they are. -/
theorem C28_truth_without_peak_unmatched (inp : MatchInput) (i : Nat) (t : TVector3)
    (ht : inp.m_truth_pos[i]? = some t)
    (hfar : ∀ p ∈ inp.hit_RPeaks, ¬ |t.Perp - p| < 0.5) :
    hitRadIndex inp.hit_RPeaks t.Perp = -1 ∧
      (∀ j, (i, j) ∉ (matching inp).matched_pair) ∧
      ∀ (cm : List Bool) (st : ScanState) (j : Nat) (c : TVector3),
        clustRMatchIndex inp c = -1 → scanBody inp cm i t st j c = st := by
  have hidx := hitRadIndex_far inp.hit_RPeaks t.Perp hfar
  refine ⟨hidx, ?_, ?_⟩
  · intro j hmem
    obtain ⟨pre, post, hsplit⟩ := List.append_of_mem hmem
    obtain ⟨t', c, ht', _, _, hg, _⟩ := AllBest_matching inp pre i j post hsplit
    rw [ht] at ht'
    cases ht'
    obtain ⟨hne, _, hr, _⟩ := hg
    rw [hidx] at hr
    exact hne hr.symm
  · intro cm st j c hc
    unfold scanBody
    rw [if_pos hc]
    split_ifs <;> rfl

/-- C28, witness: the truth point of the event `inputFar`, at radius 50. -/
theorem C28_witness :
    inputFar.m_truth_pos[0]? = some ⟨50, 0, -1⟩ ∧
    (∀ p ∈ inputFar.hit_RPeaks, ¬ |(⟨50, 0, -1⟩ : TVector3).Perp - p| < 0.5) ∧
    (hitRadIndex inputFar.hit_RPeaks (⟨50, 0, -1⟩ : TVector3).Perp = -1 ∧
      (∀ j, (0, j) ∉ (matching inputFar).matched_pair) ∧
      ∀ (cm : List Bool) (st : ScanState) (j : Nat) (c : TVector3),
        clustRMatchIndex inputFar c = -1 →
          scanBody inputFar cm 0 ⟨50, 0, -1⟩ st j c = st) :=
  ⟨rfl, by decide!, C28_truth_without_peak_unmatched inputFar 0 ⟨50, 0, -1⟩ rfl (by decide!)⟩

theorem R23Gap_loop (pk : List ℚ) : ∀ n : Nat,
    ((List.range n).foldl
        (fun g i => if pk.getD (i + 1) 0 - pk.getD i 0 ≥ 2.5 then (i : Int) else g) (-1) = -1 ∧
      ∀ i : Nat, i < n → ¬ (pk.getD (i + 1) 0 - pk.getD i 0 ≥ 2.5)) ∨
    ∃ k : Nat, (List.range n).foldl
        (fun g i => if pk.getD (i + 1) 0 - pk.getD i 0 ≥ 2.5 then (i : Int) else g) (-1) = (k : Int) ∧
      k < n ∧ pk.getD (k + 1) 0 - pk.getD k 0 ≥ 2.5 ∧
      ∀ i : Nat, k < i → i < n → ¬ (pk.getD (i + 1) 0 - pk.getD i 0 ≥ 2.5) := by
  intro n
  induction n with
  | zero =>
    left
    exact ⟨rfl, fun i hi => absurd hi (Nat.not_lt_zero i)⟩
  | succ n ih =>
    rw [List.range_succ, List.foldl_append, List.foldl_cons, List.foldl_nil]
    by_cases hg : pk.getD (n + 1) 0 - pk.getD n 0 ≥ 2.5
    · right
      refine ⟨n, by rw [if_pos hg], Nat.lt_succ_self n, hg, ?_⟩
      intro i h1 h2
      omega
    · rw [if_neg hg]
      rcases ih with ⟨h0, hall⟩ | ⟨k, hk, hkn, hgk, hall⟩
      · left
        refine ⟨h0, ?_⟩
        intro i hi
        rcases Nat.lt_succ_iff_lt_or_eq.mp hi with h | h
        · exact hall i h
        · rw [h]; exact hg
      · right
        refine ⟨k, hk, Nat.lt_succ_of_lt hkn, hgk, ?_⟩
        intro i h1 h2
        rcases Nat.lt_succ_iff_lt_or_eq.mp h2 with h | h
        · exact hall i h1 h
        · rw [h]; exact hg

theorem R23Gap_spec (peaks : List ℚ) : LastGap peaks (R23Gap peaks) := by
  unfold LastGap R23Gap
  rcases R23Gap_loop peaks (peaks.length - 1) with ⟨h0, hall⟩ | ⟨k, hk, hkn, hgk, hall⟩
  · left
    exact ⟨h0, fun i hi => hall i (by omega)⟩
  · right
    exact ⟨k, hk, by omega, hgk, fun i h1 h2 => hall i h1 (by omega)⟩

theorem hitMatches_getElem? (peaks : List ℚ) (i : Nat) (hi : i < peaks.length) :
    (hitMatches peaks)[i]? = some ((i : Int) + 23 - R23Gap peaks) := by
  rw [hitMatches_eq, List.getElem?_map, List.getElem?_range hi]
  rfl

/-- C29: the layer indices of the radial peaks of a side are `hitMatches[i] = i + 23 - g`,
consecutive integers, where `g = R23Gap` is the largest index `k` with
`peaks[k+1] - peaks[k] ≥ 2.5`, and `-1` when there is none.  When there is such a gap the peak
below the last one gets the index 23 and the peak above it the index 24; when there is none
the first peak gets the index 24. -/
theorem C29_layer_indices_from_last_gap (peaks : List ℚ) :
    LastGap peaks (R23Gap peaks) ∧
      (hitMatches peaks).length = peaks.length ∧
      (∀ i : Nat, i < peaks.length →
        (hitMatches peaks)[i]? = some ((i : Int) + 23 - R23Gap peaks)) ∧
      (∀ k : Nat, R23Gap peaks = (k : Int) →
        k + 1 < peaks.length ∧
          (hitMatches peaks)[k]? = some 23 ∧ (hitMatches peaks)[k + 1]? = some 24) ∧
      (R23Gap peaks = -1 → peaks ≠ [] → (hitMatches peaks)[0]? = some 24) := by
  refine ⟨R23Gap_spec peaks, hitMatches_length peaks, hitMatches_getElem? peaks, ?_, ?_⟩
  · intro k hk
    have hlen : k + 1 < peaks.length := by
      rcases R23Gap_spec peaks with ⟨h0, _⟩ | ⟨k1, hk1, hlt, _⟩
      · rw [hk] at h0; omega
      · rw [hk] at hk1
        have : k = k1 := by exact_mod_cast hk1
        omega
    refine ⟨hlen, ?_, ?_⟩
    · rw [hitMatches_getElem? peaks k (by omega), hk]
      congr 1
      omega
    · rw [hitMatches_getElem? peaks (k + 1) hlen, hk]
      congr 1
      push_cast
      omega
  · intro h0 hne
    have hlen : 0 < peaks.length := List.length_pos.mpr hne
    rw [hitMatches_getElem? peaks 0 hlen, h0]
    rfl

theorem sweepLoop_spec (proj : TH1D) : ∀ (rest pre : List ℚ) (a : ℚ) (fuel : Nat),
    rest.length < fuel →
    sweepLoop proj fuel { rPeaks := pre ++ a :: rest, i := (pre.length : Int) } =
      some (pre ++ sweepFrom proj a rest) := by
  intro rest
  induction rest with
  | nil =>
    intro pre a fuel hf
    obtain ⟨f, rfl⟩ : ∃ f, fuel = f + 1 := ⟨fuel - 1, by simp at hf; omega⟩
    have hstep : sweepStep proj { rPeaks := pre ++ [a], i := (pre.length : Int) } = none := by
      unfold sweepStep
      rw [if_neg]
      simp
    simp only [sweepLoop, hstep, sweepFrom]
  | cons b rest ih =>
    intro pre a fuel hf
    obtain ⟨f, rfl⟩ : ∃ f, fuel = f + 1 := ⟨fuel - 1, by simp at hf; omega⟩
    have hf1 : rest.length < f := by simp at hf; omega
    have hcond : (pre.length : Int) < ((pre ++ a :: b :: rest).length : Int) - 1 := by
      simp only [List.length_append, List.length_cons]
      push_cast
      omega
    have hi0 : ((pre.length : Int)).toNat = pre.length := Int.toNat_ofNat _
    have hi1 : ((pre.length : Int) + 1).toNat = pre.length + 1 := by omega
    have ha : (pre ++ a :: b :: rest).getD pre.length 0 = a := by
      rw [List.getD_eq_getElem?_getD, List.getElem?_append_right (le_refl _)]
      simp
    have hb : (pre ++ a :: b :: rest).getD (pre.length + 1) 0 = b := by
      rw [List.getD_eq_getElem?_getD, List.getElem?_append_right (Nat.le_succ _)]
      simp
    have he1 : (pre ++ a :: b :: rest).eraseIdx (pre.length + 1) = pre ++ a :: rest := by
      rw [List.eraseIdx_append_of_length_le (by omega)]
      simp
    have he0 : (pre ++ a :: b :: rest).eraseIdx pre.length = pre ++ b :: rest := by
      rw [List.eraseIdx_append_of_length_le (le_refl _)]
      simp
    have hidx : (pre.length : Int) - 1 + 1 = (pre.length : Int) := by omega
    unfold sweepLoop sweepStep
    simp only [hcond, if_true, hi0, hi1, ha, hb, he0, he1, hidx]
    by_cases h1 : b - a > 0.75
    · simp only [h1, if_true, sweepFrom]
      have := ih (pre ++ [a]) b f hf1
      simp only [List.length_append, List.length_singleton, List.append_assoc,
        List.singleton_append, Nat.cast_add, Nat.cast_one] at this
      exact this
    · by_cases h2 : peakContent proj a > peakContent proj b
      · simp only [h1, h2, if_true, if_false, sweepFrom]
        exact ih pre a f hf1
      · simp only [h1, h2, if_false, sweepFrom]
        exact ih pre b f hf1

theorem sweepFrom_ne_nil (proj : TH1D) : ∀ (rest : List ℚ) (a : ℚ), sweepFrom proj a rest ≠ [] := by
  intro rest
  induction rest with
  | nil => intro a; simp [sweepFrom]
  | cons b rest ih =>
    intro a
    unfold sweepFrom
    split_ifs
    · simp
    · exact ih a
    · exact ih b

/-- C30: the second loop of `getRPeaks` terminates on every candidate list: started at index 0
on a list `l`, it is left after at most `l.length + 1` tests of its condition, with the vector
`mergeSweep l` that `getRPeaks` returns.  An iteration either moves the index on and keeps the
vector, or removes one element of a vector of at least two and keeps the index.  A non-empty
list gives a non-empty result. -/
theorem C30_merge_sweep_terminates (proj : TH1D) (l : List ℚ) :
    (∀ fuel : Nat, l.length < fuel →
      sweepLoop proj fuel { rPeaks := l, i := 0 } = some (mergeSweep proj l)) ∧
    (∀ s s1 : SweepState, 0 ≤ s.i → sweepStep proj s = some s1 →
      (s1.rPeaks = s.rPeaks ∧ s1.i = s.i + 1 ∧ s1.i < s.rPeaks.length) ∨
      (s1.rPeaks.length + 1 = s.rPeaks.length ∧ s1.i = s.i ∧ 1 ≤ s1.rPeaks.length)) ∧
    (l ≠ [] → mergeSweep proj l ≠ []) := by
  refine ⟨?_, ?_, ?_⟩
  · intro fuel hf
    cases l with
    | nil =>
      obtain ⟨f, rfl⟩ : ∃ f, fuel = f + 1 := ⟨fuel - 1, by simp at hf; omega⟩
      rfl
    | cons a rest =>
      have := sweepLoop_spec proj rest [] a fuel (by simp at hf; omega)
      simpa [mergeSweep] using this
  · intro s s1 h0 hs
    unfold sweepStep at hs
    split_ifs at hs with hc h1 h2
    · left
      cases hs
      exact ⟨rfl, rfl, by show s.i + 1 < _; omega⟩
    · right
      cases hs
      have hlt : (s.i + 1).toNat < s.rPeaks.length := by omega
      refine ⟨?_, by show s.i - 1 + 1 = s.i; omega, ?_⟩
      · show (s.rPeaks.eraseIdx (s.i + 1).toNat).length + 1 = _
        rw [List.length_eraseIdx, if_pos hlt]
        omega
      · show 1 ≤ (s.rPeaks.eraseIdx (s.i + 1).toNat).length
        rw [List.length_eraseIdx, if_pos hlt]
        omega
    · right
      cases hs
      have hlt : s.i.toNat < s.rPeaks.length := by omega
      refine ⟨?_, by show s.i - 1 + 1 = s.i; omega, ?_⟩
      · show (s.rPeaks.eraseIdx s.i.toNat).length + 1 = _
        rw [List.length_eraseIdx, if_pos hlt]
        omega
      · show 1 ≤ (s.rPeaks.eraseIdx s.i.toNat).length
        rw [List.length_eraseIdx, if_pos hlt]
        omega
  · intro hne
    cases l with
    | nil => exact absurd rfl hne
    | cons a rest => exact sweepFrom_ne_nil proj rest a

/-! ## Idempotence of the guard bins: lemmas and properties -/

theorem clampR_clampR (R y : Nat) : clampR R (clampR R y) = clampR R y := by
  unfold clampR
  split_ifs <;> omega

theorem wrapPhi_wrapPhi (P x : Nat) (hP : 1 ≤ P) : wrapPhi P (wrapPhi P x) = wrapPhi P x := by
  unfold wrapPhi
  split_ifs <;> omega

theorem wrapPhi_outside (P x : Nat) (hP : 1 ≤ P) (hx : ¬ (1 ≤ x ∧ x ≤ P)) : wrapPhi P x = x := by
  unfold wrapPhi
  split_ifs <;> omega

theorem fillGuardHist_content_src (h : TH2) (x y : Nat) :
    (fillGuardHist h).content x y =
      h.content (guardX h.nbinsX h.nbinsY x y) (guardY h.nbinsX h.nbinsY x y) := by
  rw [fillGuardHist_content]
  unfold guardX guardY
  split_ifs <;> rfl

theorem fillGuardHist_error_src (h : TH2) (x y : Nat) :
    (fillGuardHist h).error x y =
      h.error (guardX h.nbinsX h.nbinsY x y) (guardY h.nbinsX h.nbinsY x y) := by
  rw [fillGuardHist_error]
  unfold guardX guardY
  split_ifs <;> rfl

/-- The bin whose value ends in bin `(x, y)` keeps its own value, as soon as there is an
azimuth bin. -/
theorem guard_source_fixed (P R x y : Nat) (hP : 1 ≤ P) :
    guardX P R (guardX P R x y) (guardY P R x y) = guardX P R x y ∧
      guardY P R (guardX P R x y) (guardY P R x y) = guardY P R x y := by
  have hY : guardY P R (guardX P R x y) (guardY P R x y) = guardY P R x y := by
    by_cases hx : 1 ≤ x ∧ x ≤ P
    · have hy : guardY P R x y = clampR R y := by unfold guardY; rw [if_pos hx]
      rw [hy]
      unfold guardY
      split_ifs
      · exact clampR_clampR R y
      · rfl
    · have hy : guardY P R x y = y := by unfold guardY; rw [if_neg hx]
      have hxx : guardX P R x y = x := by
        unfold guardX
        split_ifs
        · exact wrapPhi_outside P x hP hx
        · rfl
      rw [hxx, hy]
      unfold guardY
      rw [if_neg hx]
  refine ⟨?_, hY⟩
  have hX : guardX P R (guardX P R x y) (guardY P R x y) =
      if 1 ≤ guardY P R (guardX P R x y) (guardY P R x y) ∧
          guardY P R (guardX P R x y) (guardY P R x y) ≤ R then wrapPhi P (guardX P R x y)
      else guardX P R x y := rfl
  rw [hY] at hX
  rw [hX]
  by_cases hy : 1 ≤ guardY P R x y ∧ guardY P R x y ≤ R
  · rw [if_pos hy]
    have : guardX P R x y = wrapPhi P x := by unfold guardX; rw [if_pos hy]
    rw [this]
    exact wrapPhi_wrapPhi P x hP
  · rw [if_neg hy]

theorem fillGuardHist_idem (h : TH2) (hx : 1 ≤ h.nbinsX) :
    fillGuardHist (fillGuardHist h) = fillGuardHist h := by
  have hn := fillGuardHist_nbins h
  ext x y
  · exact (fillGuardHist_nbins _).1
  · exact (fillGuardHist_nbins _).2
  · rw [fillGuardHist_content_src (fillGuardHist h), hn.1, hn.2, fillGuardHist_content_src h,
      (guard_source_fixed h.nbinsX h.nbinsY x y hx).1,
      (guard_source_fixed h.nbinsX h.nbinsY x y hx).2, fillGuardHist_content_src h]
  · rw [fillGuardHist_error_src (fillGuardHist h), hn.1, hn.2, fillGuardHist_error_src h,
      (guard_source_fixed h.nbinsX h.nbinsY x y hx).1,
      (guard_source_fixed h.nbinsX h.nbinsY x y hx).2, fillGuardHist_error_src h]


theorem guard_source_interior (P R x y : Nat) (hP : 3 ≤ P) (hR : 3 ≤ R)
    (hx : 1 ≤ x ∧ x ≤ P) (hy : 1 ≤ y ∧ y ≤ R) :
    (2 ≤ guardX P R x y ∧ guardX P R x y ≤ P - 1) ∧
      (2 ≤ guardY P R x y ∧ guardY P R x y ≤ R - 1) ∧
      (2 ≤ x → x ≤ P - 1 → guardX P R x y = x) ∧ (2 ≤ y → y ≤ R - 1 → guardY P R x y = y) := by
  have hY : guardY P R x y = clampR R y := by unfold guardY; rw [if_pos hx]
  have hYr : 2 ≤ clampR R y ∧ clampR R y ≤ R - 1 := by
    unfold clampR
    split_ifs <;> omega
  have hX : guardX P R x y = wrapPhi P x := by
    unfold guardX
    rw [if_pos]
    rw [hY]
    omega
  rw [hX, hY]
  refine ⟨?_, hYr, ?_, ?_⟩
  · unfold wrapPhi
    split_ifs <;> omega
  · intro h1 h2
    unfold wrapPhi
    split_ifs <;> omega
  · intro h1 h2
    unfold clampR
    split_ifs <;> omega

/-- C27: `fill_guarding_bins` is idempotent on every container whose histograms have at least
one azimuth bin (as every ROOT histogram has): applying it twice gives the container that
applying it once gives, contents and errors of all bins.  For a histogram with at least three
bins per axis, every bin of the grid, the four corners included, ends up with the content and
the error of an interior bin, and the interior bins keep theirs. -/
theorem C27_fill_guarding_bins_idempotent (dcc : TpcDistortionCorrectionContainer)
    (hbins : HasPhiBins dcc) :
    fill_guarding_bins (fill_guarding_bins dcc) = fill_guarding_bins dcc ∧
      ∀ h : TH2, 3 ≤ h.nbinsX → 3 ≤ h.nbinsY →
        ∀ x y : Nat, 1 ≤ x ∧ x ≤ h.nbinsX → 1 ≤ y ∧ y ≤ h.nbinsY →
          ∃ x1 y1 : Nat, (2 ≤ x1 ∧ x1 ≤ h.nbinsX - 1) ∧ (2 ≤ y1 ∧ y1 ≤ h.nbinsY - 1) ∧
            (fillGuardHist h).content x y = h.content x1 y1 ∧
            (fillGuardHist h).error x y = h.error x1 y1 ∧
            (2 ≤ x → x ≤ h.nbinsX - 1 → x1 = x) ∧ (2 ≤ y → y ≤ h.nbinsY - 1 → y1 = y) := by
  constructor
  · rw [fill_guarding_bins_eq (fill_guarding_bins dcc), fill_guarding_bins_eq dcc]
    ext1 <;> funext s
    · exact fillGuardHist_idem _ (hbins s).1
    · exact fillGuardHist_idem _ (hbins s).2.1
    · exact fillGuardHist_idem _ (hbins s).2.2.1
    · exact fillGuardHist_idem _ (hbins s).2.2.2
  · intro h hP hR x y hx hy
    obtain ⟨h1, h2, h3, h4⟩ := guard_source_interior h.nbinsX h.nbinsY x y hP hR hx hy
    exact ⟨guardX h.nbinsX h.nbinsY x y, guardY h.nbinsX h.nbinsY x y, h1, h2,
      fillGuardHist_content_src h x y, fillGuardHist_error_src h x y, h3, h4⟩

/-- C27, witness: the container `dccRamp`, whose histograms have 4 x 4 bins that all differ. -/
theorem C27_witness :
    HasPhiBins dccRamp ∧
    (fill_guarding_bins (fill_guarding_bins dccRamp) = fill_guarding_bins dccRamp ∧
      ∀ h : TH2, 3 ≤ h.nbinsX → 3 ≤ h.nbinsY →
        ∀ x y : Nat, 1 ≤ x ∧ x ≤ h.nbinsX → 1 ≤ y ∧ y ≤ h.nbinsY →
          ∃ x1 y1 : Nat, (2 ≤ x1 ∧ x1 ≤ h.nbinsX - 1) ∧ (2 ≤ y1 ∧ y1 ≤ h.nbinsY - 1) ∧
            (fillGuardHist h).content x y = h.content x1 y1 ∧
            (fillGuardHist h).error x y = h.error x1 y1 ∧
            (2 ≤ x → x ≤ h.nbinsX - 1 → x1 = x) ∧ (2 ≤ y → y ≤ h.nbinsY - 1 → y1 = y)) :=
  ⟨by unfold HasPhiBins; decide,
    C27_fill_guarding_bins_idempotent dccRamp (by unfold HasPhiBins; decide)⟩

/-! ## The azimuthal gaps and their average rotation: lemmas and properties -/

theorem foldl_invariant {α β : Type} (P : α → Prop) (f : α → β → α) :
    ∀ (l : List β) (a : α), (∀ a, ∀ x ∈ l, P a → P (f a x)) → P a → P (l.foldl f a) := by
  intro l
  induction l with
  | nil => intro a _ ha; exact ha
  | cons x xs ih =>
    intro a hstep ha
    rw [List.foldl_cons]
    apply ih
    · intro a1 y hy h1
      exact hstep a1 y (List.mem_cons_of_mem _ hy) h1
    · exact hstep a x (List.mem_cons_self _ _) ha

theorem phiGapsBody_spec (h : TH1D) (l : List ℚ) (i : Nat) (h2 : 2 ≤ i) (hn : i ≤ h.nbins)
    (hl : (∀ x ∈ l, RisingEdge h x) ∧ l.Chain' (fun a b => b - a > M_PI / 36)) :
    (∀ x ∈ phiGapsBody h l i, RisingEdge h x) ∧
      (phiGapsBody h l i).Chain' (fun a b => b - a > M_PI / 36) := by
  unfold phiGapsBody
  by_cases hedge : h.GetBinContent i > 0 ∧ h.GetBinContent (i - 1) = 0
  · rw [if_pos hedge]
    have hnew : RisingEdge h (h.GetBinCenter i) := ⟨i, h2, hn, rfl, hedge.1, hedge.2⟩
    have hmem : ∀ x ∈ l ++ [h.GetBinCenter i], RisingEdge h x := by
      intro x hx
      rcases List.mem_append.mp hx with hx | hx
      · exact hl.1 x hx
      · rw [List.mem_singleton] at hx
        rw [hx]
        exact hnew
    by_cases hempty : l.length = 0
    · rw [if_pos hempty]
      refine ⟨hmem, ?_⟩
      have : l = [] := List.length_eq_zero.mp hempty
      rw [this]
      exact List.chain'_singleton _
    · rw [if_neg hempty]
      by_cases hgap : h.GetBinCenter i - l.getD (l.length - 1) 0 > M_PI / 36
      · rw [if_pos hgap]
        refine ⟨hmem, ?_⟩
        rw [List.chain'_append]
        refine ⟨hl.2, List.chain'_singleton _, ?_⟩
        intro x hx y hy
        rw [List.head?_cons, Option.mem_def, Option.some_inj] at hy
        rw [Option.mem_def, List.getLast?_eq_getElem?] at hx
        rw [List.getD_eq_getElem?_getD, hx] at hgap
        rw [← hy]
        exact hgap
      · rw [if_neg hgap]
        exact hl
  · rw [if_neg hedge]
    exact hl

theorem phiGapsOf_spec (h : TH1D) :
    (∀ x ∈ phiGapsOf h, RisingEdge h x) ∧
      (phiGapsOf h).Chain' (fun a b => b - a > M_PI / 36) := by
  unfold phiGapsOf
  apply foldl_invariant
    (fun l : List ℚ => (∀ x ∈ l, RisingEdge h x) ∧ l.Chain' (fun a b => b - a > M_PI / 36))
  · intro l i hi hl
    rw [List.mem_map] at hi
    obtain ⟨n, hn, rfl⟩ := hi
    rw [List.mem_range] at hn
    have hn2 : n + 2 ≤ h.nbins := by
      unfold TH1D.GetNbinsX at hn
      omega
    exact phiGapsBody_spec h l (n + 2) (by omega) hn2 hl
  · exact ⟨fun x hx => absurd hx (List.not_mem_nil x), List.chain'_nil⟩

theorem getPhiGaps_eq (phiHist : Fin 3 → TH1D) :
    getPhiGaps phiHist =
      [phiGapsOf (phiHist 0), phiGapsOf (phiHist 1), phiGapsOf (phiHist 2)] := rfl

/-- C21: `getPhiGaps` returns three vectors, one per radial band.  Every element of the vector
of a band is the centre of an azimuth bin `i ≥ 2` of the projection of the band whose content is
above zero while the content of bin `i - 1` is zero; consecutive elements differ by more than
`M_PI/36`, so the elements are strictly increasing. -/
theorem C21_getPhiGaps_rising_edges (phiHist : Fin 3 → TH1D) :
    (getPhiGaps phiHist).length = 3 ∧
      ∀ R : Fin 3, (getPhiGaps phiHist)[R.val]? = some (phiGapsOf (phiHist R)) ∧
        (∀ x ∈ phiGapsOf (phiHist R), ∃ i : Nat, 2 ≤ i ∧ i ≤ (phiHist R).GetNbinsX ∧
          x = (phiHist R).GetBinCenter i ∧ (phiHist R).GetBinContent i > 0 ∧
          (phiHist R).GetBinContent (i - 1) = 0) ∧
        (phiGapsOf (phiHist R)).Chain' (fun a b => b - a > M_PI / 36) ∧
        (phiGapsOf (phiHist R)).Chain' (fun a b => a < b) := by
  refine ⟨rfl, ?_⟩
  intro R
  have hs := phiGapsOf_spec (phiHist R)
  refine ⟨?_, hs.1, hs.2, ?_⟩
  · rw [getPhiGaps_eq]
    fin_cases R <;> rfl
  · apply List.Chain'.imp _ hs.2
    intro a b hab
    have hpi : (0 : ℚ) < M_PI / 36 := by unfold M_PI; norm_num
    linarith


theorem foldl_fixed {α β : Type} (f : α → β → α) (a : α) :
    ∀ l : List β, (∀ x ∈ l, f a x = a) → l.foldl f a = a := by
  intro l
  induction l with
  | nil => intro _; rfl
  | cons x xs ih =>
    intro h
    rw [List.foldl_cons, h x (List.mem_cons_self _ _)]
    exact ih (fun y hy => h y (List.mem_cons_of_mem _ hy))

theorem getD_mem_of_lt (l : List ℚ) (i : Nat) (h : i < l.length) : l.getD i 0 ∈ l := by
  rw [List.getD_eq_getElem _ _ h]
  exact List.getElem_mem h

theorem rotationSums_all_skipped (hit clust : List ℚ)
    (hskip : ∀ h ∈ hit, ∀ c ∈ clust, rotationSkip (rotationThreshold hit clust) h c = true) :
    rotationSums hit clust = (0, 0) := by
  unfold rotationSums
  apply foldl_fixed
  intro i hi
  rw [List.mem_range] at hi
  apply foldl_fixed
  intro j hj
  rw [List.mem_range] at hj
  unfold rotationBody
  rw [if_pos (hskip _ (getD_mem_of_lt hit i hi) _ (getD_mem_of_lt clust j hj))]

theorem getAverageRotation_eq (hit clust : List (List ℚ)) :
    getAverageRotation hit clust =
      [regionRotation (hit.getD 0 []) (clust.getD 0 []),
        regionRotation (hit.getD 1 []) (clust.getD 1 []),
        regionRotation (hit.getD 2 []) (clust.getD 2 [])] := rfl

theorem getAverageRotation_getElem? (hit clust : List (List ℚ)) (R : Nat) (hR : R < 3) :
    (getAverageRotation hit clust)[R]? =
      some (regionRotation (hit.getD R []) (clust.getD R [])) := by
  rw [getAverageRotation_eq]
  interval_cases R <;> rfl

/-- C24: the value that `getAverageRotation` gives for the region `R` is `sum/nMatch`, which is
the division-error value exactly when `nMatch = 0`: no test guards the division.  This is the
case when the first test of the inner loop skips every pair of a truth gap and an observed gap
of the region, that is, with a bound `(di+dj)/4 = t`, when no pair has
`|clust_j - hit_i| ≤ t`; in particular when the region has no observed gap. -/
theorem C24_rotation_without_matched_gap (hit clust : List (List ℚ)) (R : Nat) (hR : R < 3) :
    (getAverageRotation hit clust)[R]? =
        some (regionRotation (hit.getD R []) (clust.getD R [])) ∧
      (regionRotation (hit.getD R []) (clust.getD R []) = none ↔
        (rotationSums (hit.getD R []) (clust.getD R [])).2 = 0) ∧
      ((∀ h ∈ hit.getD R [], ∀ c ∈ clust.getD R [],
          rotationSkip (rotationThreshold (hit.getD R []) (clust.getD R [])) h c = true) →
        (getAverageRotation hit clust)[R]? = some none) ∧
      (∀ t : ℚ, rotationThreshold (hit.getD R []) (clust.getD R []) = some t →
        (∀ h ∈ hit.getD R [], ∀ c ∈ clust.getD R [], ¬ |c - h| ≤ t) →
        (getAverageRotation hit clust)[R]? = some none) ∧
      (clust.getD R [] = [] → (getAverageRotation hit clust)[R]? = some none) := by
  have hget := getAverageRotation_getElem? hit clust R hR
  have hzero : ∀ h c : List ℚ,
      (∀ x ∈ h, ∀ y ∈ c, rotationSkip (rotationThreshold h c) x y = true) →
      regionRotation h c = none := by
    intro h c hs
    unfold regionRotation
    rw [rotationSums_all_skipped h c hs]
    rfl
  refine ⟨hget, ?_, ?_, ?_, ?_⟩
  · unfold regionRotation divByCount
    split_ifs with h0
    · exact ⟨fun _ => h0, fun _ => rfl⟩
    · exact ⟨fun h => (by cases h), fun h => absurd h h0⟩
  · intro hs
    rw [hget, hzero _ _ hs]
  · intro t ht hs
    rw [hget, hzero]
    intro x hx y hy
    rw [ht]
    unfold rotationSkip
    exact decide_eq_true (not_le.mp (hs x hx y hy))
  · intro he
    rw [hget, hzero]
    intro x _ y hy
    rw [he] at hy
    exact absurd hy (List.not_mem_nil y)

/-- C24, witness: region 0 with the truth gaps `0.75, 2.75` and the observed gaps `10, 12`
(bound 1: every pair is skipped); regions 1 and 2 have no gap. -/
theorem C24_witness :
    0 < 3 ∧
    ((getAverageRotation [[0.75, 2.75], [], []] [[10, 12], [], []])[0]? =
        some (regionRotation (([[0.75, 2.75], [], []] : List (List ℚ)).getD 0 [])
          (([[10, 12], [], []] : List (List ℚ)).getD 0 [])) ∧
      (regionRotation (([[0.75, 2.75], [], []] : List (List ℚ)).getD 0 [])
          (([[10, 12], [], []] : List (List ℚ)).getD 0 []) = none ↔
        (rotationSums (([[0.75, 2.75], [], []] : List (List ℚ)).getD 0 [])
          (([[10, 12], [], []] : List (List ℚ)).getD 0 [])).2 = 0) ∧
      ((∀ h ∈ ([[0.75, 2.75], [], []] : List (List ℚ)).getD 0 [],
          ∀ c ∈ ([[10, 12], [], []] : List (List ℚ)).getD 0 [],
          rotationSkip (rotationThreshold (([[0.75, 2.75], [], []] : List (List ℚ)).getD 0 [])
            (([[10, 12], [], []] : List (List ℚ)).getD 0 [])) h c = true) →
        (getAverageRotation [[0.75, 2.75], [], []] [[10, 12], [], []])[0]? = some none) ∧
      (∀ t : ℚ, rotationThreshold (([[0.75, 2.75], [], []] : List (List ℚ)).getD 0 [])
          (([[10, 12], [], []] : List (List ℚ)).getD 0 []) = some t →
        (∀ h ∈ ([[0.75, 2.75], [], []] : List (List ℚ)).getD 0 [],
          ∀ c ∈ ([[10, 12], [], []] : List (List ℚ)).getD 0 [], ¬ |c - h| ≤ t) →
        (getAverageRotation [[0.75, 2.75], [], []] [[10, 12], [], []])[0]? = some none) ∧
      (([[10, 12], [], []] : List (List ℚ)).getD 0 [] = [] →
        (getAverageRotation [[0.75, 2.75], [], []] [[10, 12], [], []])[0]? = some none)) ∧
    (getAverageRotation [[0.75, 2.75], [], []] [[10, 12], [], []]) = [none, none, none] ∧
    rotationThreshold [0.75, 2.75] [10, 12] = some 1 :=
  ⟨by decide, C24_rotation_without_matched_gap [[0.75, 2.75], [], []] [[10, 12], [], []] 0
    (by decide), by decide!, by decide!⟩

theorem angleR_eq (perp : ℚ) : angleR perp = (regionOf perp : Int) := by
  unfold angleR regionOf
  by_cases h1 : perp < 41
  · have h2 : ¬ perp ≥ 58 := by
      intro h
      have : perp ≥ 58 := h
      linarith
    simp only [h1, h2, if_true, if_false]
    rfl
  · by_cases h2 : perp < 58
    · have h3 : ¬ perp ≥ 58 := not_le.mpr h2
      have h4 : perp ≥ 41 := not_lt.mp h1
      simp only [h1, h2, h3, h4, and_self, if_true, if_false]
      rfl
    · have h3 : perp ≥ 58 := not_lt.mp h2
      simp only [h1, h2, h3, if_true, if_false]
      rfl

theorem matchAndFill_eq (fr : FillRule) (inp : MatchInput) (rot : GapRotation) (g : Grids) :
    matchAndFill fr inp rot g = ((matching inp).matched_pair, process_event fr inp g) := by
  unfold matchAndFill
  rfl

/-- C23: the estimates `angleDiff`, `angleDiff_pos`, `angleDiff_neg` returned by
`getAverageRotation` are not consumed: for any two values of them, with the other inputs
equal, `process_event` makes the same matched pairs and the same containers.  The azimuth
used by the angular gate is the cluster azimuth shifted by
`hitRotation[k+1] - clustRotation_pos[k]` (positive z) or
`hitRotation[k+1] - clustRotation_neg[k]` (otherwise), `k` the region of the cluster radius. -/
theorem C23_gap_rotation_not_consumed (fr : FillRule) (inp : MatchInput) (rot1 rot2 : GapRotation)
    (g : Grids) :
    matchAndFill fr inp rot1 g = matchAndFill fr inp rot2 g ∧
      (∀ p1 p2 : PhiProjections,
        matchAndFill fr inp (gapRotation p1) g = matchAndFill fr inp (gapRotation p2) g) ∧
      ∀ t c : TVector3,
        dphi inp t c =
          delta_phi (t.Phi - (c.Phi + (inp.hitRotation (regionOf c.Perp + 1) -
            (if c.Z > 0 then inp.clustRotation_pos (regionOf c.Perp)
              else inp.clustRotation_neg (regionOf c.Perp))))) := by
  refine ⟨by rw [matchAndFill_eq, matchAndFill_eq], ?_, ?_⟩
  · intro p1 p2
    rw [matchAndFill_eq, matchAndFill_eq]
  intro t c
  have hne : angleR c.Perp ≠ -1 := by
    rw [angleR_eq]
    omega
  unfold dphi phi2
  rw [if_pos hne, angleR_eq, Int.toNat_ofNat]
  split_ifs <;> rfl

/-! ## The residuals accumulated for the matched pairs: lemmas and properties -/

theorem contribution_eq_residualSum (fr : FillRule) (inp : MatchInput) (wr : Residual → ℚ)
    (w : TVector3 → TVector3 → ℚ) (hw : ∀ t c, wr (residual t c) = w t c) (s : Fin 2)
    (a b : Nat) : ∀ pairs : List (Nat × Nat),
    contribution fr inp wr s a b pairs = residualSum fr inp w s a b pairs := by
  intro pairs
  induction pairs with
  | nil => rfl
  | cons p ps ih =>
    unfold contribution residualSum
    rw [ih]
    congr 1
    unfold pairResidual
    cases inp.m_truth_pos[p.1]? with
    | none => rfl
    | some t =>
      cases inp.reco_pos[p.2]? with
      | none => rfl
      | some c =>
        simp only [hw]
        rfl

theorem fillResidual_added (fr : FillRule) (t c : TVector3)
    (d : TpcDistortionCorrectionContainer) :
    ResidualsAdded fr t c d (fillResidual fr d (residual t c)) := by
  intro s a b
  unfold fillResidual
  exact ⟨fill_content fr d.m_hDRint _ _ _ _ s a b, fill_content fr d.m_hDPint _ _ _ _ s a b,
    fill_content fr d.m_hDZint _ _ _ _ s a b, fill_content fr d.m_hentries _ _ _ _ s a b⟩

/-- C5: for every matched pair `(i, j)` the loop over the matched pairs adds, to the per-event
container and to the aggregated one, on the side and in the bin of the cluster, the values
`dr = r_obs - r_truth`, `rdphi = r_obs * delta_phi(phi_obs - phi_truth)` and
`dz = z_obs - z_truth` (and one entry); when both azimuths lie in `(-M_PI, M_PI]` the wrapped
difference lies in `(-M_PI, M_PI]` and differs from `phi_obs - phi_truth` by a multiple of
`2 * M_PI`.  After `process_event` every content of the aggregated residual histograms is the
content before plus the sum of these values over the matched pairs of that side and bin. -/
theorem C5_residuals_of_matched_pair (fr : FillRule) (inp : MatchInput) (g : Grids) (i j : Nat)
    (h : (i, j) ∈ (matching inp).matched_pair) :
    (∃ t c, inp.m_truth_pos[i]? = some t ∧ inp.reco_pos[j]? = some c ∧
      (∀ g1 : Grids,
        ResidualsAdded fr t c g1.m_dcc_out (accumulatePair fr inp g1 (i, j)).m_dcc_out ∧
        ResidualsAdded fr t c g1.m_dcc_out_aggregated
          (accumulatePair fr inp g1 (i, j)).m_dcc_out_aggregated) ∧
      (-M_PI < t.Phi ∧ t.Phi ≤ M_PI → -M_PI < c.Phi ∧ c.Phi ≤ M_PI →
        (-M_PI < delta_phi (c.Phi - t.Phi) ∧ delta_phi (c.Phi - t.Phi) ≤ M_PI) ∧
        ∃ k : Int, delta_phi (c.Phi - t.Phi) = (c.Phi - t.Phi) + k * (2 * M_PI))) ∧
    ∀ (s : Fin 2) (a b : Nat),
      ((process_event fr inp g).m_dcc_out_aggregated.m_hDRint s).content a b =
        (g.m_dcc_out_aggregated.m_hDRint s).content a b +
          residualSum fr inp (fun t c => c.Perp - t.Perp) s a b (matching inp).matched_pair ∧
      ((process_event fr inp g).m_dcc_out_aggregated.m_hDPint s).content a b =
        (g.m_dcc_out_aggregated.m_hDPint s).content a b +
          residualSum fr inp (fun t c => c.Perp * delta_phi (c.Phi - t.Phi)) s a b
            (matching inp).matched_pair ∧
      ((process_event fr inp g).m_dcc_out_aggregated.m_hDZint s).content a b =
        (g.m_dcc_out_aggregated.m_hDZint s).content a b +
          residualSum fr inp (fun t c => c.Z - t.Z) s a b (matching inp).matched_pair := by
  constructor
  · obtain ⟨pre, post, hsplit⟩ := List.append_of_mem h
    obtain ⟨t, c, ht, hc, _⟩ := AllBest_matching inp pre i j post hsplit
    refine ⟨t, c, ht, hc, ?_, ?_⟩
    · intro g1
      have hacc : accumulatePair fr inp g1 (i, j) =
          { m_dcc_out := fillResidual fr g1.m_dcc_out (residual t c)
            m_dcc_out_aggregated := fillResidual fr g1.m_dcc_out_aggregated (residual t c) } := by
        unfold accumulatePair pairResidual
        simp only [ht, hc]
      rw [hacc]
      exact ⟨fillResidual_added fr t c _, fillResidual_added fr t c _⟩
    · intro h1 h2
      exact ⟨delta_phi_range _ (by linarith [h1.1, h1.2, h2.1, h2.2])
        (by linarith [h1.1, h1.2, h2.1, h2.2]), delta_phi_turn _⟩
  · intro s a b
    obtain ⟨⟨_, _, h1⟩, ⟨_, _, h2⟩, ⟨_, _, h3⟩, _⟩ := process_event_aggregated fr inp g s
    refine ⟨?_, ?_, ?_⟩
    · rw [h1 a b, contribution_eq_residualSum fr inp _ (fun t c => c.Perp - t.Perp)
        (fun _ _ => rfl)]
    · rw [h2 a b, contribution_eq_residualSum fr inp _
        (fun t c => c.Perp * delta_phi (c.Phi - t.Phi)) (fun _ _ => rfl)]
    · rw [h3 a b, contribution_eq_residualSum fr inp _ (fun t c => c.Z - t.Z)
        (fun _ _ => rfl)]

/-- C5, witness: the pair `(49, 1)` of the event `inputTwo` (truth point at radius 44 and
azimuth 0, cluster at radius 44 and azimuth 0.01, both with `z = -1`), with bins of width 1
and containers that are zero before the event: `rdphi = 0.44` arrives in bin `(1, 45)` of
side 0. -/
theorem C5_witness :
    (49, 1) ∈ (matching inputTwo).matched_pair ∧
    ((∃ t c, inputTwo.m_truth_pos[49]? = some t ∧ inputTwo.reco_pos[1]? = some c ∧
      (∀ g1 : Grids,
        ResidualsAdded unitFill t c g1.m_dcc_out
          (accumulatePair unitFill inputTwo g1 (49, 1)).m_dcc_out ∧
        ResidualsAdded unitFill t c g1.m_dcc_out_aggregated
          (accumulatePair unitFill inputTwo g1 (49, 1)).m_dcc_out_aggregated) ∧
      (-M_PI < t.Phi ∧ t.Phi ≤ M_PI → -M_PI < c.Phi ∧ c.Phi ≤ M_PI →
        (-M_PI < delta_phi (c.Phi - t.Phi) ∧ delta_phi (c.Phi - t.Phi) ≤ M_PI) ∧
        ∃ k : Int, delta_phi (c.Phi - t.Phi) = (c.Phi - t.Phi) + k * (2 * M_PI))) ∧
    ∀ (s : Fin 2) (a b : Nat),
      ((process_event unitFill inputTwo ⟨dccZero, dccZero⟩).m_dcc_out_aggregated.m_hDRint
          s).content a b =
        (dccZero.m_hDRint s).content a b +
          residualSum unitFill inputTwo (fun t c => c.Perp - t.Perp) s a b
            (matching inputTwo).matched_pair ∧
      ((process_event unitFill inputTwo ⟨dccZero, dccZero⟩).m_dcc_out_aggregated.m_hDPint
          s).content a b =
        (dccZero.m_hDPint s).content a b +
          residualSum unitFill inputTwo (fun t c => c.Perp * delta_phi (c.Phi - t.Phi)) s a b
            (matching inputTwo).matched_pair ∧
      ((process_event unitFill inputTwo ⟨dccZero, dccZero⟩).m_dcc_out_aggregated.m_hDZint
          s).content a b =
        (dccZero.m_hDZint s).content a b +
          residualSum unitFill inputTwo (fun t c => c.Z - t.Z) s a b
            (matching inputTwo).matched_pair) ∧
    ((process_event unitFill inputTwo ⟨dccZero, dccZero⟩).m_dcc_out_aggregated.m_hDPint
      0).content 1 45 = 0.44 ∧
    ((process_event unitFill inputTwo ⟨dccZero, dccZero⟩).m_dcc_out_aggregated.m_hentries
      0).content 1 45 = 1 :=
  ⟨by decide!, C5_residuals_of_matched_pair unitFill inputTwo ⟨dccZero, dccZero⟩ 49 1
    (by decide!), by decide!, by decide!⟩

/-! ## The scenario with the radial peaks of the event: lemmas and properties -/

end PHTpcCentralMembraneMatcher

/-! ## The quality-assurance module: properties -/

namespace TpcSeedsQA

/-- C18: with the track map missing and the four other nodes present, `InitRun` returns
`ABORTEVENT`, which is not the abort-run code; the same for each of the four nodes that the
first check tests, alone or together. -/
theorem C18_missing_node_returns_ABORTEVENT :
    InitRun { allFound with trackmap := false } = Fun4AllReturnCodes.ABORTEVENT ∧
    InitRun { allFound with clustermap := false } = Fun4AllReturnCodes.ABORTEVENT ∧
    InitRun { allFound with actsgeom := false } = Fun4AllReturnCodes.ABORTEVENT ∧
    InitRun { allFound with vertexmap := false } = Fun4AllReturnCodes.ABORTEVENT ∧
    InitRun noneFound = Fun4AllReturnCodes.ABORTEVENT ∧
    InitRun { allFound with g4geom := false } = Fun4AllReturnCodes.ABORTRUN ∧
    Fun4AllReturnCodes.ABORTEVENT ≠ Fun4AllReturnCodes.ABORTRUN := by
  decide

end TpcSeedsQA
